import Mathlib

/-!
# Event analytics service: ingestion pipeline

A shallow embedding of the consumer side of the service
(`internal/consumer/event_consumer.go`, `internal/repository/clickhouse_repo.go`,
`internal/metrics/prometheus.go`, `internal/models/event.go`) together with the
properties of the batching worker, the bulk writer, the retry sink and the
realtime aggregator.

Conventions.
* Instants are whole seconds since the Unix epoch (`Int`); durations are seconds.
* A Go `time.Time` is an instant together with the zone offset its location has
  at that instant; `Format` renders the wall clock of that zone.
* The collaborators that live outside the repository (the JSON codec, the
  ClickHouse driver, the Redis server, the Kafka reader) are explicit: the codec is
  a parameter, the driver and the server are small state machines whose failures
  are chosen by the environment.
* Where the bytes of a string matter (the JSON form of an event) a Go string is a
  list of bytes; a `float64` is the rational it denotes and every operation rounds
  to the nearest one, ties to even.
-/

namespace EventAnalytics

/-! ## Time -/

/-- Seconds since the Unix epoch. -/
abbrev Instant := Int

/-- A Go `time.Time`: an instant and the offset (seconds east of UTC) of its location. -/
structure GoTime where
  unix : Instant
  offset : Int
  deriving DecidableEq, Repr

/-- A Go `*time.Location`: the offset in force at each instant. -/
abbrev Location := Instant → Int

/-- The location `time.UTC`. -/
def utc : Location := fun _ => 0

/-- The call `time.Now()` in a process whose local zone is `loc`, made at instant `now`. -/
def timeNow (loc : Location) (now : Instant) : GoTime :=
  { unix := now, offset := loc now }

/-- The method `Time.UTC()`: same instant, zone UTC. -/
def GoTime.UTC (t : GoTime) : GoTime := { t with offset := 0 }

/-- Wall-clock seconds of `t` in its own zone. -/
def GoTime.wall (t : GoTime) : Int := t.unix + t.offset

/-- Days since 1970-01-01 of the wall clock of `t`. -/
def GoTime.wallDay (t : GoTime) : Int := t.wall / 86400

/-- Hour of the day (0..23) of the wall clock of `t`. -/
def GoTime.hour (t : GoTime) : Nat := (t.wall % 86400 / 3600).toNat

/-- Proleptic Gregorian date (year, month, day) of a day number counted from 1970-01-01. -/
def civilFromDays (z : Int) : Int × Nat × Nat :=
  let z := z + 719468
  let era := z / 146097
  let doe := z - era * 146097
  let yoe := (doe - doe / 1460 + doe / 36524 - doe / 146096) / 365
  let y := yoe + era * 400
  let doy := doe - (365 * yoe + yoe / 4 - yoe / 100)
  let mp := (5 * doy + 2) / 153
  let d := doy - (153 * mp + 2) / 5 + 1
  let m := if mp < 10 then mp + 3 else mp - 9
  (if m ≤ 2 then y + 1 else y, m.toNat, d.toNat)

/-- Decimal digit character. -/
def digitChar (n : Nat) : Char := Char.ofNat (48 + n % 10)

/-- Two decimal digits, zero padded (layout elements `01`, `02`, `15`). -/
def pad2 (n : Nat) : String := String.mk [digitChar (n / 10), digitChar n]

/-- Four decimal digits, zero padded. -/
def pad4 (n : Nat) : String :=
  String.mk [digitChar (n / 1000), digitChar (n / 100), digitChar (n / 10), digitChar n]

/-- The layout element `2006`: the year in at least four digits, zero padded, with a minus
sign for the years before year 0. -/
def formatYear (y : Int) : String :=
  let digits := if y.natAbs < 10000 then pad4 y.natAbs else toString y.natAbs
  if y < 0 then "-" ++ digits else digits

/-- The call `t.Format("20060102")`. -/
def GoTime.formatCompactDay (t : GoTime) : String :=
  let (y, m, d) := civilFromDays t.wallDay
  formatYear y ++ pad2 m ++ pad2 d

/-- The call `t.Format("2006-01-02")`. -/
def GoTime.formatDay (t : GoTime) : String :=
  let (y, m, d) := civilFromDays t.wallDay
  formatYear y ++ "-" ++ pad2 m ++ "-" ++ pad2 d

/-- The call `t.Format("2006-01-02-15")`. -/
def GoTime.formatHour (t : GoTime) : String :=
  t.formatDay ++ "-" ++ pad2 t.hour

/-! ## Data model (`internal/models/event.go`) -/

/-- The zero value of `time.Time` (January 1, year 1, 00:00 UTC). -/
def GoTime.zero : GoTime := { unix := -62135596800, offset := 0 }

/-- The struct `models.KafkaMetadata`. -/
structure KafkaMetadata where
  Topic : String
  Partition : Int
  Offset : Int
  ProducedAt : GoTime
  ConsumedAt : GoTime
  deriving DecidableEq, Repr

/-- The zero value of `models.KafkaMetadata`. -/
def KafkaMetadata.zero : KafkaMetadata :=
  { Topic := "", Partition := 0, Offset := 0, ProducedAt := GoTime.zero, ConsumedAt := GoTime.zero }

/-- The struct `models.Event`. The open `metadata` map is opaque to the pipeline and is
kept as a list of key/value pairs. -/
structure Event where
  ID : String
  ProjectID : String
  UserID : String
  EventType : String
  PageURL : String
  Metadata : List (String × String)
  UserAgent : String
  IPAddress : String
  Timestamp : GoTime
  KafkaMetadata : KafkaMetadata
  deriving DecidableEq, Repr

/-- A `kafka.Message` as far as the worker reads it. -/
structure Message where
  Value : String
  Partition : Int
  Offset : Int
  deriving DecidableEq, Repr

/-- Go `error` values. -/
abbrev Err := String

/-- What the process gets from its runtime: the JSON codec of `encoding/json` on
`models.Event` and the local time zone. -/
structure Runtime where
  /-- Decoding by `json.Unmarshal(msg.Value, &event)` into a fresh event; `none` is an error. -/
  unmarshal : String → Option Event
  /-- Encoding by `json.Marshal(event)`; `none` is an error. -/
  marshal : Event → Option String
  /-- The zone `time.Local`. -/
  Local : Location

/-! ## Metrics (`internal/metrics/prometheus.go`, generic methods) -/

/-- The maps `customCounters` and `customHistograms` of `metrics.Metrics`; a name that is
absent has not been registered yet. -/
structure Metrics where
  customCounters : String → Option Int
  customHistograms : String → Option (List Int)

/-- A fresh `Metrics` as built by `NewMetrics`. -/
def Metrics.new : Metrics :=
  { customCounters := fun _ => none, customHistograms := fun _ => none }

/-- The method `Metrics.IncrementBy`: register the counter on first use, then add `value`. -/
def Metrics.IncrementBy (m : Metrics) (name : String) (value : Int) : Metrics :=
  let counter := match m.customCounters name with
    | some c => c
    | none => 0
  { m with customCounters := Function.update m.customCounters name (some (counter + value)) }

/-- The method `Metrics.Increment`: register the counter on first use, then add one. -/
def Metrics.Increment (m : Metrics) (name : String) : Metrics :=
  let counter := match m.customCounters name with
    | some c => c
    | none => 0
  { m with customCounters := Function.update m.customCounters name (some (counter + 1)) }

/-- The method `Metrics.Timing`: register the histogram on first use, then observe. -/
def Metrics.Timing (m : Metrics) (name : String) (duration : Int) : Metrics :=
  let histogram := match m.customHistograms name with
    | some h => h
    | none => []
  { m with customHistograms := Function.update m.customHistograms name (some (histogram ++ [duration])) }

/-- Current value of a counter, zero when it has not been registered. -/
def Metrics.counter (m : Metrics) (name : String) : Int :=
  match m.customCounters name with
  | some c => c
  | none => 0

/-! ## ClickHouse (`internal/repository/clickhouse_repo.go`) -/

/-- One row of the `events` table, in the column order of `batch.Append`. -/
structure Row where
  id : String
  project_id : String
  user_id : String
  event_type : String
  page_url : String
  metadata : List (String × String)
  user_agent : String
  ip_address : String
  timestamp : GoTime
  deriving DecidableEq, Repr

/-- The arguments `InsertEventBatch` gives to `batch.Append` for one event. -/
def Event.toRow (e : Event) : Row :=
  { id := e.ID, project_id := e.ProjectID, user_id := e.UserID, event_type := e.EventType,
    page_url := e.PageURL, metadata := e.Metadata, user_agent := e.UserAgent,
    ip_address := e.IPAddress, timestamp := e.Timestamp }

/-- The columnar store: the persisted rows and the blocks handed to `batch.Send`. -/
structure ClickHouse where
  rows : List Row
  sent : List (List Row)
  deriving DecidableEq, Repr

/-- Failures of the ClickHouse driver during one `InsertEventBatch` call, chosen by the
environment: `PrepareBatch`, the `Append` of the i-th row, and `Send`. -/
structure DriverFaults where
  prepare : Option Err
  append : Nat → Option Err
  send : Option Err

/-- A driver that never fails. -/
def DriverFaults.none : DriverFaults :=
  { prepare := Option.none, append := fun _ => Option.none, send := Option.none }

/-- Modelled from the spec: the driver method `batch.Send` of clickhouse-go is not part of
the repository; section 4.3 gives the store batch-append semantics, all rows of the block are
written or none is and the call reports the failure. The block is recorded as handed over. -/
def batchSend (f : DriverFaults) (ch : ClickHouse) (block : List Row) : ClickHouse × Option Err :=
  match f.send with
  | some err => ({ ch with sent := ch.sent ++ [block] }, some err)
  | none => ({ rows := ch.rows ++ block, sent := ch.sent ++ [block] }, none)

/-- The loop `for _, event := range events { err := batch.Append(...) ... }`: rows are buffered
on the client, the first failing `Append` ends the loop with its error. -/
def appendRows (f : DriverFaults) : Nat → List Event → List Row → Except Err (List Row)
  | _, [], block => .ok block
  | i, e :: es, block =>
    match f.append i with
    | some err => .error err
    | none => appendRows f (i + 1) es (block ++ [e.toRow])

/-- The method `clickHouseRepo.InsertEventBatch`. -/
def InsertEventBatch (f : DriverFaults) (ch : ClickHouse) (events : List Event) :
    ClickHouse × Option Err :=
  if events.length = 0 then (ch, none)
  else
    match f.prepare with
    | some err => (ch, some err)
    | none =>
      match appendRows f 0 events [] with
      | .error err => (ch, some err)
      | .ok block => batchSend f ch block

/-! ## Redis (commands issued through `redisRepo.Client`) -/

/-- A value stored under a Redis key. The HyperLogLog is kept as the list of distinct
members it has seen; a hash field that is absent counts as zero. -/
inductive RedisValue
  | list (items : List String)
  | hash (fields : String → Int)
  | hll (members : List String)

/-- A key of the keyspace: its value and its expiry deadline, if any. -/
structure RedisEntry where
  value : RedisValue
  expireAt : Option Instant

/-- The commands the consumer issues. -/
inductive RedisCmd
  | RPush (key : String) (value : String)
  | Expire (key : String) (ttl : Int)
  | HIncrBy (key : String) (field : String) (incr : Int)
  | PFAdd (key : String) (element : String)
  deriving DecidableEq, Repr

/-- The Redis server: the keyspace and the commands the client has issued, in order. -/
structure Redis where
  keys : String → Option RedisEntry
  issued : List RedisCmd

/-- An empty server. -/
def Redis.empty : Redis := { keys := fun _ => none, issued := [] }

/-- The entry of `key` at instant `now`; a key whose deadline has passed is gone. -/
def Redis.get (r : Redis) (now : Instant) (key : String) : Option RedisEntry :=
  match r.keys key with
  | none => none
  | some e =>
    match e.expireAt with
    | none => some e
    | some d => if d ≤ now then none else some e

/-- Store an entry under `key`. -/
def Redis.set (r : Redis) (key : String) (e : RedisEntry) : Redis :=
  { r with keys := Function.update r.keys key (some e) }

/-- The items of the list at `key`; a missing key is the empty list. -/
def Redis.lrange (r : Redis) (now : Instant) (key : String) : List String :=
  match r.get now key with
  | some ⟨.list items, _⟩ => items
  | _ => []

/-- The value of `field` in the hash at `key`; zero when the key or the field is missing. -/
def Redis.hget (r : Redis) (now : Instant) (key field : String) : Int :=
  match r.get now key with
  | some ⟨.hash fields, _⟩ => fields field
  | _ => 0

/-- The members recorded by the HyperLogLog at `key`. -/
def Redis.pfmembers (r : Redis) (now : Instant) (key : String) : List String :=
  match r.get now key with
  | some ⟨.hll members, _⟩ => members
  | _ => []

/-- Remaining time to live of `key` at `now`: `none` when the key is missing or has no
deadline. -/
def Redis.ttl (r : Redis) (now : Instant) (key : String) : Option Int :=
  match r.get now key with
  | none => none
  | some e =>
    match e.expireAt with
    | none => none
    | some d => some (d - now)

/-- Effect of a command the server executes at instant `now`. A command against a key of
another type is rejected and changes nothing; `EXPIRE` on a missing key changes nothing. -/
def Redis.apply (r : Redis) (now : Instant) : RedisCmd → Redis
  | .RPush key value =>
    match r.get now key with
    | none => r.set key ⟨.list [value], none⟩
    | some ⟨.list items, ex⟩ => r.set key ⟨.list (items ++ [value]), ex⟩
    | some _ => r
  | .Expire key ttl =>
    match r.get now key with
    | none => r
    | some e => r.set key ⟨e.value, some (now + ttl)⟩
  | .HIncrBy key field incr =>
    match r.get now key with
    | none => r.set key ⟨.hash (Function.update (fun _ => 0) field incr), none⟩
    | some ⟨.hash fields, ex⟩ =>
      r.set key ⟨.hash (Function.update fields field (fields field + incr)), ex⟩
    | some _ => r
  | .PFAdd key element =>
    match r.get now key with
    | none => r.set key ⟨.hll [element], none⟩
    | some ⟨.hll members, ex⟩ =>
      r.set key ⟨.hll (if element ∈ members then members else members ++ [element]), ex⟩
    | some _ => r

/-- The client issues a command; the server executes it when the command reaches it
(`up = true`) and nothing changes when it does not. The result is dropped by the caller. -/
def Redis.exec (r : Redis) (up : Bool) (now : Instant) (cmd : RedisCmd) : Redis :=
  let r1 := if up then r.apply now cmd else r
  { r1 with issued := r.issued ++ [cmd] }

/-! ## Consumer (`internal/consumer/event_consumer.go`) -/

/-- What is observed of a worker at its boundary with the collaborators. -/
inductive Obs
  | processBatch (events : List Event)
  | InsertEventBatch (events : List Event)
  | updateCache (events : List Event)
  | saveFailedBatch (events : List Event)
  | workerStopped (id : Nat)
  deriving DecidableEq, Repr

/-- Everything outside the worker that it acts on. -/
structure World where
  clickhouse : ClickHouse
  redis : Redis
  metrics : Metrics
  trace : List Obs

/-- The world before anything happened. -/
def World.init : World :=
  { clickhouse := { rows := [], sent := [] }, redis := Redis.empty, metrics := Metrics.new,
    trace := [] }

/-- The environment of one `processBatch` call: the failures of the driver, which of the
Redis commands issued during the call (numbered from 0) reach the server, the instant read
by `time.Now()` (also the instant at which the server executes the commands), and the time
`time.Since(startTime)` measures. -/
structure FlushEnv where
  driver : DriverFaults
  redisUp : Nat → Bool
  now : Instant
  elapsed : Int

/-- An environment in which nothing fails. -/
def FlushEnv.healthy (now : Instant) : FlushEnv :=
  { driver := DriverFaults.none, redisUp := fun _ => true, now := now, elapsed := 0 }

/-- The key `"failed_events:" + time.Now().Format("20060102")`. -/
def failedKey (R : Runtime) (now : Instant) : String :=
  "failed_events:" ++ (timeNow R.Local now).formatCompactDay

/-- The value `data` of `data, _ := json.Marshal(event)`: empty when marshalling fails. -/
def marshalOrEmpty (R : Runtime) (e : Event) : String :=
  match R.marshal e with
  | some data => data
  | none => ""

/-- The loop `for _, event := range events { ...; RPush(ctx, key, data) }`, the commands
numbered from `i`. -/
def pushAll (R : Runtime) (env : FlushEnv) (key : String) : Nat → List Event → Redis → Redis
  | _, [], r => r
  | i, e :: es, r =>
    pushAll R env key (i + 1) es (r.exec (env.redisUp i) env.now (.RPush key (marshalOrEmpty R e)))

/-- The method `EventConsumer.saveFailedBatch`. -/
def saveFailedBatch (R : Runtime) (env : FlushEnv) (w : World) (events : List Event) : World :=
  let key := failedKey R env.now
  let r := pushAll R env key 0 events w.redis
  let r := r.exec (env.redisUp events.length) env.now (.Expire key (24 * 3600))
  { w with redis := r, trace := w.trace ++ [Obs.saveFailedBatch events] }

/-- The body of the loop of `updateCache` for one event, the commands numbered from `i`. -/
def updateOne (env : FlushEnv) (i : Nat) (e : Event) (r : Redis) : Redis :=
  let hourKey := "stats:hourly:" ++ e.Timestamp.formatHour
  let r := r.exec (env.redisUp i) env.now (.HIncrBy hourKey e.EventType 1)
  let r := r.exec (env.redisUp (i + 1)) env.now (.Expire hourKey (48 * 3600))
  let userKey := "users:daily:" ++ e.Timestamp.formatDay
  let r := r.exec (env.redisUp (i + 2)) env.now (.PFAdd userKey e.UserID)
  r.exec (env.redisUp (i + 3)) env.now (.Expire userKey (7 * 24 * 3600))

/-- The loop of `updateCache`. -/
def updateAll (env : FlushEnv) : Nat → List Event → Redis → Redis
  | _, [], r => r
  | i, e :: es, r => updateAll env (i + 4) es (updateOne env i e r)

/-- The method `EventConsumer.updateCache`. -/
def updateCache (env : FlushEnv) (w : World) (events : List Event) : World :=
  { w with redis := updateAll env 0 events w.redis,
           trace := w.trace ++ [Obs.updateCache events] }

/-- The call `c.eventRepo.InsertEventBatch(ctx, events)` as the worker sees it. -/
def callInsert (env : FlushEnv) (w : World) (events : List Event) : World × Option Err :=
  let res := InsertEventBatch env.driver w.clickhouse events
  ({ w with clickhouse := res.1, trace := w.trace ++ [Obs.InsertEventBatch events] }, res.2)

/-- The method `EventConsumer.processBatch`. -/
def processBatch (R : Runtime) (env : FlushEnv) (w : World) (events : List Event) : World :=
  let w := { w with trace := w.trace ++ [Obs.processBatch events] }
  match callInsert env w events with
  | (w, some _) =>
    let w := { w with metrics := w.metrics.Increment "consumer.errors.insert" }
    saveFailedBatch R env w events
  | (w, none) =>
    let w := updateCache env w events
    let w := { w with metrics := w.metrics.Timing "consumer.batch.processing_time" env.elapsed }
    { w with metrics := w.metrics.IncrementBy "consumer.events.processed" events.length }

/-! ## The worker loop (`EventConsumer.worker`) -/

/-- The constant `batchSize := 100` of the worker. -/
def batchSize : Nat := 100

/-- Outcome of `c.reader.ReadMessage(ctx)` under its five second deadline. -/
inductive ReadResult
  | deadlineExceeded
  | failed (err : Err)
  | message (msg : Message)
  deriving DecidableEq, Repr

/-- The branch of the `select` taken in one pass of the loop: `<-c.stopChan`,
`<-batchTicker.C`, or `default` with the read it performs and the instant `time.Now()` gives
for `ConsumedAt`. -/
inductive Wake
  | stop
  | tick
  | poll (read : ReadResult) (consumedAt : Instant)
  deriving DecidableEq, Repr

/-- Which channels of the `select` are ready when it is evaluated. -/
structure Ready where
  stop : Bool
  tick : Bool
  deriving DecidableEq, Repr

/-- Go's `select`: a ready case may be taken (any of them when several are), `default` only
when no case is ready. -/
def Wake.enabled (rd : Ready) : Wake → Bool
  | .stop => rd.stop
  | .tick => rd.tick
  | .poll _ _ => !rd.stop && !rd.tick

/-- True for the `stop` branch. -/
def Wake.isStop : Wake → Bool
  | .stop => true
  | _ => false

/-- One pass of the `for { select { ... } }` loop as the environment determines it: the
channels that are ready, the branch taken, and the environment of the flush the pass may
make. -/
structure Iter where
  ready : Ready
  wake : Wake
  env : FlushEnv

/-- The state of one worker: its identifier, the local variable `batch`, whether the
function has returned, and the world it acts on. -/
structure Worker where
  id : Nat
  batch : List Event
  exited : Bool
  world : World

/-- A worker as `Start` launches it. -/
def Worker.start (id : Nat) (w : World) : Worker :=
  { id := id, batch := [], exited := false, world := w }

/-- The assignments to `event.KafkaMetadata` after a successful decode. -/
def attachKafka (R : Runtime) (msg : Message) (consumedAt : Instant) (event : Event) : Event :=
  { event with KafkaMetadata :=
      { event.KafkaMetadata with
          Offset := msg.Offset, Partition := msg.Partition,
          ConsumedAt := timeNow R.Local consumedAt } }

/-- One pass of the loop of `EventConsumer.worker`. Log lines other than the final
"Worker stopped" are not recorded. A worker that has returned takes no further pass. -/
def Worker.step (R : Runtime) (s : Worker) (it : Iter) : Worker :=
  if s.exited then s
  else
    match it.wake with
    | .stop =>
      let w := if s.batch.length > 0 then processBatch R it.env s.world s.batch else s.world
      { s with world := { w with trace := w.trace ++ [Obs.workerStopped s.id] }, exited := true }
    | .tick =>
      if s.batch.length > 0 then
        { s with world := processBatch R it.env s.world s.batch, batch := [] }
      else s
    | .poll read consumedAt =>
      match read with
      | .deadlineExceeded => s
      | .failed _ => s
      | .message msg =>
        match R.unmarshal msg.Value with
        | none =>
          { s with world :=
              { s.world with metrics := s.world.metrics.Increment "consumer.errors.unmarshal" } }
        | some event =>
          let batch := s.batch ++ [attachKafka R msg consumedAt event]
          let w := { s.world with metrics := s.world.metrics.Increment "consumer.events.received" }
          if batch.length ≥ batchSize then
            { s with world := processBatch R it.env w batch, batch := [] }
          else
            { s with world := w, batch := batch }

/-- A run of the worker over a finite schedule. -/
def Worker.run (R : Runtime) (s : Worker) (iters : List Iter) : Worker :=
  iters.foldl (Worker.step R) s

/-- The batches passed to `processBatch`, in call order. -/
def flushes (trace : List Obs) : List (List Event) :=
  trace.filterMap fun
    | .processBatch events => some events
    | _ => none

/-- The envelope a pass delivers to the batch, if any: the decoded message with its Kafka
metadata attached. -/
def Iter.envelope (R : Runtime) (it : Iter) : Option Event :=
  match it.wake with
  | .poll (.message msg) consumedAt =>
    match R.unmarshal msg.Value with
    | some event => some (attachKafka R msg consumedAt event)
    | none => none
  | _ => none

/-- The pass that takes the `stop` branch. -/
def Iter.stop (env : FlushEnv) : Iter :=
  { ready := { stop := true, tick := false }, wake := .stop, env := env }

/-- The pass that takes the `tick` branch. -/
def Iter.tick (env : FlushEnv) : Iter :=
  { ready := { stop := false, tick := true }, wake := .tick, env := env }

/-- The pass that reads message `msg` at instant `at`. -/
def Iter.message (msg : Message) (consumedAt : Instant) (env : FlushEnv) : Iter :=
  { ready := { stop := false, tick := false }, wake := .poll (.message msg) consumedAt,
    env := env }

/-! ## Worlds the pipeline produces -/

/-- The key a command addresses. -/
def RedisCmd.key : RedisCmd → String
  | .RPush key _ => key
  | .Expire key _ => key
  | .HIncrBy key _ _ => key
  | .PFAdd key _ => key

/-- The worlds the consumer can have produced by instant `T`: it starts with an empty store
and an empty Redis, every change of the stores is a `processBatch` call made at an instant
not after `T`, and the metrics change freely in between. -/
inductive Reachable (R : Runtime) (T : Instant) : World → Prop
  | init : Reachable R T World.init
  | flush (env : FlushEnv) (w : World) (events : List Event) :
      Reachable R T w → env.now ≤ T → Reachable R T (processBatch R env w events)
  | metrics (w : World) (m : Metrics) :
      Reachable R T w → Reachable R T { w with metrics := m }

/-- Every key of the retry sink holds a list, and its deadline, if it has one, lies at most
24 hours after `T`. -/
def RetryKeysOk (T : Instant) (r : Redis) : Prop :=
  ∀ suffix e, r.keys ("failed_events:" ++ suffix) = some e →
    (∃ items, e.value = .list items) ∧ ∀ d, e.expireAt = some d → d ≤ T + 24 * 3600

/-! ## Realtime aggregate keys -/

/-- The key `"stats:hourly:" + event.Timestamp.Format("2006-01-02-15")`. -/
def hourKey (e : Event) : String := "stats:hourly:" ++ e.Timestamp.formatHour

/-- The key `"users:daily:" + event.Timestamp.Format("2006-01-02")`. -/
def userKey (e : Event) : String := "users:daily:" ++ e.Timestamp.formatDay

/-- The four commands the loop of `updateCache` issues for one event, in order. -/
def aggCmds (e : Event) : List RedisCmd :=
  [ .HIncrBy (hourKey e) e.EventType 1, .Expire (hourKey e) (48 * 3600),
    .PFAdd (userKey e) e.UserID, .Expire (userKey e) (7 * 24 * 3600) ]

/-- The key is absent or holds a hash at `now`. -/
def Redis.HashOrAbsent (r : Redis) (now : Instant) (key : String) : Prop :=
  ∀ e, r.get now key = some e → ∃ fields, e.value = .hash fields

/-- The key is absent or holds a HyperLogLog at `now`. -/
def Redis.HllOrAbsent (r : Redis) (now : Instant) (key : String) : Prop :=
  ∀ e, r.get now key = some e → ∃ members, e.value = .hll members

/-- The key is present at `now` with deadline `deadline`. -/
def Redis.HasDeadline (r : Redis) (now : Instant) (key : String) (deadline : Instant) : Prop :=
  ∃ value, r.get now key = some ⟨value, some deadline⟩

/-! ## Timing of the loop while the stream is silent -/

/-- The period of `batchTicker`, `100 * time.Millisecond`, in milliseconds. -/
def tickInterval : Nat := 100

/-- The deadline of one `ReadMessage` call, `5 * time.Second`, in milliseconds. -/
def readTimeout : Nat := 5000

/-- A worker with a clock, in milliseconds since `batchTicker` was created: the current
instant and the instant at which the ticker's channel, which holds at most one tick, was last
emptied (at creation or by the last receive). Work done inside a pass takes no time. -/
structure Timed where
  clock : Nat
  emptied : Nat
  worker : Worker

/-- A fresh worker at the creation of its ticker. -/
def Timed.start (id : Nat) (w : World) : Timed :=
  { clock := 0, emptied := 0, worker := Worker.start id w }

/-- A tick waits in the channel: a multiple of the period lies after the instant the channel
was last emptied and not after the current instant. -/
def Timed.tickPending (t : Timed) : Bool :=
  t.emptied / tickInterval < t.clock / tickInterval

/-- One pass of the loop while the stop channel is open and the stream delivers nothing. With
a tick pending `select` takes the tick branch. Otherwise it takes `default`, and
`ReadMessage` returns `context.DeadlineExceeded` when its deadline has passed. -/
def Timed.silentPass (R : Runtime) (env : FlushEnv) (t : Timed) : Timed :=
  if t.tickPending then
    { t with emptied := t.clock,
             worker := t.worker.step R ⟨⟨false, true⟩, .tick, env⟩ }
  else
    { t with clock := t.clock + readTimeout,
             worker := t.worker.step R ⟨⟨false, false⟩, .poll .deadlineExceeded 0, env⟩ }

/-- One pass of the loop while the stop channel is open and a message is waiting in the
stream: with a tick pending `select` takes the tick branch, otherwise the read returns the
message at once. -/
def Timed.messagePass (R : Runtime) (env : FlushEnv) (msg : Message) (t : Timed) : Timed :=
  if t.tickPending then
    { t with emptied := t.clock,
             worker := t.worker.step R ⟨⟨false, true⟩, .tick, env⟩ }
  else
    { t with worker := t.worker.step R ⟨⟨false, false⟩, .poll (.message msg) 0, env⟩ }

/-! ## Several workers on one `Metrics` value -/

/-- What the workers of one consumer share through `c.metrics`: the names registered with
the default Prometheus registry and the map `customCounters`. -/
structure SharedMetrics where
  registered : List String
  customCounters : String → Option Int

/-- The shared metrics right after `NewMetrics`, as far as the generic counters go. -/
def SharedMetrics.new : SharedMetrics :=
  { registered := [], customCounters := fun _ => none }

/-- Where a goroutine stands inside one call of `Metrics.Increment(name)`: before the map
lookup, after it (holding the local `exists`), returned, or panicked. -/
inductive IncPoint
  | entry
  | looked (found : Bool)
  | returned
  | panicked
  deriving DecidableEq, Repr

/-- One uninterrupted stretch of `Metrics.Increment(name)` by one goroutine. The lookup
`counter, exists := m.customCounters[name]` is one stretch. The rest is the other: when the
name was not found, `promauto.NewCounter` registers it with the default registry and panics
if that name is registered already, then the counter is stored in the map; finally
`counter.Inc()`. No lock is held between the two stretches. -/
def incStep (name : String) (sh : SharedMetrics) : IncPoint → SharedMetrics × IncPoint
  | .entry => (sh, .looked (sh.customCounters name).isSome)
  | .looked true =>
    let c := match sh.customCounters name with
      | some c => c
      | none => 0
    ({ sh with customCounters := Function.update sh.customCounters name (some (c + 1)) },
      .returned)
  | .looked false =>
    if name ∈ sh.registered then (sh, .panicked)
    else
      ({ registered := name :: sh.registered,
         customCounters := Function.update sh.customCounters name (some 1) }, .returned)
  | .returned => (sh, .returned)
  | .panicked => (sh, .panicked)

/-- Two workers calling `Metrics.Increment(name)` on the shared value: the shared state and
the points of worker A and worker B. -/
structure IncRace where
  shared : SharedMetrics
  a : IncPoint
  b : IncPoint

/-- Both workers about to call `Increment` for the first time. -/
def IncRace.start : IncRace :=
  { shared := SharedMetrics.new, a := .entry, b := .entry }

/-- The scheduler lets worker A (`true`) or worker B (`false`) run its next stretch. -/
def IncRace.step (name : String) (s : IncRace) (runA : Bool) : IncRace :=
  if runA then
    let r := incStep name s.shared s.a
    { s with shared := r.1, a := r.2 }
  else
    let r := incStep name s.shared s.b
    { s with shared := r.1, b := r.2 }

/-- The two calls under a schedule. -/
def IncRace.run (name : String) (schedule : List Bool) : IncRace :=
  schedule.foldl (IncRace.step name) IncRace.start

/-! ## Producer (`internal/producer/event_producer.go`) -/

/-- A `kafka.Header`. -/
structure Header where
  Key : String
  Value : String
  deriving DecidableEq, Repr

/-- A `kafka.Message` as the producer builds it; `Time` is the zero time when not set. -/
structure KafkaMessage where
  Key : String
  Value : String
  Headers : List Header
  Time : GoTime
  deriving DecidableEq, Repr

/-- The assignment `event.KafkaMetadata = models.KafkaMetadata{ProducedAt: time.Now(),
Partition: 0}` at the start of `SendEvent`. -/
def stampProduced (R : Runtime) (now : Instant) (event : Event) : Event :=
  { event with KafkaMetadata :=
      { Topic := "", Partition := 0, Offset := 0, ProducedAt := timeNow R.Local now,
        ConsumedAt := GoTime.zero } }

/-- The message `SendEvent` builds, or the error of `json.Marshal`. The first instant is the
`time.Now()` of the metadata, the second the one of the message. -/
def SendEvent.message (R : Runtime) (producedAt sentAt : Instant) (event : Event) :
    Except Err KafkaMessage :=
  match R.marshal (stampProduced R producedAt event) with
  | none => .error "json: marshal failed"
  | some data =>
    .ok { Key := event.UserID, Value := data,
          Headers := [⟨"event_type", event.EventType⟩, ⟨"project_id", event.ProjectID⟩],
          Time := timeNow R.Local sentAt }

/-- The message `SendBatch` builds for one event; none when `json.Marshal` fails and the loop
continues with the next event. -/
def SendBatch.message (R : Runtime) (event : Event) : Option KafkaMessage :=
  match R.marshal event with
  | none => none
  | some data =>
    some { Key := event.UserID, Value := data,
           Headers := [⟨"event_type", event.EventType⟩], Time := GoTime.zero }

/-- The slice `messages` that `SendBatch` hands to `WriteMessages`. -/
def SendBatch.messages (R : Runtime) (events : List Event) : List KafkaMessage :=
  events.filterMap (SendBatch.message R)

/-- The `kafka.Writer` built by `NewEventProducer` with `Balancer: &kafka.LeastBytes{}`: for
each partition of the topic the bytes routed to it so far, and the messages written with the
partition each was assigned. -/
structure Writer where
  counters : List Nat
  written : List (KafkaMessage × Nat)
  deriving DecidableEq, Repr

/-- The call `NewEventProducer(brokers, topic)` for a topic with the given number of
partitions. -/
def NewEventProducer (partitions : Nat) : Writer :=
  { counters := List.replicate partitions 0, written := [] }

/-- Index of the first smallest counter, scanning from the left as the loop of
`LeastBytes.Balance` does, given the best index and value so far and the index of the head
of the rest. -/
def leastIndex : Nat → Nat → Nat → List Nat → Nat
  | minIndex, _, _, [] => minIndex
  | minIndex, minBytes, i, c :: cs =>
    if c < minBytes then leastIndex i c (i + 1) cs else leastIndex minIndex minBytes (i + 1) cs

/-- The method `LeastBytes.Balance` of kafka-go: the message goes to the partition that has
received the fewest bytes, whose counter grows by the length of key and value. The message
key plays no part in the choice. -/
def LeastBytes.Balance (counters : List Nat) (msg : KafkaMessage) : List Nat × Nat :=
  match counters with
  | [] => ([], 0)
  | c :: cs =>
    let minIndex := leastIndex 0 c 1 cs
    (counters.modify (fun bytes => bytes + msg.Key.utf8ByteSize + msg.Value.utf8ByteSize)
      minIndex, minIndex)

/-- The loop of `Writer.WriteMessages` over its arguments: every message is assigned a
partition by the balancer, in order. -/
def Writer.assign (wr : Writer) : List KafkaMessage → Writer
  | [] => wr
  | msg :: rest =>
    let r := LeastBytes.Balance wr.counters msg
    Writer.assign { counters := r.1, written := wr.written ++ [(msg, r.2)] } rest

/-- The method `Writer.WriteMessages`. The transport either refuses the call with an error
(`fault`), and nothing is written, or takes the messages and reports nil. -/
def Writer.WriteMessages (wr : Writer) (fault : Option Err) (msgs : List KafkaMessage) :
    Writer × Option Err :=
  match fault with
  | some err => (wr, some err)
  | none => (wr.assign msgs, none)

/-- The method `EventProducer.SendEvent`: the updated writer and the returned error. -/
def SendEvent (R : Runtime) (producedAt sentAt : Instant) (fault : Option Err) (wr : Writer)
    (event : Event) : Writer × Option Err :=
  match SendEvent.message R producedAt sentAt event with
  | .error err => (wr, some err)
  | .ok msg => wr.WriteMessages fault [msg]

/-- The method `EventProducer.SendBatch`: the updated writer and the returned error. -/
def SendBatch (R : Runtime) (fault : Option Err) (wr : Writer) (events : List Event) :
    Writer × Option Err :=
  wr.WriteMessages fault (SendBatch.messages R events)

/-! ## What the publisher leaves in the events -/

/-- The event behind the pointer after `SendEvent` returns: the delivery metadata is
assigned before anything can fail. -/
def SendEvent.after (R : Runtime) (producedAt : Instant) (event : Event) : Event :=
  stampProduced R producedAt event

/-- The events behind the pointers after `SendBatch` returns: its loop only reads them. -/
def SendBatch.after (events : List Event) : List Event := events

/-! ## JSON form of an event (`json` tags of `models.Event`, `encoding/json`) -/

/-- A Go string as the producer holds it: a sequence of bytes (naturals below 256), which
need not be valid UTF-8. -/
abbrev GoString := List Nat

/-- A UTF-8 continuation byte. -/
def isCont (b : Nat) : Bool := decide (0x80 ≤ b) && decide (b ≤ 0xBF)

/-- Width in bytes of the UTF-8 encoding at the head of a string as `utf8.DecodeRune`
accepts it (shortest form, no surrogate, at most U+10FFFF); 0 when the string is empty or
its first byte starts no valid encoding. -/
def runeWidth : GoString → Nat
  | [] => 0
  | b0 :: rest =>
    if b0 < 0x80 then 1
    else if 0xC2 ≤ b0 ∧ b0 ≤ 0xDF then
      match rest with
      | b1 :: _ => if isCont b1 then 2 else 0
      | _ => 0
    else if 0xE0 ≤ b0 ∧ b0 ≤ 0xEF then
      match rest with
      | b1 :: b2 :: _ =>
        if decide ((if b0 = 0xE0 then 0xA0 else 0x80) ≤ b1) &&
            decide (b1 ≤ (if b0 = 0xED then 0x9F else 0xBF)) && isCont b2 then 3
        else 0
      | _ => 0
    else if 0xF0 ≤ b0 ∧ b0 ≤ 0xF4 then
      match rest with
      | b1 :: b2 :: b3 :: _ =>
        if decide ((if b0 = 0xF0 then 0x90 else 0x80) ≤ b1) &&
            decide (b1 ≤ (if b0 = 0xF4 then 0x8F else 0xBF)) && isCont b2 && isCont b3 then 4
        else 0
      | _ => 0
    else 0

/-- The bytes of U+FFFD, the replacement character. -/
def replacementRune : GoString := [0xEF, 0xBF, 0xBD]

/-- The loop of `coerceUTF8`; `keep` is the number of bytes still to copy from the encoding
in progress. -/
def coerceUTF8.go : Nat → GoString → GoString
  | _, [] => []
  | keep + 1, b :: rest => b :: coerceUTF8.go keep rest
  | 0, b :: rest =>
    match runeWidth (b :: rest) with
    | 0 => replacementRune ++ coerceUTF8.go 0 rest
    | w + 1 => b :: coerceUTF8.go w rest

/-- A Go string after `json.Marshal` has written it and `json.Unmarshal` has read it back:
`Marshal` writes every valid encoding as it is (escaped or not) and the escape of U+FFFD for
each byte that starts no valid encoding; `Unmarshal` returns the text of the JSON string. -/
def coerceUTF8 (s : GoString) : GoString := coerceUTF8.go 0 s

/-- The loop of `validUTF8`; `keep` as in `coerceUTF8.go`. -/
def validUTF8.go : Nat → GoString → Bool
  | _, [] => true
  | keep + 1, _ :: rest => validUTF8.go keep rest
  | 0, b :: rest =>
    match runeWidth (b :: rest) with
    | 0 => false
    | w + 1 => validUTF8.go w rest

/-- The function `utf8.Valid`: the string is a sequence of valid encodings. -/
def validUTF8 (s : GoString) : Bool := validUTF8.go 0 s

/-- The year of the wall clock of `t` (method `Time.Year`). -/
def GoTime.year (t : GoTime) : Int := (civilFromDays t.wallDay).1

/-- Whether `Time.MarshalJSON` writes `t`: the year has to lie in 0..9999 and the hour of
the zone offset in 0..23. -/
def GoTime.jsonWritable (t : GoTime) : Bool :=
  decide (0 ≤ t.year) && decide (t.year ≤ 9999) &&
    decide ((t.offset.tdiv 60).natAbs / 60 < 24)

/-- The time `Time.UnmarshalJSON` reads from the RFC 3339 text `Time.MarshalJSON` writes for
`t`: the text shows the wall clock of `t` and its zone offset in whole minutes (the
seconds of the offset are cut off, towards zero). -/
def GoTime.viaJson (t : GoTime) : GoTime :=
  { unix := t.wall - t.offset.tdiv 60 * 60, offset := t.offset.tdiv 60 * 60 }

/-- The struct `models.Event` with its strings as bytes. The `metadata` map is kept as the
members of the JSON object it is written as, none when it holds a value `encoding/json`
refuses (a channel, a function, a NaN); a nil map counts as an empty one. -/
structure RawEvent where
  ID : GoString
  ProjectID : GoString
  UserID : GoString
  EventType : GoString
  PageURL : GoString
  Metadata : Option (List (String × String))
  UserAgent : GoString
  IPAddress : GoString
  Timestamp : GoTime
  KafkaMetadata : KafkaMetadata
  deriving DecidableEq, Repr

/-- A JSON value as an event needs it: a string (its text, valid UTF-8), the string that
holds the RFC 3339 text of a time (kept as the time the text denotes), or the object of the
metadata map. -/
inductive JsonValue
  | string (text : GoString)
  | time (t : GoTime)
  | object (members : List (String × String))
  deriving DecidableEq, Repr

/-- The call `json.Marshal(event)`: the members of the JSON object written for an event, one
per field with a `json` tag, in the order of declaration; none is an error. `KafkaMetadata`
is tagged `json:"-"` and is left out. The bytes written are kept as the object they
spell. -/
def RawEvent.marshal (e : RawEvent) : Option (List (String × JsonValue)) :=
  match e.Metadata with
  | none => none
  | some metadata =>
    if e.Timestamp.jsonWritable then
      some [ ("id", .string (coerceUTF8 e.ID)), ("project_id", .string (coerceUTF8 e.ProjectID)),
        ("user_id", .string (coerceUTF8 e.UserID)),
        ("event_type", .string (coerceUTF8 e.EventType)),
        ("page_url", .string (coerceUTF8 e.PageURL)), ("metadata", .object metadata),
        ("user_agent", .string (coerceUTF8 e.UserAgent)),
        ("ip_address", .string (coerceUTF8 e.IPAddress)),
        ("timestamp", .time e.Timestamp.viaJson) ]
    else none

/-- The zero value of `models.Event`, as `var event models.Event` declares it. -/
def RawEvent.zero : RawEvent :=
  { ID := [], ProjectID := [], UserID := [], EventType := [], PageURL := [],
    Metadata := some [], UserAgent := [], IPAddress := [], Timestamp := GoTime.zero,
    KafkaMetadata := KafkaMetadata.zero }

/-- One member read by `json.Unmarshal` into an event: a member named by a `json` tag sets
its field when the value has the field's kind and is an error otherwise; other members are
ignored. -/
def RawEvent.setJson (e : RawEvent) (member : String × JsonValue) : Option RawEvent :=
  if member.1 = "id" then
    match member.2 with
    | .string s => some { e with ID := s }
    | _ => none
  else if member.1 = "project_id" then
    match member.2 with
    | .string s => some { e with ProjectID := s }
    | _ => none
  else if member.1 = "user_id" then
    match member.2 with
    | .string s => some { e with UserID := s }
    | _ => none
  else if member.1 = "event_type" then
    match member.2 with
    | .string s => some { e with EventType := s }
    | _ => none
  else if member.1 = "page_url" then
    match member.2 with
    | .string s => some { e with PageURL := s }
    | _ => none
  else if member.1 = "metadata" then
    match member.2 with
    | .object m => some { e with Metadata := some m }
    | _ => none
  else if member.1 = "user_agent" then
    match member.2 with
    | .string s => some { e with UserAgent := s }
    | _ => none
  else if member.1 = "ip_address" then
    match member.2 with
    | .string s => some { e with IPAddress := s }
    | _ => none
  else if member.1 = "timestamp" then
    match member.2 with
    | .time t => some { e with Timestamp := t }
    | _ => none
  else some e

/-- The members of an object read one after the other into an event. -/
def RawEvent.ofJson : List (String × JsonValue) → RawEvent → Option RawEvent
  | [], e => some e
  | member :: rest, e =>
    match e.setJson member with
    | some e1 => RawEvent.ofJson rest e1
    | none => none

/-- The call `json.Unmarshal(value, &received)` on a fresh `var received models.Event`. -/
def RawEvent.unmarshal (value : List (String × JsonValue)) : Option RawEvent :=
  RawEvent.ofJson value RawEvent.zero

/-- A `kafka.Message` with its key and header values as bytes and its value as the JSON
object the bytes spell. -/
structure RawMessage where
  Key : GoString
  Value : List (String × JsonValue)
  Headers : List (String × GoString)
  Time : GoTime
  deriving DecidableEq, Repr

/-- The message `SendEvent` builds, on events with strings as bytes: the delivery metadata
is assigned, the event is marshalled, and the message gets the user id as key and the two
headers. -/
def SendEvent.rawMessage (loc : Location) (producedAt sentAt : Instant) (event : RawEvent) :
    Except Err RawMessage :=
  let event := { event with KafkaMetadata :=
      { Topic := "", Partition := 0, Offset := 0, ProducedAt := timeNow loc producedAt,
        ConsumedAt := GoTime.zero } }
  match event.marshal with
  | none => .error "json: marshal failed"
  | some data =>
    .ok { Key := event.UserID, Value := data,
          Headers := [("event_type", event.EventType), ("project_id", event.ProjectID)],
          Time := timeNow loc sentAt }

/-! ## Event service (`internal/service/event_service.go`) -/

/-- The constant `models.PageView`. -/
def PageView : String := "page_view"

/-- The constant `models.ButtonClick`. -/
def ButtonClick : String := "button_click"

/-- The constant `models.FormSubmit`. -/
def FormSubmit : String := "form_submit"

/-- The constant `models.Purchase`. -/
def Purchase : String := "purchase"

/-- The constant `models.Custom`. -/
def Custom : String := "custom"

/-- The five declared values of `models.EventType`. -/
def eventTypes : List String := [PageView, ButtonClick, FormSubmit, Purchase, Custom]

/-- The method `Time.IsZero`: the instant is January 1, year 1, 00:00:00 UTC. -/
def GoTime.IsZero (t : GoTime) : Bool := decide (t.unix = GoTime.zero.unix)

/-- What one `ProcessEvent` call gets from outside: the text of `uuid.New()`, the instants
read by `time.Now()` (for the default timestamp, for `ProducedAt`, for the message), and
the answer of the transport. -/
structure ProcessEnv where
  uuid : String
  now : Instant
  producedAt : Instant
  sentAt : Instant
  fault : Option Err

/-- The defaults `ProcessEvent` fills in before it calls the producer. -/
def enrich (R : Runtime) (env : ProcessEnv) (event : Event) : Event :=
  let event := if event.ID = "" then { event with ID := env.uuid } else event
  let event :=
    if event.Timestamp.IsZero then { event with Timestamp := timeNow R.Local env.now }
    else event
  if event.EventType = "" then { event with EventType := PageView } else event

/-- A call on the metrics made by `ProcessEvent`. -/
inductive MetricCall
  | Increment (name : String)
  | IncrementEventsReceived (eventType projectID : String)
  deriving DecidableEq, Repr

/-- Outcome of `ProcessEvent`: the event behind the pointer afterwards, the event handed to
`SendEvent`, the writer, the calls on the metrics and the returned error. -/
structure ProcessResult where
  event : Event
  handed : Event
  writer : Writer
  calls : List MetricCall
  err : Option Err

/-- The method `EventService.ProcessEvent`. -/
def ProcessEvent (R : Runtime) (env : ProcessEnv) (wr : Writer) (event : Event) :
    ProcessResult :=
  let event := enrich R env event
  match SendEvent R env.producedAt env.sentAt env.fault wr event with
  | (wr1, some err) =>
    { event := SendEvent.after R env.producedAt event, handed := event, writer := wr1,
      calls := [.Increment "event.producer.errors"], err := some err }
  | (wr1, none) =>
    { event := SendEvent.after R env.producedAt event, handed := event, writer := wr1,
      calls := [.IncrementEventsReceived event.EventType event.ProjectID], err := none }

/-! ## Statistics (`internal/service/stats_service.go`, `internal/handler/stats_handler.go`) -/

/-- The struct `models.StatsRequest`. -/
structure StatsRequest where
  EventType : String
  StartDate : String
  EndDate : String
  GroupBy : String
  deriving DecidableEq, Repr

/-- The struct `models.EventStats`. -/
structure EventStats where
  TimeBucket : String
  EventType : String
  Count : Int
  deriving DecidableEq, Repr

/-- The method `GetStats` of the repository interface, as the services call it. -/
abbrev StatsRepo := StatsRequest → Except Err (List EventStats)

/-- Wrap-around of `int64` arithmetic. -/
def wrapInt64 (n : Int) : Int := (n + 2 ^ 63) % 2 ^ 64 - 2 ^ 63

/-- The loop `for _, stat := range stats { total += stat.Count }` on an `int64` total. -/
def sumCounts (stats : List EventStats) : Int :=
  stats.foldl (fun total stat => wrapInt64 (total + stat.Count)) 0

/-- The integer nearest to a rational, the even one of the two when it lies half way. -/
def roundHalfEven (x : ℚ) : Int :=
  if Int.fract x < 1 / 2 then ⌊x⌋
  else if 1 / 2 < Int.fract x then ⌊x⌋ + 1
  else if ⌊x⌋ % 2 = 0 then ⌊x⌋ else ⌊x⌋ + 1

/-- Rounding to `float64` (IEEE 754 binary64, round to nearest, ties to even) of a number
whose magnitude is zero or within the normal range: the result is a multiple of the unit in
the last place of the binade of the number, with a significand of 53 bits. A `float64` is
kept as the rational it denotes; the sign of a zero is not kept. -/
def float64Round (q : ℚ) : ℚ :=
  if q = 0 then 0
  else
    (if q < 0 then -1 else 1) *
      (roundHalfEven (|q| / (2 : ℚ) ^ (Int.log 2 |q| - 52)) : ℚ) * (2 : ℚ) ^ (Int.log 2 |q| - 52)

/-- The conversion `float64(n)` of an `int64`. -/
def float64OfInt64 (n : Int) : ℚ := float64Round n

/-- The `float64` division `a / b` with b not zero. -/
def float64Div (a b : ℚ) : ℚ := float64Round (a / b)

/-- The `float64` multiplication `a * b`. -/
def float64Mul (a b : ℚ) : ℚ := float64Round (a * b)

/-- The method `StatsService.CalculateConversionRate`; the `float64` result is given as the
rational it denotes. -/
def CalculateConversionRate (repo : StatsRepo) (startDate endDate : String) : Except Err ℚ :=
  match repo { EventType := PageView, StartDate := startDate, EndDate := endDate,
               GroupBy := "" } with
  | .error err => .error err
  | .ok viewStats =>
    match repo { EventType := Purchase, StartDate := startDate, EndDate := endDate,
                 GroupBy := "" } with
    | .error err => .error err
    | .ok purchaseStats =>
      let totalViews := sumCounts viewStats
      let totalPurchases := sumCounts purchaseStats
      if totalViews = 0 then .ok 0
      else .ok (float64Mul (float64Div (float64OfInt64 totalPurchases)
        (float64OfInt64 totalViews)) 100)

/-- The cache of statistics in Redis, as `CacheStats` and `GetCachedStats` see it: the
decoded list stored under a key, none when the key is missing or its five minutes have
passed. -/
abbrev StatsCache := String → Option (List EventStats)

/-- The method `RedisRepository.GetCachedStats`: a missing key gives nil. -/
def GetCachedStats (cache : StatsCache) (key : String) : Option (List EventStats) :=
  cache ("stats:" ++ key)

/-- The method `RedisRepository.CacheStats`. -/
def CacheStats (cache : StatsCache) (key : String) (stats : List EventStats) : StatsCache :=
  Function.update cache ("stats:" ++ key) (some stats)

/-- The key `fmt.Sprintf("stats:%s:%s:%s", req.EventType, req.StartDate, req.EndDate)`. -/
def cacheKey (req : StatsRequest) : String :=
  "stats:" ++ req.EventType ++ ":" ++ req.StartDate ++ ":" ++ req.EndDate

/-- The method `StatsService.GetEventStatistics`: the cache afterwards and the result. A
cached list counts as a hit when it is not nil; a list without entries is read back as
nil. The calls that count cache hits and misses are left out. -/
def GetEventStatistics (repo : StatsRepo) (cache : StatsCache) (req : StatsRequest) :
    StatsCache × Except Err (List EventStats) :=
  match GetCachedStats cache (cacheKey req) with
  | some (stat :: rest) => (cache, .ok (stat :: rest))
  | _ =>
    match repo req with
    | .error err => (cache, .error err)
    | .ok stats => (CacheStats cache (cacheKey req) stats, .ok stats)

/-- The query string of a request: its parameters in order. -/
abbrev Query := List (String × String)

/-- The value gin binds to a string field with a `form` tag: the first value of the
parameter, empty when the parameter is absent. -/
def Query.get (q : Query) (key : String) : String :=
  match q.lookup key with
  | some value => value
  | none => ""

/-- The call `c.ShouldBindQuery(&req)` for `models.StatsRequest`, a struct of strings
without binding rules, for which binding has no error. -/
def bindStatsRequest (q : Query) : StatsRequest :=
  { EventType := q.get "event_type", StartDate := q.get "start_date",
    EndDate := q.get "end_date", GroupBy := q.get "group_by" }

/-- The JSON body a handler writes. -/
inductive Body
  | error (message : String)
  | statistics (stats : List EventStats) (totalEvents : Nat)
  deriving DecidableEq, Repr

/-- What `GetStatistics` does: the status and body it answers with and the requests it
passed to the stats service, in order. -/
structure HandlerResult where
  status : Nat
  body : Body
  calls : List StatsRequest
  deriving DecidableEq, Repr

/-- The method `StatsHandler.GetStatistics`, the stats service being the function `svc`. -/
def GetStatistics (svc : StatsRequest → Except Err (List EventStats)) (q : Query) :
    HandlerResult :=
  let req := bindStatsRequest q
  if req.EventType = "" ∨ req.StartDate = "" ∨ req.EndDate = "" then
    { status := 400, body := .error "event_type, start_date, end_date are required",
      calls := [] }
  else
    match svc req with
    | .error _ => { status := 500, body := .error "Failed to get statistics", calls := [req] }
    | .ok stats => { status := 200, body := .statistics stats stats.length, calls := [req] }

/-! ## Sample values -/

/-- An envelope with the given id, stamped 2024-01-01 22:00:00 UTC. -/
def sampleEvent (id : String) : Event :=
  { ID := id, ProjectID := "p1", UserID := "u1", EventType := "page_view", PageURL := "/",
    Metadata := [], UserAgent := "", IPAddress := "", Timestamp := ⟨1704146400, 0⟩,
    KafkaMetadata := KafkaMetadata.zero }

/-- A runtime whose codec writes an envelope as its id and reads a non-empty payload back as
the envelope with that id, running in the zone UTC+3. -/
def sampleRuntime : Runtime :=
  { unmarshal := fun v => if v = "" then none else some (sampleEvent v),
    marshal := fun e => some e.ID,
    Local := fun _ => 10800 }

/-- A runtime like the sample one whose codec cannot write an envelope with an empty id. -/
def pickyRuntime : Runtime :=
  { unmarshal := sampleRuntime.unmarshal,
    marshal := fun e => if e.ID = "" then none else some e.ID,
    Local := sampleRuntime.Local }

/-- A Kafka message with the given payload. -/
def sampleMessage (value : String) : Message :=
  { Value := value, Partition := 0, Offset := 0 }

/-- A running worker holding `n` envelopes. -/
def sampleWorker (n : Nat) : Worker :=
  { id := 7, batch := List.replicate n (sampleEvent "a"), exited := false, world := World.init }

/-- An environment whose driver fails at `Send`; Redis is reachable. -/
def FlushEnv.sendFails (now : Instant) : FlushEnv :=
  { driver := { prepare := none, append := fun _ => none, send := some "connection reset" },
    redisUp := fun _ => true, now := now, elapsed := 0 }

/-- A schedule with a valid message, a malformed one, a tick, a failed read, a timed-out
read and another valid message. -/
def sampleSchedule : List Iter :=
  [ Iter.message (sampleMessage "a") 10 (FlushEnv.healthy 10),
    Iter.message (sampleMessage "") 11 (FlushEnv.healthy 11),
    Iter.tick (FlushEnv.healthy 12),
    { ready := ⟨false, false⟩, wake := .poll (.failed "broker down") 13,
      env := FlushEnv.healthy 13 },
    { ready := ⟨false, false⟩, wake := .poll .deadlineExceeded 18, env := FlushEnv.healthy 18 },
    Iter.message (sampleMessage "b") 19 (FlushEnv.healthy 19) ]

/-- After the stop channel is closed: one pass that takes a pending tick, then the pass that
takes the stop branch. -/
def sampleShutdown : List Iter :=
  [ { ready := ⟨true, true⟩, wake := .tick, env := FlushEnv.healthy 20 },
    { ready := ⟨true, false⟩, wake := .stop, env := FlushEnv.healthy 21 } ]

/-- The stop channel is closed while a read is in flight: the pass that began the read found
no channel ready and ends with the message read, the next pass takes the stop branch. -/
def sampleReadInFlight : List Iter :=
  [ Iter.message (sampleMessage "b") 20 (FlushEnv.healthy 20),
    { ready := ⟨true, false⟩, wake := .stop, env := FlushEnv.healthy 21 } ]

/-- An envelope with the given id, instant (zone UTC), type and user. -/
def sampleAt (id : String) (unix : Instant) (eventType userID : String) : Event :=
  { sampleEvent id with Timestamp := ⟨unix, 0⟩, EventType := eventType, UserID := userID }

/-- Three envelopes of 2024-01-01: page views at 10:05 and 10:50, a purchase at 11:02. -/
def sampleBatch : List Event :=
  [ sampleAt "e1" 1704103500 "page_view" "u1",
    sampleAt "e2" 1704106200 "page_view" "u2",
    sampleAt "e3" 1704106920 "purchase" "u1" ]

/-- An environment in which the driver works and no Redis command reaches the server. -/
def FlushEnv.redisDown (now : Instant) : FlushEnv :=
  { driver := DriverFaults.none, redisUp := fun _ => false, now := now, elapsed := 0 }

/-- A repository whose answer depends on the grouping: hourly buckets for "hour", one daily
bucket otherwise. -/
def sampleRepo : StatsRepo := fun req =>
  if req.GroupBy = "hour" then
    .ok [⟨"2024-01-01 10:00:00", req.EventType, 2⟩, ⟨"2024-01-01 11:00:00", req.EventType, 3⟩]
  else .ok [⟨"2024-01-01 00:00:00", req.EventType, 5⟩]

/-- Page views of the first two days of 2024 with the given grouping. -/
def sampleRequest (groupBy : String) : StatsRequest :=
  ⟨"page_view", "2024-01-01", "2024-01-02", groupBy⟩

/-- A repository with 100 + 150 page views and 10 + 15 purchases. -/
def sampleConversionRepo : StatsRepo := fun req =>
  if req.EventType = PageView then
    .ok [⟨"2024-01-01", "page_view", 100⟩, ⟨"2024-01-02", "page_view", 150⟩]
  else .ok [⟨"2024-01-01", "purchase", 10⟩, ⟨"2024-01-02", "purchase", 15⟩]

/-- A repository with 100 page views and 29 purchases. -/
def sampleRoundingRepo : StatsRepo := fun req =>
  if req.EventType = PageView then .ok [⟨"2024-01-01", "page_view", 100⟩]
  else .ok [⟨"2024-01-01", "purchase", 29⟩]

/-- An event stamped 2024-01-01 22:00:00 UTC whose strings are ASCII, with the given user
agent. -/
def sampleRawEvent (userAgent : GoString) : RawEvent :=
  { ID := [0x61], ProjectID := [0x70, 0x31], UserID := [0x75, 0x31],
    EventType := [0x70, 0x61, 0x67, 0x65, 0x5F, 0x76, 0x69, 0x65, 0x77], PageURL := [0x2F],
    Metadata := some [], UserAgent := userAgent, IPAddress := [], Timestamp := ⟨1704146400, 0⟩,
    KafkaMetadata := KafkaMetadata.zero }

/-! ## Bulk writer -/

theorem appendRows_ok (f : DriverFaults) (events : List Event) :
    ∀ (i : Nat) (block : List Row), (∀ k, k < events.length → f.append (i + k) = none) →
      appendRows f i events block = .ok (block ++ events.map Event.toRow) := by
  induction events with
  | nil => intro i block _; simp [appendRows]
  | cons e es ih =>
    intro i block h
    have h0 : f.append i = none := by simpa using h 0 (by simp)
    have hs : ∀ k, k < es.length → f.append (i + 1 + k) = none := by
      intro k hk
      have := h (k + 1) (by simpa using hk)
      simpa [Nat.add_assoc, Nat.add_comm 1 k] using this
    simp [appendRows, h0, ih (i + 1) (block ++ [e.toRow]) hs]

theorem appendRows_error (f : DriverFaults) (events : List Event) :
    ∀ (i : Nat) (block : List Row) (k : Nat), k < events.length → f.append (i + k) ≠ none →
      ∃ err, appendRows f i events block = .error err := by
  induction events with
  | nil => intro i block k hk; simp at hk
  | cons e es ih =>
    intro i block k hk hne
    cases h0 : f.append i with
    | some err => exact ⟨err, by simp [appendRows, h0]⟩
    | none =>
      cases k with
      | zero => simp [h0] at hne
      | succ k =>
        have hk2 : k < es.length := by simpa using hk
        have hne2 : f.append (i + 1 + k) ≠ none := by
          simpa [Nat.add_assoc, Nat.add_comm 1 k] using hne
        obtain ⟨err, he⟩ := ih (i + 1) (block ++ [e.toRow]) k hk2 hne2
        exact ⟨err, by simp [appendRows, h0, he]⟩

theorem appendRows_result (f : DriverFaults) (events : List Event) (i : Nat) (block : List Row) :
    (∃ err, appendRows f i events block = .error err) ∨
      appendRows f i events block = .ok (block ++ events.map Event.toRow) := by
  by_cases h : ∀ k, k < events.length → f.append (i + k) = none
  · exact Or.inr (appendRows_ok f events i block h)
  · push_neg at h
    obtain ⟨k, hk, hne⟩ := h
    exact Or.inl (appendRows_error f events i block k hk hne)

/-- C6. `InsertEventBatch` is all-or-nothing on the store: when it returns an error the
persisted rows are unchanged, when it returns nil the rows of the whole batch, in order, have
been added (so the row count grew by the batch length), and when the `Append` of some row
fails nothing is handed to `Send` and the call fails. -/
theorem InsertEventBatch_all_or_nothing (f : DriverFaults) (ch : ClickHouse)
    (events : List Event) :
    (∀ err, (InsertEventBatch f ch events).2 = some err →
        (InsertEventBatch f ch events).1.rows = ch.rows) ∧
    ((InsertEventBatch f ch events).2 = none →
        (InsertEventBatch f ch events).1.rows = ch.rows ++ events.map Event.toRow ∧
        (InsertEventBatch f ch events).1.rows.length = ch.rows.length + events.length) ∧
    (∀ k, k < events.length → f.append k ≠ none →
        (InsertEventBatch f ch events).1.sent = ch.sent ∧
        (InsertEventBatch f ch events).1.rows = ch.rows ∧
        (InsertEventBatch f ch events).2 ≠ none) := by
  refine ⟨?_, ?_, ?_⟩
  · intro err h
    by_cases hlen : events.length = 0
    · simp [InsertEventBatch, hlen]
    · cases hp : f.prepare with
      | some e => simp [InsertEventBatch, hlen, hp]
      | none =>
        rcases appendRows_result f events 0 [] with ⟨e, he⟩ | hok
        · simp [InsertEventBatch, hlen, hp, he]
        · cases hs : f.send with
          | some e => simp [InsertEventBatch, hlen, hp, hok, batchSend, hs]
          | none => simp [InsertEventBatch, hlen, hp, hok, batchSend, hs] at h
  · intro h
    by_cases hlen : events.length = 0
    · have : events = [] := List.length_eq_zero.mp hlen
      simp [InsertEventBatch, this]
    · cases hp : f.prepare with
      | some e => simp [InsertEventBatch, hlen, hp] at h
      | none =>
        rcases appendRows_result f events 0 [] with ⟨e, he⟩ | hok
        · simp [InsertEventBatch, hlen, hp, he] at h
        · cases hs : f.send with
          | some e => simp [InsertEventBatch, hlen, hp, hok, batchSend, hs] at h
          | none => simp [InsertEventBatch, hlen, hp, hok, batchSend, hs]
  · intro k hk hne
    have hlen : ¬ events.length = 0 := by omega
    obtain ⟨e, he⟩ := appendRows_error f events 0 [] k hk (by simpa using hne)
    unfold InsertEventBatch
    simp only [hlen, if_false]
    cases hp : f.prepare with
    | some e2 => simp
    | none => simp [he]

/-! ## processBatch -/

theorem saveFailedBatch_trace (R : Runtime) (env : FlushEnv) (w : World) (events : List Event) :
    (saveFailedBatch R env w events).trace = w.trace ++ [Obs.saveFailedBatch events] := rfl

theorem updateCache_trace (env : FlushEnv) (w : World) (events : List Event) :
    (updateCache env w events).trace = w.trace ++ [Obs.updateCache events] := rfl

theorem processBatch_trace_ok (R : Runtime) (env : FlushEnv) (w : World) (events : List Event)
    (h : (InsertEventBatch env.driver w.clickhouse events).2 = none) :
    (processBatch R env w events).trace =
      w.trace ++ [Obs.processBatch events, Obs.InsertEventBatch events,
        Obs.updateCache events] := by
  simp [processBatch, callInsert, h, updateCache]

theorem processBatch_trace_err (R : Runtime) (env : FlushEnv) (w : World) (events : List Event)
    (err : Err) (h : (InsertEventBatch env.driver w.clickhouse events).2 = some err) :
    (processBatch R env w events).trace =
      w.trace ++ [Obs.processBatch events, Obs.InsertEventBatch events,
        Obs.saveFailedBatch events] := by
  simp [processBatch, callInsert, h, saveFailedBatch]

theorem flushes_append (t₁ t₂ : List Obs) : flushes (t₁ ++ t₂) = flushes t₁ ++ flushes t₂ := by
  simp [flushes, List.filterMap_append]

theorem processBatch_flushes (R : Runtime) (env : FlushEnv) (w : World) (events : List Event) :
    flushes (processBatch R env w events).trace = flushes w.trace ++ [events] := by
  cases h : (InsertEventBatch env.driver w.clickhouse events).2 with
  | none => rw [processBatch_trace_ok R env w events h, flushes_append]; simp [flushes]
  | some err => rw [processBatch_trace_err R env w events err h, flushes_append]; simp [flushes]

/-- C5. `processBatch` calls `InsertEventBatch` exactly once, with the whole batch. When the
commit succeeds the only further call is one `updateCache` with the same batch; when it fails
the only further call is one `saveFailedBatch` with the same batch, and the store is left as
the single failed `InsertEventBatch` left it (no second attempt). -/
theorem processBatch_dispatch (R : Runtime) (env : FlushEnv) (w : World) (events : List Event) :
    ((InsertEventBatch env.driver w.clickhouse events).2 = none →
      (processBatch R env w events).trace =
        w.trace ++ [Obs.processBatch events, Obs.InsertEventBatch events,
          Obs.updateCache events]) ∧
    (∀ err, (InsertEventBatch env.driver w.clickhouse events).2 = some err →
      (processBatch R env w events).trace =
        w.trace ++ [Obs.processBatch events, Obs.InsertEventBatch events,
          Obs.saveFailedBatch events]) ∧
    (processBatch R env w events).clickhouse =
      (InsertEventBatch env.driver w.clickhouse events).1 := by
  refine ⟨processBatch_trace_ok R env w events, processBatch_trace_err R env w events, ?_⟩
  cases h : (InsertEventBatch env.driver w.clickhouse events).2 with
  | none => simp [processBatch, callInsert, h, updateCache]
  | some err => simp [processBatch, callInsert, h, saveFailedBatch]

/-! ## Single passes of the worker loop -/

theorem processBatch_trace_ext (R : Runtime) (env : FlushEnv) (w : World) (events : List Event) :
    ∃ added, (processBatch R env w events).trace = w.trace ++ added ∧
      flushes added = [events] := by
  cases h : (InsertEventBatch env.driver w.clickhouse events).2 with
  | none => exact ⟨_, processBatch_trace_ok R env w events h, by simp [flushes]⟩
  | some err => exact ⟨_, processBatch_trace_err R env w events err h, by simp [flushes]⟩

theorem step_exited (R : Runtime) (s : Worker) (it : Iter) (h : s.exited = true) :
    Worker.step R s it = s := by
  simp [Worker.step, h]

theorem run_exited (R : Runtime) (iters : List Iter) :
    ∀ s : Worker, s.exited = true → Worker.run R s iters = s := by
  induction iters with
  | nil => intro s _; rfl
  | cons it rest ih =>
    intro s h
    simp only [Worker.run, List.foldl_cons, step_exited R s it h]
    exact ih s h

theorem run_cons (R : Runtime) (s : Worker) (it : Iter) (iters : List Iter) :
    Worker.run R s (it :: iters) = Worker.run R (Worker.step R s it) iters := rfl

theorem run_append (R : Runtime) (s : Worker) (xs ys : List Iter) :
    Worker.run R s (xs ++ ys) = Worker.run R (Worker.run R s xs) ys := by
  simp [Worker.run, List.foldl_append]

theorem step_tick_nonempty (R : Runtime) (s : Worker) (rd : Ready) (env : FlushEnv)
    (hrun : s.exited = false) (hne : s.batch ≠ []) :
    Worker.step R s ⟨rd, .tick, env⟩ =
      { s with world := processBatch R env s.world s.batch, batch := [] } := by
  have : 0 < s.batch.length := List.length_pos.mpr hne
  simp [Worker.step, hrun, this]

theorem step_tick_empty (R : Runtime) (s : Worker) (rd : Ready) (env : FlushEnv)
    (hrun : s.exited = false) (he : s.batch = []) :
    Worker.step R s ⟨rd, .tick, env⟩ = s := by
  simp [Worker.step, hrun, he]

/-- C3. A timer tick taken by a running worker with a non-empty batch makes exactly one
`processBatch` call, with the whole batch, and continues with an empty batch; with an empty
batch it makes no call and changes nothing. -/
theorem tick_flushes_nonempty_batch (R : Runtime) (s : Worker) (rd : Ready) (env : FlushEnv)
    (hrun : s.exited = false) :
    (s.batch ≠ [] →
      (Worker.step R s ⟨rd, .tick, env⟩).world = processBatch R env s.world s.batch ∧
      flushes (Worker.step R s ⟨rd, .tick, env⟩).world.trace =
        flushes s.world.trace ++ [s.batch] ∧
      (Worker.step R s ⟨rd, .tick, env⟩).batch = [] ∧
      (Worker.step R s ⟨rd, .tick, env⟩).exited = false) ∧
    (s.batch = [] → Worker.step R s ⟨rd, .tick, env⟩ = s) := by
  refine ⟨fun hne => ?_, step_tick_empty R s rd env hrun⟩
  rw [step_tick_nonempty R s rd env hrun hne]
  exact ⟨rfl, processBatch_flushes R env s.world s.batch, rfl, hrun⟩

theorem step_message_some (R : Runtime) (s : Worker) (rd : Ready) (env : FlushEnv)
    (msg : Message) (consumedAt : Instant) (event : Event)
    (hrun : s.exited = false) (hdec : R.unmarshal msg.Value = some event) :
    Worker.step R s ⟨rd, .poll (.message msg) consumedAt, env⟩ =
      if batchSize ≤ (s.batch ++ [attachKafka R msg consumedAt event]).length then
        { s with
            world := processBatch R env
              { s.world with metrics := s.world.metrics.Increment "consumer.events.received" }
              (s.batch ++ [attachKafka R msg consumedAt event]),
            batch := [] }
      else
        { s with
            world := { s.world with
              metrics := s.world.metrics.Increment "consumer.events.received" },
            batch := s.batch ++ [attachKafka R msg consumedAt event] } := by
  simp [Worker.step, hrun, hdec]

theorem step_message_none (R : Runtime) (s : Worker) (rd : Ready) (env : FlushEnv)
    (msg : Message) (consumedAt : Instant)
    (hrun : s.exited = false) (hdec : R.unmarshal msg.Value = none) :
    Worker.step R s ⟨rd, .poll (.message msg) consumedAt, env⟩ =
      { s with world :=
          { s.world with metrics := s.world.metrics.Increment "consumer.errors.unmarshal" } } := by
  simp [Worker.step, hrun, hdec]

theorem step_stop (R : Runtime) (s : Worker) (rd : Ready) (env : FlushEnv)
    (hrun : s.exited = false) :
    Worker.step R s ⟨rd, .stop, env⟩ =
      { s with
          world :=
            { (if s.batch.length > 0 then processBatch R env s.world s.batch else s.world) with
              trace := (if s.batch.length > 0 then processBatch R env s.world s.batch
                else s.world).trace ++ [Obs.workerStopped s.id] },
          exited := true } := by
  simp [Worker.step, hrun]

/-! ## Delivery: nothing lost, nothing duplicated, order kept -/

theorem step_delivers (R : Runtime) (s : Worker) (it : Iter)
    (hrun : s.exited = false) (hns : it.wake.isStop = false) :
    (Worker.step R s it).exited = false ∧ (Worker.step R s it).id = s.id ∧
    ∃ bs, flushes (Worker.step R s it).world.trace = flushes s.world.trace ++ bs ∧
      bs.flatten ++ (Worker.step R s it).batch = s.batch ++ (it.envelope R).toList := by
  obtain ⟨rd, wake, env⟩ := it
  cases wake with
  | stop => simp [Wake.isStop] at hns
  | tick =>
    by_cases hb : s.batch = []
    · rw [step_tick_empty R s rd env hrun hb]
      exact ⟨hrun, rfl, [], by simp, by simp [Iter.envelope]⟩
    · rw [step_tick_nonempty R s rd env hrun hb]
      exact ⟨hrun, rfl, [s.batch], processBatch_flushes R env s.world s.batch,
        by simp [Iter.envelope]⟩
  | poll read consumedAt =>
    cases read with
    | deadlineExceeded =>
      have : Worker.step R s ⟨rd, .poll .deadlineExceeded consumedAt, env⟩ = s := by
        simp [Worker.step, hrun]
      rw [this]
      exact ⟨hrun, rfl, [], by simp, by simp [Iter.envelope]⟩
    | failed err =>
      have : Worker.step R s ⟨rd, .poll (.failed err) consumedAt, env⟩ = s := by
        simp [Worker.step, hrun]
      rw [this]
      exact ⟨hrun, rfl, [], by simp, by simp [Iter.envelope]⟩
    | message msg =>
      cases hdec : R.unmarshal msg.Value with
      | none =>
        rw [step_message_none R s rd env msg consumedAt hrun hdec]
        exact ⟨hrun, rfl, [], by simp, by simp [Iter.envelope, hdec]⟩
      | some event =>
        rw [step_message_some R s rd env msg consumedAt event hrun hdec]
        split
        · refine ⟨hrun, rfl, [s.batch ++ [attachKafka R msg consumedAt event]], ?_, ?_⟩
          · exact processBatch_flushes R env _ _
          · simp [Iter.envelope, hdec]
        · exact ⟨hrun, rfl, [], by simp, by simp [Iter.envelope, hdec]⟩

theorem run_delivers (R : Runtime) (iters : List Iter) :
    ∀ s : Worker, s.exited = false → (∀ it ∈ iters, it.wake.isStop = false) →
      (Worker.run R s iters).exited = false ∧ (Worker.run R s iters).id = s.id ∧
      ∃ bs, flushes (Worker.run R s iters).world.trace = flushes s.world.trace ++ bs ∧
        bs.flatten ++ (Worker.run R s iters).batch =
          s.batch ++ iters.filterMap (Iter.envelope R) := by
  induction iters with
  | nil => intro s hrun _; exact ⟨hrun, rfl, [], by simp [Worker.run], by simp [Worker.run]⟩
  | cons it rest ih =>
    intro s hrun hns
    obtain ⟨hrun1, hid1, bs1, hf1, hj1⟩ :=
      step_delivers R s it hrun (hns it (List.mem_cons_self _ _))
    obtain ⟨hrun2, hid2, bs2, hf2, hj2⟩ :=
      ih (Worker.step R s it) hrun1 (fun x hx => hns x (List.mem_cons_of_mem _ hx))
    rw [run_cons]
    refine ⟨hrun2, hid2.trans hid1, bs1 ++ bs2, ?_, ?_⟩
    · rw [hf2, hf1, List.append_assoc]
    · rw [List.flatten_append, List.append_assoc, hj2, ← List.append_assoc, hj1]
      cases h : it.envelope R <;> simp [List.filterMap_cons, h]

theorem stop_delivers (R : Runtime) (s : Worker) (rd : Ready) (env : FlushEnv)
    (hrun : s.exited = false) :
    (Worker.step R s ⟨rd, .stop, env⟩).exited = true ∧
    ∃ pre, (Worker.step R s ⟨rd, .stop, env⟩).world.trace =
        s.world.trace ++ pre ++ [Obs.workerStopped s.id] ∧
      flushes pre = if s.batch = [] then [] else [s.batch] := by
  rw [step_stop R s rd env hrun]
  refine ⟨rfl, ?_⟩
  by_cases hb : s.batch = []
  · exact ⟨[], by simp [hb], by simp [hb, flushes]⟩
  · have hpos : 0 < s.batch.length := List.length_pos.mpr hb
    obtain ⟨added, ht, hf⟩ := processBatch_trace_ext R env s.world s.batch
    exact ⟨added, by simp [hpos, ht], by simp [hb, hf]⟩

/-- C1. Over any schedule of reads (valid, malformed or failed) and timer ticks that ends
with the stop signal, the worker returns, and the batches it passed to `processBatch`,
concatenated in call order, are exactly the envelopes it decoded, in arrival order. -/
theorem worker_delivers_each_envelope_once (R : Runtime) (id : Nat) (w : World)
    (iters : List Iter) (env : FlushEnv)
    (hns : ∀ it ∈ iters, it.wake.isStop = false) :
    (Worker.run R (Worker.start id w) (iters ++ [Iter.stop env])).exited = true ∧
    ∃ batches,
      flushes (Worker.run R (Worker.start id w) (iters ++ [Iter.stop env])).world.trace =
        flushes w.trace ++ batches ∧
      batches.flatten = iters.filterMap (Iter.envelope R) := by
  obtain ⟨hrun, _, bs, hf, hj⟩ := run_delivers R iters (Worker.start id w) rfl hns
  obtain ⟨hex, pre, ht, hp⟩ :=
    stop_delivers R (Worker.run R (Worker.start id w) iters) ⟨true, false⟩ env hrun
  rw [run_append]
  refine ⟨hex, bs ++ (if (Worker.run R (Worker.start id w) iters).batch = [] then []
      else [(Worker.run R (Worker.start id w) iters).batch]), ?_, ?_⟩
  · show flushes (Worker.step R _ (Iter.stop env)).world.trace = _
    unfold Iter.stop
    rw [ht, flushes_append, flushes_append, hp, hf]
    simp [flushes, Worker.start]
  · have hj2 : bs.flatten ++ (Worker.run R (Worker.start id w) iters).batch =
        iters.filterMap (Iter.envelope R) := by simpa [Worker.start] using hj
    rw [List.flatten_append, ← hj2]
    by_cases hb : (Worker.run R (Worker.start id w) iters).batch = []
    · simp [hb]
    · simp [hb]

/-! ## Shutdown -/

theorem drain_trace (R : Runtime) (iters : List Iter) :
    ∀ s : Worker, s.exited = false →
      (∀ it ∈ iters, it.ready.stop = true ∧ it.wake.enabled it.ready = true) →
      (Worker.run R s iters).exited = true →
      ∃ pre, (Worker.run R s iters).world.trace =
          s.world.trace ++ pre ++ [Obs.workerStopped s.id] ∧
        flushes pre = if s.batch = [] then [] else [s.batch] := by
  induction iters with
  | nil =>
    intro s hrun _ hex
    simp [Worker.run, hrun] at hex
  | cons it rest ih =>
    intro s hrun hsched hex
    obtain ⟨hstop, hen⟩ := hsched it (List.mem_cons_self _ _)
    have hrest : ∀ x ∈ rest, x.ready.stop = true ∧ x.wake.enabled x.ready = true :=
      fun x hx => hsched x (List.mem_cons_of_mem _ hx)
    obtain ⟨rd, wake, env⟩ := it
    rw [run_cons] at hex ⊢
    cases wake with
    | stop =>
      obtain ⟨hex1, pre, ht, hp⟩ := stop_delivers R s rd env hrun
      rw [run_exited R rest _ hex1]
      exact ⟨pre, ht, hp⟩
    | poll read consumedAt =>
      simp only [Wake.enabled] at hen
      simp only at hstop
      simp [hstop] at hen
    | tick =>
      by_cases hb : s.batch = []
      · rw [step_tick_empty R s rd env hrun hb] at hex ⊢
        exact ih s hrun hrest hex
      · rw [step_tick_nonempty R s rd env hrun hb] at hex ⊢
        obtain ⟨pre, ht, hp⟩ :=
          ih { s with world := processBatch R env s.world s.batch, batch := [] } hrun hrest hex
        obtain ⟨added, hta, hfa⟩ := processBatch_trace_ext R env s.world s.batch
        refine ⟨added ++ pre, ?_, ?_⟩
        · rw [ht]
          simp only [hta, List.append_assoc]
        · rw [flushes_append, hfa, hp]
          simp [hb]

theorem drain_exits (R : Runtime) (iters : List Iter) :
    ∀ s : Worker, s.exited = false →
      (∀ it ∈ iters, it.ready.stop = true ∧ it.wake.enabled it.ready = true) →
      (∃ it ∈ iters, it.wake = .stop) →
      (Worker.run R s iters).exited = true := by
  induction iters with
  | nil =>
    intro s _ _ hstop
    obtain ⟨it, hit, _⟩ := hstop
    cases hit
  | cons it rest ih =>
    intro s hrun hsched hstop
    obtain ⟨hst, hen⟩ := hsched it (List.mem_cons_self _ _)
    have hrest : ∀ x ∈ rest, x.ready.stop = true ∧ x.wake.enabled x.ready = true :=
      fun x hx => hsched x (List.mem_cons_of_mem _ hx)
    obtain ⟨rd, wake, env⟩ := it
    rw [run_cons]
    cases wake with
    | stop =>
      obtain ⟨hex1, _⟩ := stop_delivers R s rd env hrun
      rw [run_exited R rest _ hex1]
      exact hex1
    | poll read consumedAt =>
      simp only [Wake.enabled] at hen
      simp only at hst
      simp [hst] at hen
    | tick =>
      have hstop2 : ∃ x ∈ rest, x.wake = .stop := by
        obtain ⟨x, hx, hw⟩ := hstop
        rcases List.mem_cons.mp hx with rfl | hx
        · cases hw
        · exact ⟨x, hx, hw⟩
      by_cases hb : s.batch = []
      · rw [step_tick_empty R s rd env hrun hb]
        exact ih s hrun hrest hstop2
      · rw [step_tick_nonempty R s rd env hrun hb]
        exact ih { s with world := processBatch R env s.world s.batch, batch := [] } hrun
          hrest hstop2

/-- C4 (as the code has it). The stop channel is closed while the worker, holding n
envelopes, is at its `select` with no read in flight: from then on every pass finds the stop
channel ready, so it takes the stop or the tick branch and never `default`. On every such
schedule that contains a pass taking the stop branch the worker returns; until then it makes
exactly one `processBatch` call when n is positive, carrying those n envelopes in order, and
the call comes before the "stopped" report, which is the last thing the worker does; when n
is zero there is no call. -/
theorem stop_at_select_flushes_partial_batch_once (R : Runtime) (s : Worker)
    (iters : List Iter) (n : Nat)
    (hrun : s.exited = false) (hn : s.batch.length = n)
    (hsched : ∀ it ∈ iters, it.ready.stop = true ∧ it.wake.enabled it.ready = true)
    (hstop : ∃ it ∈ iters, it.wake = .stop) :
    (Worker.run R s iters).exited = true ∧
    ∃ pre, (Worker.run R s iters).world.trace =
        s.world.trace ++ pre ++ [Obs.workerStopped s.id] ∧
      (0 < n → n < batchSize → flushes pre = [s.batch]) ∧
      (n = 0 → flushes pre = []) := by
  have hex := drain_exits R iters s hrun hsched hstop
  obtain ⟨pre, ht, hp⟩ := drain_trace R iters s hrun hsched hex
  refine ⟨hex, pre, ht, ?_, ?_⟩
  · intro hpos _
    have hb : s.batch ≠ [] := List.length_pos.mp (hn ▸ hpos)
    simpa [hb] using hp
  · intro h0
    have hb : s.batch = [] := List.length_eq_zero.mp (hn ▸ h0)
    simpa [hb] using hp

theorem read_then_stop_flushes (R : Runtime) (s : Worker) (msg : Message)
    (consumedAt : Instant) (env₁ env₂ : FlushEnv) (rd : Ready) (event : Event)
    (hrun : s.exited = false) (hdec : R.unmarshal msg.Value = some event) :
    (Worker.run R s [Iter.message msg consumedAt env₁, ⟨rd, .stop, env₂⟩]).exited = true ∧
    flushes (Worker.run R s [Iter.message msg consumedAt env₁, ⟨rd, .stop, env₂⟩]).world.trace =
      flushes s.world.trace ++ [s.batch ++ [attachKafka R msg consumedAt event]] := by
  rw [run_cons]
  unfold Iter.message
  rw [step_message_some R s _ env₁ msg consumedAt event hrun hdec]
  by_cases hsz : batchSize ≤ (s.batch ++ [attachKafka R msg consumedAt event]).length
  · rw [if_pos hsz]
    show (Worker.step R _ ⟨rd, .stop, env₂⟩).exited = true ∧
      flushes (Worker.step R _ ⟨rd, .stop, env₂⟩).world.trace = _
    rw [step_stop]
    · refine ⟨rfl, ?_⟩
      simp [flushes_append, processBatch_flushes]
      try rfl
    · exact hrun
  · rw [if_neg hsz]
    show (Worker.step R _ ⟨rd, .stop, env₂⟩).exited = true ∧
      flushes (Worker.step R _ ⟨rd, .stop, env₂⟩).world.trace = _
    rw [step_stop]
    · refine ⟨rfl, ?_⟩
      simp [flushes_append, processBatch_flushes]
      try rfl
    · exact hrun

/-- C4, counterexample. The stop channel is closed while a read is in flight: the pass that
began the read found no channel ready, the read is not tied to the stop channel and returns
a valid message, and the next pass takes the stop branch. A worker that held 37 envelopes
when the signal was raised makes one `processBatch` call with 38 envelopes, not with those
37; one that held 99 makes its call with 100 envelopes on the size threshold and none on the
stop branch. -/
theorem stop_during_read_flushes_one_more :
    (sampleWorker 37).batch.length = 37 ∧
    (Worker.run sampleRuntime (sampleWorker 37) sampleReadInFlight).exited = true ∧
    flushes (Worker.run sampleRuntime (sampleWorker 37) sampleReadInFlight).world.trace =
      [(sampleWorker 37).batch ++
        [attachKafka sampleRuntime (sampleMessage "b") 20 (sampleEvent "b")]] ∧
    flushes (Worker.run sampleRuntime (sampleWorker 37) sampleReadInFlight).world.trace ≠
      [(sampleWorker 37).batch] ∧
    (flushes (Worker.run sampleRuntime (sampleWorker 37)
      sampleReadInFlight).world.trace).map List.length = [38] ∧
    (flushes (Worker.run sampleRuntime (sampleWorker 99)
      sampleReadInFlight).world.trace).map List.length = [100] := by
  have h37 := read_then_stop_flushes sampleRuntime (sampleWorker 37) (sampleMessage "b") 20
    (FlushEnv.healthy 20) (FlushEnv.healthy 21) ⟨true, false⟩ (sampleEvent "b") rfl rfl
  have h99 := read_then_stop_flushes sampleRuntime (sampleWorker 99) (sampleMessage "b") 20
    (FlushEnv.healthy 20) (FlushEnv.healthy 21) ⟨true, false⟩ (sampleEvent "b") rfl rfl
  have e37 : flushes (Worker.run sampleRuntime (sampleWorker 37) sampleReadInFlight).world.trace =
      [(sampleWorker 37).batch ++
        [attachKafka sampleRuntime (sampleMessage "b") 20 (sampleEvent "b")]] := h37.2
  have e99 : flushes (Worker.run sampleRuntime (sampleWorker 99) sampleReadInFlight).world.trace =
      [(sampleWorker 99).batch ++
        [attachKafka sampleRuntime (sampleMessage "b") 20 (sampleEvent "b")]] := h99.2
  refine ⟨by decide, h37.1, e37, ?_, ?_, ?_⟩
  · rw [e37]
    intro h
    have := congrArg (List.map List.length) h
    simp [sampleWorker] at this
  · rw [e37]
    simp [sampleWorker]
  · rw [e99]
    simp [sampleWorker]

/-! ## Size-triggered flush -/

theorem envelope_some (R : Runtime) (it : Iter) (e : Event) (h : it.envelope R = some e) :
    ∃ msg consumedAt event, it.wake = .poll (.message msg) consumedAt ∧
      R.unmarshal msg.Value = some event ∧ e = attachKafka R msg consumedAt event := by
  obtain ⟨rd, wake, env⟩ := it
  cases wake with
  | stop => simp [Iter.envelope] at h
  | tick => simp [Iter.envelope] at h
  | poll read consumedAt =>
    cases read with
    | deadlineExceeded => simp [Iter.envelope] at h
    | failed err => simp [Iter.envelope] at h
    | message msg =>
      cases hdec : R.unmarshal msg.Value with
      | none => simp [Iter.envelope, hdec] at h
      | some event =>
        simp [Iter.envelope, hdec] at h
        exact ⟨msg, consumedAt, event, rfl, hdec, h.symm⟩

theorem step_valid (R : Runtime) (s : Worker) (it : Iter) (e : Event)
    (hrun : s.exited = false) (h : it.envelope R = some e) :
    Worker.step R s it =
      if batchSize ≤ (s.batch ++ [e]).length then
        { s with
            world := processBatch R it.env
              { s.world with metrics := s.world.metrics.Increment "consumer.events.received" }
              (s.batch ++ [e]),
            batch := [] }
      else
        { s with
            world := { s.world with
              metrics := s.world.metrics.Increment "consumer.events.received" },
            batch := s.batch ++ [e] } := by
  obtain ⟨msg, consumedAt, event, hw, hdec, he⟩ := envelope_some R it e h
  obtain ⟨rd, wake, env⟩ := it
  simp only at hw
  subst hw
  subst he
  exact step_message_some R s rd env msg consumedAt event hrun hdec

theorem run_fill (R : Runtime) (iters : List Iter) :
    ∀ s : Worker, s.exited = false → (∀ it ∈ iters, (it.envelope R).isSome = true) →
      s.batch.length + iters.length < batchSize →
      (Worker.run R s iters).batch = s.batch ++ iters.filterMap (Iter.envelope R) ∧
      (Worker.run R s iters).world.trace = s.world.trace ∧
      (Worker.run R s iters).exited = false := by
  induction iters with
  | nil => intro s hrun _ _; exact ⟨by simp [Worker.run], rfl, hrun⟩
  | cons it rest ih =>
    intro s hrun hv hlen
    obtain ⟨e, he⟩ := Option.isSome_iff_exists.mp (hv it (List.mem_cons_self _ _))
    have hlen1 : ¬ batchSize ≤ (s.batch ++ [e]).length := by
      simp only [List.length_append, List.length_cons, List.length_nil] at hlen ⊢
      omega
    rw [run_cons, step_valid R s it e hrun he, if_neg hlen1]
    obtain ⟨hb, ht, hx⟩ := ih
      { s with
          world := { s.world with
            metrics := s.world.metrics.Increment "consumer.events.received" },
          batch := s.batch ++ [e] }
      hrun (fun x hx => hv x (List.mem_cons_of_mem _ hx))
      (by simp only [List.length_append, List.length_cons, List.length_nil] at hlen ⊢; omega)
    refine ⟨?_, ht, hx⟩
    rw [hb]
    simp [List.filterMap_cons, he]

theorem run_fill_to_cap (R : Runtime) (iters : List Iter) :
    ∀ s : Worker, s.exited = false → (∀ it ∈ iters, (it.envelope R).isSome = true) →
      iters ≠ [] → s.batch.length + iters.length = batchSize →
      (Worker.run R s iters).batch = [] ∧
      flushes (Worker.run R s iters).world.trace =
        flushes s.world.trace ++ [s.batch ++ iters.filterMap (Iter.envelope R)] ∧
      (Worker.run R s iters).exited = false := by
  induction iters with
  | nil => intro s _ _ hne; exact absurd rfl hne
  | cons it rest ih =>
    intro s hrun hv _ hlen
    obtain ⟨e, he⟩ := Option.isSome_iff_exists.mp (hv it (List.mem_cons_self _ _))
    rw [run_cons, step_valid R s it e hrun he]
    by_cases hr : rest = []
    · subst hr
      have hcap : batchSize ≤ (s.batch ++ [e]).length := by
        simp only [List.length_append, List.length_cons, List.length_nil] at hlen ⊢
        omega
      rw [if_pos hcap]
      refine ⟨rfl, ?_, hrun⟩
      show flushes (processBatch R it.env _ (s.batch ++ [e])).trace = _
      rw [processBatch_flushes]
      simp [List.filterMap_cons, he]
    · have hpos : 0 < rest.length := List.length_pos.mpr hr
      have hlen1 : ¬ batchSize ≤ (s.batch ++ [e]).length := by
        simp only [List.length_append, List.length_cons, List.length_nil] at hlen ⊢
        omega
      rw [if_neg hlen1]
      obtain ⟨hb, hf, hx⟩ := ih
        { s with
            world := { s.world with
              metrics := s.world.metrics.Increment "consumer.events.received" },
            batch := s.batch ++ [e] }
        hrun (fun x hx => hv x (List.mem_cons_of_mem _ hx)) hr
        (by simp only [List.length_append, List.length_cons, List.length_nil] at hlen ⊢; omega)
      refine ⟨hb, ?_, hx⟩
      rw [hf]
      simp [List.filterMap_cons, he]

theorem filterMap_length_valid (R : Runtime) (iters : List Iter)
    (hv : ∀ it ∈ iters, (it.envelope R).isSome = true) :
    (iters.filterMap (Iter.envelope R)).length = iters.length := by
  induction iters with
  | nil => rfl
  | cons it rest ih =>
    obtain ⟨e, he⟩ := Option.isSome_iff_exists.mp (hv it (List.mem_cons_self _ _))
    simp [List.filterMap_cons, he, ih (fun x hx => hv x (List.mem_cons_of_mem _ hx))]

/-- C2. When a decoded message brings the batch of a running worker to 100 envelopes, that
same pass calls `processBatch` with exactly those 100 envelopes in arrival order and goes on
with an empty batch; the pass is a read, no timer tick is involved. Hence 250 valid messages
read back-to-back by a fresh worker give exactly two flushes, of the first and of the second
hundred envelopes, and leave the last 50 buffered. -/
theorem size_flush_without_tick (R : Runtime) :
    (∀ (s : Worker) (rd : Ready) (env : FlushEnv) (msg : Message) (consumedAt : Instant)
        (event : Event),
      s.exited = false → R.unmarshal msg.Value = some event →
      s.batch.length + 1 = batchSize →
      flushes (Worker.step R s ⟨rd, .poll (.message msg) consumedAt, env⟩).world.trace =
          flushes s.world.trace ++ [s.batch ++ [attachKafka R msg consumedAt event]] ∧
        (s.batch ++ [attachKafka R msg consumedAt event]).length = 100 ∧
        (Worker.step R s ⟨rd, .poll (.message msg) consumedAt, env⟩).batch = [] ∧
        (Worker.step R s ⟨rd, .poll (.message msg) consumedAt, env⟩).exited = false) ∧
    (∀ (id : Nat) (w : World) (iters : List Iter),
      iters.length = 250 → (∀ it ∈ iters, (it.envelope R).isSome = true) →
      flushes (Worker.run R (Worker.start id w) iters).world.trace =
          flushes w.trace ++
            [(iters.take 100).filterMap (Iter.envelope R),
             ((iters.drop 100).take 100).filterMap (Iter.envelope R)] ∧
        ((iters.take 100).filterMap (Iter.envelope R)).length = 100 ∧
        (((iters.drop 100).take 100).filterMap (Iter.envelope R)).length = 100 ∧
        (Worker.run R (Worker.start id w) iters).batch =
          (iters.drop 200).filterMap (Iter.envelope R) ∧
        (Worker.run R (Worker.start id w) iters).batch.length = 50 ∧
        (Worker.run R (Worker.start id w) iters).exited = false) := by
  constructor
  · intro s rd env msg consumedAt event hrun hdec hlen
    have hcap : batchSize ≤ (s.batch ++ [attachKafka R msg consumedAt event]).length := by
      simp only [List.length_append, List.length_cons, List.length_nil]
      omega
    rw [step_message_some R s rd env msg consumedAt event hrun hdec, if_pos hcap]
    refine ⟨processBatch_flushes R env _ _, ?_, rfl, hrun⟩
    simp only [List.length_append, List.length_cons, List.length_nil]
    simpa [batchSize] using hlen
  · intro id w iters hlen hv
    have hsplit : iters = iters.take 100 ++ ((iters.drop 100).take 100 ++ iters.drop 200) := by
      have h1 : (iters.drop 100).drop 100 = iters.drop 200 := by simp [List.drop_drop]
      rw [← h1, List.take_append_drop, List.take_append_drop]
    have hva : ∀ it ∈ iters.take 100, (it.envelope R).isSome = true :=
      fun x hx => hv x (List.mem_of_mem_take hx)
    have hvb : ∀ it ∈ (iters.drop 100).take 100, (it.envelope R).isSome = true :=
      fun x hx => hv x (List.mem_of_mem_drop (List.mem_of_mem_take hx))
    have hvc : ∀ it ∈ iters.drop 200, (it.envelope R).isSome = true :=
      fun x hx => hv x (List.mem_of_mem_drop hx)
    have hla : (iters.take 100).length = 100 := by simp [hlen]
    have hlb : ((iters.drop 100).take 100).length = 100 := by simp [hlen]
    have hlc : (iters.drop 200).length = 50 := by simp [hlen]
    have hna : iters.take 100 ≠ [] := by
      intro h; rw [h] at hla; simp at hla
    have hnb : (iters.drop 100).take 100 ≠ [] := by
      intro h; rw [h] at hlb; simp at hlb
    obtain ⟨ha1, ha2, ha3⟩ := run_fill_to_cap R (iters.take 100) (Worker.start id w) rfl hva hna
      (by simp [Worker.start, hla, batchSize])
    obtain ⟨hb1, hb2, hb3⟩ := run_fill_to_cap R ((iters.drop 100).take 100)
      (Worker.run R (Worker.start id w) (iters.take 100)) ha3 hvb hnb
      (by rw [ha1, hlb]; simp [batchSize])
    obtain ⟨hc1, hc2, hc3⟩ := run_fill R (iters.drop 200)
      (Worker.run R (Worker.run R (Worker.start id w) (iters.take 100))
        ((iters.drop 100).take 100)) hb3 hvc
      (by rw [hb1, hlc]; simp [batchSize])
    have hrun : Worker.run R (Worker.start id w) iters =
        Worker.run R (Worker.run R (Worker.run R (Worker.start id w) (iters.take 100))
          ((iters.drop 100).take 100)) (iters.drop 200) := by
      conv_lhs => rw [hsplit]
      rw [run_append, run_append]
    rw [hrun]
    refine ⟨?_, ?_, ?_, ?_, ?_, hc3⟩
    · rw [hc2, hb2, ha2, ha1]
      simp [Worker.start]
    · rw [filterMap_length_valid R _ hva, hla]
    · rw [filterMap_length_valid R _ hvb, hlb]
    · rw [hc1, hb1]
      simp
    · rw [hc1, hb1]
      simp [filterMap_length_valid R _ hvc, hlc]

/-! ## Failed reads and malformed messages -/

theorem processBatch_congr (R : Runtime) (env : FlushEnv) (w₁ w₂ : World) (events : List Event)
    (hc : w₁.clickhouse = w₂.clickhouse) (hr : w₁.redis = w₂.redis) (ht : w₁.trace = w₂.trace) :
    (processBatch R env w₁ events).clickhouse = (processBatch R env w₂ events).clickhouse ∧
    (processBatch R env w₁ events).redis = (processBatch R env w₂ events).redis ∧
    (processBatch R env w₁ events).trace = (processBatch R env w₂ events).trace := by
  cases h : (InsertEventBatch env.driver w₂.clickhouse events).2 with
  | none =>
    have h1 : (InsertEventBatch env.driver w₁.clickhouse events).2 = none := by rw [hc]; exact h
    simp [processBatch, callInsert, h, h1, updateCache, hc, hr, ht]
  | some err =>
    have h1 : (InsertEventBatch env.driver w₁.clickhouse events).2 = some err := by
      rw [hc]; exact h
    simp [processBatch, callInsert, h, h1, saveFailedBatch, hc, hr, ht]

theorem step_congr (R : Runtime) (s₁ s₂ : Worker) (it : Iter)
    (hid : s₁.id = s₂.id) (hb : s₁.batch = s₂.batch) (hx : s₁.exited = s₂.exited)
    (hc : s₁.world.clickhouse = s₂.world.clickhouse) (hr : s₁.world.redis = s₂.world.redis)
    (ht : s₁.world.trace = s₂.world.trace) :
    (Worker.step R s₁ it).id = (Worker.step R s₂ it).id ∧
    (Worker.step R s₁ it).batch = (Worker.step R s₂ it).batch ∧
    (Worker.step R s₁ it).exited = (Worker.step R s₂ it).exited ∧
    (Worker.step R s₁ it).world.clickhouse = (Worker.step R s₂ it).world.clickhouse ∧
    (Worker.step R s₁ it).world.redis = (Worker.step R s₂ it).world.redis ∧
    (Worker.step R s₁ it).world.trace = (Worker.step R s₂ it).world.trace := by
  cases hx2 : s₂.exited with
  | true =>
    rw [step_exited R s₂ it hx2, step_exited R s₁ it (hx.trans hx2)]
    exact ⟨hid, hb, hx, hc, hr, ht⟩
  | false =>
    have hx1 : s₁.exited = false := hx.trans hx2
    obtain ⟨rd, wake, env⟩ := it
    cases wake with
    | stop =>
      rw [step_stop R s₁ rd env hx1, step_stop R s₂ rd env hx2]
      obtain ⟨pc, pr, pt⟩ := processBatch_congr R env s₁.world s₂.world s₂.batch hc hr ht
      by_cases hl : s₂.batch.length > 0
      · simp [hb, hl, hid, pc, pr, pt]
      · simp [hb, hl, hid, hc, hr, ht]
    | tick =>
      by_cases he : s₂.batch = []
      · rw [step_tick_empty R s₂ rd env hx2 he, step_tick_empty R s₁ rd env hx1 (hb.trans he)]
        exact ⟨hid, hb, hx, hc, hr, ht⟩
      · rw [step_tick_nonempty R s₂ rd env hx2 he,
          step_tick_nonempty R s₁ rd env hx1 (by rw [hb]; exact he)]
        obtain ⟨pc, pr, pt⟩ := processBatch_congr R env s₁.world s₂.world s₂.batch hc hr ht
        exact ⟨hid, rfl, hx, by simpa [hb] using pc, by simpa [hb] using pr,
          by simpa [hb] using pt⟩
    | poll read consumedAt =>
      cases read with
      | deadlineExceeded =>
        simp only [Worker.step, hx1, hx2]
        exact ⟨hid, hb, hx1.trans hx2.symm, hc, hr, ht⟩
      | failed err =>
        simp only [Worker.step, hx1, hx2]
        exact ⟨hid, hb, hx1.trans hx2.symm, hc, hr, ht⟩
      | message msg =>
        cases hdec : R.unmarshal msg.Value with
        | none =>
          rw [step_message_none R s₁ rd env msg consumedAt hx1 hdec,
            step_message_none R s₂ rd env msg consumedAt hx2 hdec]
          exact ⟨hid, hb, hx, hc, hr, ht⟩
        | some event =>
          rw [step_message_some R s₁ rd env msg consumedAt event hx1 hdec,
            step_message_some R s₂ rd env msg consumedAt event hx2 hdec, hb]
          split
          · obtain ⟨pc, pr, pt⟩ := processBatch_congr R env
              { s₁.world with
                metrics := s₁.world.metrics.Increment "consumer.events.received" }
              { s₂.world with
                metrics := s₂.world.metrics.Increment "consumer.events.received" }
              (s₂.batch ++ [attachKafka R msg consumedAt event]) hc hr ht
            exact ⟨hid, rfl, hx, pc, pr, pt⟩
          · exact ⟨hid, rfl, hx, hc, hr, ht⟩

theorem counter_Increment_self (m : Metrics) (name : String) :
    (m.Increment name).counter name = m.counter name + 1 := by
  unfold Metrics.Increment Metrics.counter
  cases h : m.customCounters name <;> simp [h]

/-- C10. A pass of a running worker whose read fails (deadline or transport error) changes
nothing at all: batch, world and every counter stay as they were and the worker stays in its
loop. A pass whose payload fails to decode leaves the batch, the store, Redis and the trace
unchanged, keeps the worker in its loop, and adds exactly one to the counter
`consumer.errors.unmarshal`; whatever pass comes next then yields the same batch, the same
flushes and the same stores as if the failed pass had not happened. -/
theorem failed_pass_keeps_batch (R : Runtime) (s : Worker) (rd : Ready) (env : FlushEnv)
    (consumedAt : Instant) (hrun : s.exited = false) :
    (Worker.step R s ⟨rd, .poll .deadlineExceeded consumedAt, env⟩ = s) ∧
    (∀ err, Worker.step R s ⟨rd, .poll (.failed err) consumedAt, env⟩ = s) ∧
    (∀ msg, R.unmarshal msg.Value = none →
      (Worker.step R s ⟨rd, .poll (.message msg) consumedAt, env⟩).batch = s.batch ∧
      (Worker.step R s ⟨rd, .poll (.message msg) consumedAt, env⟩).exited = false ∧
      (Worker.step R s ⟨rd, .poll (.message msg) consumedAt, env⟩).world.trace =
        s.world.trace ∧
      (Worker.step R s ⟨rd, .poll (.message msg) consumedAt, env⟩).world.clickhouse =
        s.world.clickhouse ∧
      (Worker.step R s ⟨rd, .poll (.message msg) consumedAt, env⟩).world.redis =
        s.world.redis ∧
      (Worker.step R s ⟨rd, .poll (.message msg) consumedAt, env⟩).world.metrics.counter
          "consumer.errors.unmarshal" =
        s.world.metrics.counter "consumer.errors.unmarshal" + 1 ∧
      ∀ next : Iter,
        (Worker.step R (Worker.step R s ⟨rd, .poll (.message msg) consumedAt, env⟩) next).batch =
          (Worker.step R s next).batch ∧
        (Worker.step R (Worker.step R s ⟨rd, .poll (.message msg) consumedAt, env⟩) next).exited =
          (Worker.step R s next).exited ∧
        (Worker.step R (Worker.step R s ⟨rd, .poll (.message msg) consumedAt, env⟩)
            next).world.trace = (Worker.step R s next).world.trace ∧
        (Worker.step R (Worker.step R s ⟨rd, .poll (.message msg) consumedAt, env⟩)
            next).world.clickhouse = (Worker.step R s next).world.clickhouse ∧
        (Worker.step R (Worker.step R s ⟨rd, .poll (.message msg) consumedAt, env⟩)
            next).world.redis = (Worker.step R s next).world.redis) := by
  refine ⟨by simp [Worker.step, hrun], fun err => by simp [Worker.step, hrun], ?_⟩
  intro msg hdec
  rw [step_message_none R s rd env msg consumedAt hrun hdec]
  refine ⟨rfl, hrun, rfl, rfl, rfl, counter_Increment_self _ _, ?_⟩
  intro next
  obtain ⟨_, h2, h3, h4, h5, h6⟩ := step_congr R
    { s with world :=
        { s.world with metrics := s.world.metrics.Increment "consumer.errors.unmarshal" } }
    s next rfl rfl rfl rfl rfl rfl
  exact ⟨h2, h3, h6, h4, h5⟩

/-! ## Redis commands -/

theorem Redis.get_set_self (r : Redis) (now : Instant) (key : String) (e : RedisEntry)
    (hlive : ∀ d, e.expireAt = some d → now < d) :
    (r.set key e).get now key = some e := by
  unfold Redis.get Redis.set
  simp only [Function.update_same]
  cases hd : e.expireAt with
  | none => rfl
  | some d =>
    have : ¬ d ≤ now := not_le.mpr (hlive d hd)
    simp [this]

theorem Redis.get_set_other (r : Redis) (now : Instant) (key other : String) (e : RedisEntry)
    (h : other ≠ key) : (r.set key e).get now other = r.get now other := by
  unfold Redis.get Redis.set
  simp [Function.update_noteq h]

theorem Redis.get_live (r : Redis) (now : Instant) (key : String) (e : RedisEntry)
    (h : r.get now key = some e) : ∀ d, e.expireAt = some d → now < d := by
  intro d hd
  unfold Redis.get at h
  cases hk : r.keys key with
  | none => simp [hk] at h
  | some e0 =>
    simp only [hk] at h
    cases hd0 : e0.expireAt with
    | none =>
      simp only [hd0] at h
      cases h
      rw [hd0] at hd
      cases hd
    | some d0 =>
      simp only [hd0] at h
      by_cases hle : d0 ≤ now
      · simp [hle] at h
      · simp only [hle, if_false] at h
        cases h
        rw [hd0] at hd
        cases hd
        exact not_le.mp hle

theorem Redis.get_keys (r : Redis) (now : Instant) (key : String) (e : RedisEntry)
    (h : r.get now key = some e) : r.keys key = some e := by
  unfold Redis.get at h
  cases hk : r.keys key with
  | none => simp [hk] at h
  | some e0 =>
    simp only [hk] at h
    cases hd0 : e0.expireAt with
    | none => simp only [hd0] at h; exact h
    | some d0 =>
      simp only [hd0] at h
      by_cases hle : d0 ≤ now
      · simp [hle] at h
      · simpa [hle] using h

theorem Redis.exec_issued (r : Redis) (up : Bool) (now : Instant) (cmd : RedisCmd) :
    (r.exec up now cmd).issued = r.issued ++ [cmd] := rfl

theorem Redis.exec_rpush_get (r : Redis) (now : Instant) (key value : String)
    (hl : ∀ e, r.get now key = some e → ∃ items, e.value = .list items) :
    ∃ ex, (r.exec true now (.RPush key value)).get now key =
      some ⟨.list (r.lrange now key ++ [value]), ex⟩ := by
  cases hg : r.get now key with
  | none =>
    refine ⟨none, ?_⟩
    have : (r.exec true now (.RPush key value)).get now key =
        (r.set key ⟨.list [value], none⟩).get now key := by
      show (r.apply now (.RPush key value)).get now key = _
      simp only [Redis.apply, hg]
    rw [this, Redis.get_set_self r now key _ (by simp)]
    simp [Redis.lrange, hg]
  | some e =>
    obtain ⟨items, hi⟩ := hl e hg
    obtain ⟨val, ex⟩ := e
    simp only at hi
    subst hi
    refine ⟨ex, ?_⟩
    have hlive := Redis.get_live r now key _ hg
    have : (r.exec true now (.RPush key value)).get now key =
        (r.set key ⟨.list (items ++ [value]), ex⟩).get now key := by
      show (r.apply now (.RPush key value)).get now key = _
      simp only [Redis.apply, hg]
    rw [this, Redis.get_set_self r now key _ (by simpa using hlive)]
    simp [Redis.lrange, hg]

theorem Redis.exec_expire_get (r : Redis) (now : Instant) (key : String) (ttl : Int)
    (e : RedisEntry) (hpos : 0 < ttl) (hg : r.get now key = some e) :
    (r.exec true now (.Expire key ttl)).get now key = some ⟨e.value, some (now + ttl)⟩ := by
  have : (r.exec true now (.Expire key ttl)).get now key =
      (r.set key ⟨e.value, some (now + ttl)⟩).get now key := by
    show (r.apply now (.Expire key ttl)).get now key = _
    simp only [Redis.apply, hg]
  rw [this, Redis.get_set_self r now key _ (by intro d hd; injection hd with hd; rw [← hd]; exact Int.lt_add_of_pos_right now hpos)]

theorem Redis.exec_expire_lrange (r : Redis) (up : Bool) (now : Instant) (key : String)
    (ttl : Int) (hpos : 0 < ttl) :
    (r.exec up now (.Expire key ttl)).lrange now key = r.lrange now key := by
  cases up with
  | false => simp [Redis.exec, Redis.lrange, Redis.get]
  | true =>
    cases hg : r.get now key with
    | none =>
      have : (r.exec true now (.Expire key ttl)).get now key = r.get now key := by
        show (r.apply now (.Expire key ttl)).get now key = _
        simp only [Redis.apply, hg]
      simp only [Redis.lrange, this]
    | some e =>
      simp only [Redis.lrange, Redis.exec_expire_get r now key ttl e hpos hg, hg]
      obtain ⟨val, ex⟩ := e
      cases val <;> rfl

/-! ## Retry sink -/

theorem pushAll_issued (R : Runtime) (env : FlushEnv) (key : String) (events : List Event) :
    ∀ (i : Nat) (r : Redis), (pushAll R env key i events r).issued =
      r.issued ++ events.map (fun e => RedisCmd.RPush key (marshalOrEmpty R e)) := by
  induction events with
  | nil => intro i r; simp [pushAll]
  | cons e es ih =>
    intro i r
    simp [pushAll, ih, Redis.exec_issued]

theorem pushAll_get (R : Runtime) (env : FlushEnv) (key : String) (events : List Event) :
    ∀ (i : Nat) (r : Redis), (∀ k, k < events.length → env.redisUp (i + k) = true) →
      (∀ e, r.get env.now key = some e → ∃ items, e.value = .list items) → events ≠ [] →
      ∃ ex, (pushAll R env key i events r).get env.now key =
        some ⟨.list (r.lrange env.now key ++ events.map (marshalOrEmpty R)), ex⟩ := by
  induction events with
  | nil => intro i r _ _ hne; exact absurd rfl hne
  | cons e es ih =>
    intro i r hup hl _
    have h0 : env.redisUp i = true := by simpa using hup 0 (by simp)
    obtain ⟨ex1, hg1⟩ := Redis.exec_rpush_get r env.now key (marshalOrEmpty R e) hl
    by_cases hes : es = []
    · subst hes
      exact ⟨ex1, by simpa [pushAll, h0] using hg1⟩
    · have hup2 : ∀ k, k < es.length → env.redisUp (i + 1 + k) = true := by
        intro k hk
        have := hup (k + 1) (by simpa using hk)
        simpa [Nat.add_assoc, Nat.add_comm 1 k] using this
      obtain ⟨ex2, hg2⟩ := ih (i + 1) (r.exec true env.now (.RPush key (marshalOrEmpty R e)))
        hup2 (by intro e0 he0; rw [hg1] at he0; cases he0; exact ⟨_, rfl⟩) hes
      refine ⟨ex2, ?_⟩
      simp only [pushAll, h0]
      rw [hg2]
      simp [Redis.lrange, hg1]

theorem saveFailedBatch_issued (R : Runtime) (env : FlushEnv) (w : World)
    (events : List Event) :
    (saveFailedBatch R env w events).redis.issued =
      w.redis.issued ++
        events.map (fun e => RedisCmd.RPush (failedKey R env.now) (marshalOrEmpty R e)) ++
        [RedisCmd.Expire (failedKey R env.now) (24 * 3600)] := by
  simp [saveFailedBatch, Redis.exec_issued, pushAll_issued]

/-- C7. `saveFailedBatch` issues, for a batch of n envelopes, exactly n `RPUSH` commands
on the day key, the i-th carrying the serialization of the i-th envelope, followed by one
`EXPIRE`. When the commands reach the server and the day key holds a list or is absent, the
list afterwards is the list before followed by those n entries: the earlier entries are
unchanged and the length grows by n. -/
theorem saveFailedBatch_appends_in_order (R : Runtime) (env : FlushEnv) (w : World)
    (events : List Event) :
    (saveFailedBatch R env w events).redis.issued =
        w.redis.issued ++
          events.map (fun e => RedisCmd.RPush (failedKey R env.now) (marshalOrEmpty R e)) ++
          [RedisCmd.Expire (failedKey R env.now) (24 * 3600)] ∧
    (∀ e data, R.marshal e = some data → marshalOrEmpty R e = data) ∧
    ((∀ i, i ≤ events.length → env.redisUp i = true) →
      (∀ e, w.redis.get env.now (failedKey R env.now) = some e →
        ∃ items, e.value = .list items) →
      (saveFailedBatch R env w events).redis.lrange env.now (failedKey R env.now) =
          w.redis.lrange env.now (failedKey R env.now) ++ events.map (marshalOrEmpty R) ∧
        ((saveFailedBatch R env w events).redis.lrange env.now (failedKey R env.now)).length =
          (w.redis.lrange env.now (failedKey R env.now)).length + events.length) := by
  refine ⟨saveFailedBatch_issued R env w events, ?_, ?_⟩
  · intro e data h
    simp [marshalOrEmpty, h]
  · intro hup hl
    have key : (saveFailedBatch R env w events).redis.lrange env.now (failedKey R env.now) =
        w.redis.lrange env.now (failedKey R env.now) ++ events.map (marshalOrEmpty R) := by
      show (Redis.exec _ _ env.now (.Expire (failedKey R env.now) (24 * 3600))).lrange
        env.now (failedKey R env.now) = _
      rw [Redis.exec_expire_lrange _ _ _ _ _ (by norm_num)]
      by_cases hne : events = []
      · subst hne
        simp [pushAll]
      · obtain ⟨ex, hg⟩ := pushAll_get R env (failedKey R env.now) events 0 w.redis
          (fun k hk => by simpa using hup k (Nat.le_of_lt hk)) hl hne
        simp only [Redis.lrange, hg]
    refine ⟨key, ?_⟩
    rw [key]
    simp

/-- C8 (as the code has it). Every command `saveFailedBatch` issues addresses the key
"failed_events:" followed by the YYYYMMDD rendering of the calendar day of the flush instant
in the local zone of the process; the key is a function of that instant and zone only, not of
the batch, and in a process whose local zone is UTC it is the UTC day. -/
theorem saveFailedBatch_key_is_local_day (R : Runtime) (env : FlushEnv) (w : World)
    (events : List Event) :
    (∀ cmd ∈ (saveFailedBatch R env w events).redis.issued.drop w.redis.issued.length,
      cmd.key = "failed_events:" ++ (timeNow R.Local env.now).formatCompactDay) ∧
    failedKey { R with Local := utc } env.now =
      "failed_events:" ++ (timeNow utc env.now).formatCompactDay := by
  refine ⟨?_, rfl⟩
  intro cmd hcmd
  rw [saveFailedBatch_issued R env w events, List.append_assoc,
    List.drop_left] at hcmd
  simp only [List.mem_append, List.mem_map, List.mem_singleton] at hcmd
  rcases hcmd with ⟨e, _, rfl⟩ | rfl <;> rfl

/-- C8, counterexample. In a process running at UTC+3, a flush at 2024-01-01 22:00:00 UTC
writes to the key of January 2, the local day, while the UTC day is January 1. -/
theorem saveFailedBatch_key_not_utc_day :
    (saveFailedBatch sampleRuntime (FlushEnv.healthy 1704146400) World.init
        [sampleEvent "a"]).redis.issued.map RedisCmd.key =
      ["failed_events:20240102", "failed_events:20240102"] ∧
    "failed_events:" ++ (timeNow utc 1704146400).formatCompactDay = "failed_events:20240101" ∧
    failedKey sampleRuntime 1704146400 ≠
      "failed_events:" ++ (timeNow utc 1704146400).formatCompactDay := by
  decide

/-! ## Retry keys in reachable worlds -/

theorem Redis.exec_keys_other (r : Redis) (up : Bool) (now : Instant) (cmd : RedisCmd)
    (k : String) (h : k ≠ cmd.key) : (r.exec up now cmd).keys k = r.keys k := by
  cases up with
  | false => rfl
  | true =>
    show (r.apply now cmd).keys k = r.keys k
    cases cmd <;> simp only [RedisCmd.key] at h <;> simp only [Redis.apply] <;> split <;>
      simp [Redis.set, Function.update_noteq h]

theorem RetryKeysOk.exec_other (T : Instant) (r : Redis) (up : Bool) (now : Instant)
    (cmd : RedisCmd) (hk : ∀ suffix, cmd.key ≠ "failed_events:" ++ suffix)
    (h : RetryKeysOk T r) : RetryKeysOk T (r.exec up now cmd) := by
  intro suffix e he
  rw [Redis.exec_keys_other r up now cmd _ (fun hc => hk suffix hc.symm)] at he
  exact h suffix e he

theorem RetryKeysOk.exec_rpush (T : Instant) (r : Redis) (up : Bool) (now : Instant)
    (key value : String) (h : RetryKeysOk T r) :
    RetryKeysOk T (r.exec up now (.RPush key value)) := by
  intro suffix e he
  by_cases hkey : "failed_events:" ++ suffix = key
  · cases up with
    | false => exact h suffix e he
    | true =>
      subst hkey
      have he2 : (r.apply now (.RPush ("failed_events:" ++ suffix) value)).keys
          ("failed_events:" ++ suffix) = some e := he
      cases hg : r.get now ("failed_events:" ++ suffix) with
      | none =>
        simp only [Redis.apply, hg, Redis.set, Function.update_same] at he2
        cases he2
        exact ⟨⟨_, rfl⟩, by simp⟩
      | some e0 =>
        obtain ⟨val, ex⟩ := e0
        obtain ⟨_, hd0⟩ := h suffix _ (Redis.get_keys r now _ _ hg)
        cases val with
        | list items =>
          simp only [Redis.apply, hg, Redis.set, Function.update_same] at he2
          cases he2
          exact ⟨⟨_, rfl⟩, hd0⟩
        | hash fields =>
          simp only [Redis.apply, hg] at he2
          exact h suffix e he2
        | hll members =>
          simp only [Redis.apply, hg] at he2
          exact h suffix e he2
  · rw [Redis.exec_keys_other r up now _ _ (by simpa [RedisCmd.key] using hkey)] at he
    exact h suffix e he

theorem RetryKeysOk.exec_expire (T : Instant) (r : Redis) (up : Bool) (now : Instant)
    (key : String) (hnow : now ≤ T) (h : RetryKeysOk T r) :
    RetryKeysOk T (r.exec up now (.Expire key (24 * 3600))) := by
  intro suffix e he
  by_cases hkey : "failed_events:" ++ suffix = key
  · cases up with
    | false => exact h suffix e he
    | true =>
      subst hkey
      have he2 : (r.apply now (.Expire ("failed_events:" ++ suffix) (24 * 3600))).keys
          ("failed_events:" ++ suffix) = some e := he
      cases hg : r.get now ("failed_events:" ++ suffix) with
      | none =>
        simp only [Redis.apply, hg] at he2
        exact h suffix e he2
      | some e0 =>
        obtain ⟨hl0, _⟩ := h suffix _ (Redis.get_keys r now _ _ hg)
        simp only [Redis.apply, hg, Redis.set, Function.update_same] at he2
        cases he2
        refine ⟨hl0, ?_⟩
        intro d hd
        injection hd with hd
        rw [← hd]
        exact Int.add_le_add_right hnow _
  · rw [Redis.exec_keys_other r up now _ _ (by simpa [RedisCmd.key] using hkey)] at he
    exact h suffix e he

theorem RetryKeysOk.of_pushAll (R : Runtime) (env : FlushEnv) (T : Instant) (key : String)
    (events : List Event) :
    ∀ (i : Nat) (r : Redis), RetryKeysOk T r → RetryKeysOk T (pushAll R env key i events r) := by
  induction events with
  | nil => intro i r h; exact h
  | cons e es ih =>
    intro i r h
    exact ih (i + 1) _ (RetryKeysOk.exec_rpush T r _ env.now key _ h)

theorem hourKey_ne_failed (x suffix : String) :
    "stats:hourly:" ++ x ≠ "failed_events:" ++ suffix := by
  intro h
  have := congrArg String.data h
  simp at this

theorem userKey_ne_failed (x suffix : String) :
    "users:daily:" ++ x ≠ "failed_events:" ++ suffix := by
  intro h
  have := congrArg String.data h
  simp at this

theorem RetryKeysOk.of_updateAll (env : FlushEnv) (T : Instant) (events : List Event) :
    ∀ (i : Nat) (r : Redis), RetryKeysOk T r → RetryKeysOk T (updateAll env i events r) := by
  induction events with
  | nil => intro i r h; exact h
  | cons e es ih =>
    intro i r h
    apply ih (i + 4)
    unfold updateOne
    apply RetryKeysOk.exec_other _ _ _ _ _ (fun s => userKey_ne_failed _ s)
    apply RetryKeysOk.exec_other _ _ _ _ _ (fun s => userKey_ne_failed _ s)
    apply RetryKeysOk.exec_other _ _ _ _ _ (fun s => hourKey_ne_failed _ s)
    exact RetryKeysOk.exec_other _ _ _ _ _ (fun s => hourKey_ne_failed _ s) h

theorem RetryKeysOk.of_processBatch (R : Runtime) (env : FlushEnv) (T : Instant) (w : World)
    (events : List Event) (hnow : env.now ≤ T) (h : RetryKeysOk T w.redis) :
    RetryKeysOk T (processBatch R env w events).redis := by
  cases hi : (InsertEventBatch env.driver w.clickhouse events).2 with
  | none =>
    have : (processBatch R env w events).redis = updateAll env 0 events w.redis := by
      simp [processBatch, callInsert, hi, updateCache]
    rw [this]
    exact RetryKeysOk.of_updateAll env T events 0 _ h
  | some err =>
    have : (processBatch R env w events).redis =
        (pushAll R env (failedKey R env.now) 0 events w.redis).exec
          (env.redisUp events.length) env.now (.Expire (failedKey R env.now) (24 * 3600)) := by
      simp [processBatch, callInsert, hi, saveFailedBatch]
    rw [this]
    exact RetryKeysOk.exec_expire T _ _ _ _ hnow (RetryKeysOk.of_pushAll R env T _ events 0 _ h)

theorem Reachable.retryKeysOk (R : Runtime) (T : Instant) (w : World) (h : Reachable R T w) :
    RetryKeysOk T w.redis := by
  induction h with
  | init => intro suffix e he; simp [World.init, Redis.empty] at he
  | flush env w events _ hnow ih => exact RetryKeysOk.of_processBatch R env T w events hnow ih
  | metrics w m _ ih => exact ih

/-- C9. In any world the pipeline has produced by the instant of the flush, when the
commands of `saveFailedBatch` reach the server and the batch is non-empty, the day list ends
with a time to live of exactly 24 hours counted from that instant, and the time to live it
had before the call, if any, was not longer than that. -/
theorem saveFailedBatch_refreshes_ttl (R : Runtime) (env : FlushEnv) (w : World)
    (events : List Event) (hreach : Reachable R env.now w) (hne : events ≠ [])
    (hup : ∀ i, i ≤ events.length → env.redisUp i = true) :
    (saveFailedBatch R env w events).redis.ttl env.now (failedKey R env.now) =
        some (24 * 3600) ∧
    ∀ t, w.redis.ttl env.now (failedKey R env.now) = some t → t ≤ 24 * 3600 := by
  have hinv := Reachable.retryKeysOk R env.now w hreach
  have hkey : failedKey R env.now =
      "failed_events:" ++ (timeNow R.Local env.now).formatCompactDay := rfl
  constructor
  · have hl : ∀ e, w.redis.get env.now (failedKey R env.now) = some e →
        ∃ items, e.value = .list items := by
      intro e he
      have hk := Redis.get_keys _ _ _ _ he
      rw [hkey] at hk
      exact (hinv _ e hk).1
    obtain ⟨ex, hg⟩ := pushAll_get R env (failedKey R env.now) events 0 w.redis
      (fun k hk => by simpa using hup k (Nat.le_of_lt hk)) hl hne
    have hg2 := Redis.exec_expire_get _ env.now (failedKey R env.now) (24 * 3600) _
      (by norm_num) hg
    have hupn : env.redisUp events.length = true := hup _ (Nat.le_refl _)
    have : (saveFailedBatch R env w events).redis.get env.now (failedKey R env.now) =
        some ⟨.list (w.redis.lrange env.now (failedKey R env.now) ++
          events.map (marshalOrEmpty R)), some (env.now + 24 * 3600)⟩ := by
      simp only [saveFailedBatch, hupn]
      exact hg2
    simp [Redis.ttl, this]
  · intro t ht
    unfold Redis.ttl at ht
    cases hg : w.redis.get env.now (failedKey R env.now) with
    | none => simp [hg] at ht
    | some e =>
      simp only [hg] at ht
      cases hd : e.expireAt with
      | none => simp [hd] at ht
      | some d =>
        simp only [hd] at ht
        injection ht with ht
        have hk := Redis.get_keys _ _ _ _ hg
        rw [hkey] at hk
        have := (hinv _ e hk).2 d hd
        rw [← ht]
        linarith

/-! ## Instances on sample values -/

theorem worker_delivers_each_envelope_once_witness :
    (∀ it ∈ sampleSchedule, it.wake.isStop = false) ∧
    (Worker.run sampleRuntime (Worker.start 1 World.init)
        (sampleSchedule ++ [Iter.stop (FlushEnv.healthy 30)])).exited = true ∧
    ∃ batches,
      flushes (Worker.run sampleRuntime (Worker.start 1 World.init)
          (sampleSchedule ++ [Iter.stop (FlushEnv.healthy 30)])).world.trace =
        flushes World.init.trace ++ batches ∧
      batches.flatten = sampleSchedule.filterMap (Iter.envelope sampleRuntime) :=
  ⟨by decide,
    worker_delivers_each_envelope_once sampleRuntime 1 World.init sampleSchedule
      (FlushEnv.healthy 30) (by decide)⟩

theorem size_flush_without_tick_witness :
    (List.replicate 250 (Iter.message (sampleMessage "a") 0 (FlushEnv.healthy 0))).length = 250 ∧
    (Worker.run sampleRuntime (Worker.start 1 World.init)
      (List.replicate 250 (Iter.message (sampleMessage "a") 0 (FlushEnv.healthy 0)))).batch.length
        = 50 :=
  ⟨List.length_replicate _ _,
    ((size_flush_without_tick sampleRuntime).2 1 World.init
      (List.replicate 250 (Iter.message (sampleMessage "a") 0 (FlushEnv.healthy 0)))
      (List.length_replicate _ _)
      (fun it h => by rw [List.eq_of_mem_replicate h]; rfl)).2.2.2.2.1⟩

theorem tick_flushes_nonempty_batch_witness :
    (sampleWorker 3).exited = false ∧ (sampleWorker 3).batch ≠ [] ∧
    flushes (Worker.step sampleRuntime (sampleWorker 3)
        ⟨⟨false, true⟩, .tick, FlushEnv.healthy 5⟩).world.trace =
      flushes (sampleWorker 3).world.trace ++ [(sampleWorker 3).batch] :=
  ⟨rfl, by decide,
    ((tick_flushes_nonempty_batch sampleRuntime (sampleWorker 3) ⟨false, true⟩
      (FlushEnv.healthy 5) rfl).1 (by decide)).2.1⟩

theorem stop_at_select_flushes_partial_batch_once_witness :
    (sampleWorker 37).exited = false ∧ (sampleWorker 37).batch.length = 37 ∧
    (∀ it ∈ sampleShutdown, it.ready.stop = true ∧ it.wake.enabled it.ready = true) ∧
    (∃ it ∈ sampleShutdown, it.wake = .stop) ∧
    (Worker.run sampleRuntime (sampleWorker 37) sampleShutdown).exited = true ∧
    ∃ pre, (Worker.run sampleRuntime (sampleWorker 37) sampleShutdown).world.trace =
        (sampleWorker 37).world.trace ++ pre ++ [Obs.workerStopped (sampleWorker 37).id] ∧
      (0 < 37 → 37 < batchSize → flushes pre = [(sampleWorker 37).batch]) ∧
      (37 = 0 → flushes pre = []) :=
  ⟨rfl, by decide, by decide, by decide,
    stop_at_select_flushes_partial_batch_once sampleRuntime (sampleWorker 37) sampleShutdown 37
      rfl (by decide) (by decide) (by decide)⟩

theorem failed_pass_keeps_batch_witness :
    (sampleWorker 3).exited = false ∧
    sampleRuntime.unmarshal (sampleMessage "").Value = none ∧
    (Worker.step sampleRuntime (sampleWorker 3)
        ⟨⟨false, false⟩, .poll (.message (sampleMessage "")) 9, FlushEnv.healthy 9⟩).batch =
      (sampleWorker 3).batch :=
  ⟨rfl, by decide,
    ((failed_pass_keeps_batch sampleRuntime (sampleWorker 3) ⟨false, false⟩
      (FlushEnv.healthy 9) 9 rfl).2.2 (sampleMessage "") (by decide)).1⟩

theorem processBatch_dispatch_witness :
    (InsertEventBatch (FlushEnv.sendFails 50).driver World.init.clickhouse
        [sampleEvent "a", sampleEvent "b"]).2 = some "connection reset" ∧
    (processBatch sampleRuntime (FlushEnv.sendFails 50) World.init
        [sampleEvent "a", sampleEvent "b"]).trace =
      World.init.trace ++
        [Obs.processBatch [sampleEvent "a", sampleEvent "b"],
         Obs.InsertEventBatch [sampleEvent "a", sampleEvent "b"],
         Obs.saveFailedBatch [sampleEvent "a", sampleEvent "b"]] :=
  ⟨by decide,
    (processBatch_dispatch sampleRuntime (FlushEnv.sendFails 50) World.init
      [sampleEvent "a", sampleEvent "b"]).2.1 "connection reset" (by decide)⟩

theorem InsertEventBatch_all_or_nothing_witness :
    (InsertEventBatch (FlushEnv.sendFails 50).driver ⟨[(sampleEvent "z").toRow], []⟩
        [sampleEvent "a", sampleEvent "b"]).2 = some "connection reset" ∧
    (InsertEventBatch (FlushEnv.sendFails 50).driver ⟨[(sampleEvent "z").toRow], []⟩
        [sampleEvent "a", sampleEvent "b"]).1.rows = [(sampleEvent "z").toRow] :=
  ⟨by decide,
    (InsertEventBatch_all_or_nothing (FlushEnv.sendFails 50).driver
      ⟨[(sampleEvent "z").toRow], []⟩ [sampleEvent "a", sampleEvent "b"]).1
      "connection reset" (by decide)⟩

theorem saveFailedBatch_appends_in_order_witness :
    (∀ i, i ≤ [sampleEvent "a", sampleEvent "b"].length →
      (FlushEnv.sendFails 1704146400).redisUp i = true) ∧
    (saveFailedBatch sampleRuntime (FlushEnv.sendFails 1704146400) World.init
        [sampleEvent "a", sampleEvent "b"]).redis.lrange 1704146400
          (failedKey sampleRuntime 1704146400) =
      World.init.redis.lrange 1704146400 (failedKey sampleRuntime 1704146400) ++
        [sampleEvent "a", sampleEvent "b"].map (marshalOrEmpty sampleRuntime) :=
  ⟨fun _ _ => rfl,
    ((saveFailedBatch_appends_in_order sampleRuntime (FlushEnv.sendFails 1704146400) World.init
      [sampleEvent "a", sampleEvent "b"]).2.2 (fun _ _ => rfl)
      (fun e h => by simp [World.init, Redis.empty, Redis.get] at h)).1⟩

theorem saveFailedBatch_refreshes_ttl_witness :
    Reachable sampleRuntime 1704146400
      (processBatch sampleRuntime (FlushEnv.sendFails 1704142800) World.init [sampleEvent "a"]) ∧
    (processBatch sampleRuntime (FlushEnv.sendFails 1704142800) World.init
      [sampleEvent "a"]).redis.ttl 1704146400 (failedKey sampleRuntime 1704146400) =
        some 82800 ∧
    (saveFailedBatch sampleRuntime (FlushEnv.sendFails 1704146400)
      (processBatch sampleRuntime (FlushEnv.sendFails 1704142800) World.init [sampleEvent "a"])
      [sampleEvent "b"]).redis.ttl 1704146400 (failedKey sampleRuntime 1704146400) =
        some (24 * 3600) :=
  ⟨Reachable.flush _ _ _ Reachable.init (by decide), by decide,
    (saveFailedBatch_refreshes_ttl sampleRuntime (FlushEnv.sendFails 1704146400)
      (processBatch sampleRuntime (FlushEnv.sendFails 1704142800) World.init [sampleEvent "a"])
      [sampleEvent "b"] (Reachable.flush _ _ _ Reachable.init (by decide)) (by decide)
      (fun _ _ => rfl)).1⟩

/-! ## Realtime aggregator -/

theorem Redis.get_exec_other (r : Redis) (up : Bool) (now t : Instant) (cmd : RedisCmd)
    (k : String) (h : k ≠ cmd.key) : (r.exec up now cmd).get t k = r.get t k := by
  unfold Redis.get
  rw [Redis.exec_keys_other r up now cmd k h]

theorem Redis.get_exec_down (r : Redis) (now t : Instant) (cmd : RedisCmd) (k : String) :
    (r.exec false now cmd).get t k = r.get t k := rfl

theorem hourKey_inj (a b : String) (h : "stats:hourly:" ++ a = "stats:hourly:" ++ b) :
    a = b := by
  have := congrArg String.data h
  simp at this
  exact String.ext this

theorem userKey_inj (a b : String) (h : "users:daily:" ++ a = "users:daily:" ++ b) :
    a = b := by
  have := congrArg String.data h
  simp at this
  exact String.ext this

theorem hourKey_ne_userKey (a b : String) : "stats:hourly:" ++ a ≠ "users:daily:" ++ b := by
  intro h
  have := congrArg String.data h
  simp at this

theorem Redis.exec_hincrby (r : Redis) (now : Instant) (key field : String) (incr : Int)
    (hh : r.HashOrAbsent now key) :
    (r.exec true now (.HIncrBy key field incr)).HashOrAbsent now key ∧
    ∀ f, (r.exec true now (.HIncrBy key field incr)).hget now key f =
      r.hget now key f + if f = field then incr else 0 := by
  cases hg : r.get now key with
  | none =>
    have hget : (r.exec true now (.HIncrBy key field incr)).get now key =
        some ⟨.hash (Function.update (fun _ => 0) field incr), none⟩ := by
      show (r.apply now (.HIncrBy key field incr)).get now key = _
      simp only [Redis.apply, hg]
      exact Redis.get_set_self r now key _ (by simp)
    refine ⟨fun e he => ?_, fun f => ?_⟩
    · rw [hget] at he; cases he; exact ⟨_, rfl⟩
    · simp only [Redis.hget, hget, hg]
      by_cases hf : f = field
      · subst hf; simp
      · simp [hf, Function.update_noteq hf]
  | some e =>
    obtain ⟨fields, hv⟩ := hh e hg
    obtain ⟨val, ex⟩ := e
    simp only at hv
    subst hv
    have hlive := Redis.get_live r now key _ hg
    have hget : (r.exec true now (.HIncrBy key field incr)).get now key =
        some ⟨.hash (Function.update fields field (fields field + incr)), ex⟩ := by
      show (r.apply now (.HIncrBy key field incr)).get now key = _
      simp only [Redis.apply, hg]
      exact Redis.get_set_self r now key _ (by simpa using hlive)
    refine ⟨fun e he => ?_, fun f => ?_⟩
    · rw [hget] at he; cases he; exact ⟨_, rfl⟩
    · simp only [Redis.hget, hget, hg]
      by_cases hf : f = field
      · subst hf; simp
      · simp [hf, Function.update_noteq hf]

theorem Redis.exec_expire_value (r : Redis) (up : Bool) (now : Instant) (key : String)
    (ttl : Int) (hpos : 0 < ttl) :
    (∀ e, (r.exec up now (.Expire key ttl)).get now key = some e →
      ∃ e0, r.get now key = some e0 ∧ e.value = e0.value) ∧
    (∀ e0, r.get now key = some e0 →
      ∃ e, (r.exec up now (.Expire key ttl)).get now key = some e ∧ e.value = e0.value) := by
  cases up with
  | false => exact ⟨fun e he => ⟨e, he, rfl⟩, fun e0 he0 => ⟨e0, he0, rfl⟩⟩
  | true =>
    cases hg : r.get now key with
    | none =>
      have : (r.exec true now (.Expire key ttl)).get now key = none := by
        show (r.apply now (.Expire key ttl)).get now key = _
        simp only [Redis.apply, hg]
      exact ⟨fun e he => (by rw [this] at he; cases he), fun e0 he0 => (by cases he0)⟩
    | some e0 =>
      have := Redis.exec_expire_get r now key ttl e0 hpos hg
      refine ⟨fun e he => ?_, fun e1 he1 => ?_⟩
      · rw [this] at he; cases he; exact ⟨e0, rfl, rfl⟩
      · cases he1; exact ⟨_, this, rfl⟩

theorem Redis.exec_expire_hget (r : Redis) (up : Bool) (now : Instant) (key : String)
    (ttl : Int) (hpos : 0 < ttl) (f : String) :
    (r.exec up now (.Expire key ttl)).hget now key f = r.hget now key f := by
  obtain ⟨h1, h2⟩ := Redis.exec_expire_value r up now key ttl hpos
  cases hg : r.get now key with
  | none =>
    cases hg2 : (r.exec up now (.Expire key ttl)).get now key with
    | none => simp [Redis.hget, hg, hg2]
    | some e => obtain ⟨e0, he0, _⟩ := h1 e hg2; rw [hg] at he0; cases he0
  | some e0 =>
    obtain ⟨e, he, hv⟩ := h2 e0 hg
    obtain ⟨v, ex⟩ := e
    obtain ⟨v0, ex0⟩ := e0
    simp only at hv
    subst hv
    simp only [Redis.hget, hg, he]
    cases v <;> rfl

theorem Redis.exec_expire_pfmembers (r : Redis) (up : Bool) (now : Instant) (key : String)
    (ttl : Int) (hpos : 0 < ttl) :
    (r.exec up now (.Expire key ttl)).pfmembers now key = r.pfmembers now key := by
  obtain ⟨h1, h2⟩ := Redis.exec_expire_value r up now key ttl hpos
  cases hg : r.get now key with
  | none =>
    cases hg2 : (r.exec up now (.Expire key ttl)).get now key with
    | none => simp [Redis.pfmembers, hg, hg2]
    | some e => obtain ⟨e0, he0, _⟩ := h1 e hg2; rw [hg] at he0; cases he0
  | some e0 =>
    obtain ⟨e, he, hv⟩ := h2 e0 hg
    obtain ⟨v, ex⟩ := e
    obtain ⟨v0, ex0⟩ := e0
    simp only at hv
    subst hv
    simp only [Redis.pfmembers, hg, he]
    cases v <;> rfl

theorem Redis.exec_expire_hashOrAbsent (r : Redis) (up : Bool) (now : Instant) (key : String)
    (ttl : Int) (hpos : 0 < ttl) (hh : r.HashOrAbsent now key) :
    (r.exec up now (.Expire key ttl)).HashOrAbsent now key := by
  intro e he
  obtain ⟨e0, he0, hv⟩ := (Redis.exec_expire_value r up now key ttl hpos).1 e he
  obtain ⟨fields, hf⟩ := hh e0 he0
  exact ⟨fields, hv.trans hf⟩

theorem Redis.exec_expire_hllOrAbsent (r : Redis) (up : Bool) (now : Instant) (key : String)
    (ttl : Int) (hpos : 0 < ttl) (hh : r.HllOrAbsent now key) :
    (r.exec up now (.Expire key ttl)).HllOrAbsent now key := by
  intro e he
  obtain ⟨e0, he0, hv⟩ := (Redis.exec_expire_value r up now key ttl hpos).1 e he
  obtain ⟨members, hf⟩ := hh e0 he0
  exact ⟨members, hv.trans hf⟩

theorem Redis.exec_pfadd (r : Redis) (now : Instant) (key element : String)
    (hh : r.HllOrAbsent now key) :
    (r.exec true now (.PFAdd key element)).HllOrAbsent now key ∧
    ∀ u, u ∈ (r.exec true now (.PFAdd key element)).pfmembers now key ↔
      u ∈ r.pfmembers now key ∨ u = element := by
  cases hg : r.get now key with
  | none =>
    have hget : (r.exec true now (.PFAdd key element)).get now key =
        some ⟨.hll [element], none⟩ := by
      show (r.apply now (.PFAdd key element)).get now key = _
      simp only [Redis.apply, hg]
      exact Redis.get_set_self r now key _ (by simp)
    refine ⟨fun e he => ?_, fun u => ?_⟩
    · rw [hget] at he; cases he; exact ⟨_, rfl⟩
    · simp [Redis.pfmembers, hget, hg]
  | some e =>
    obtain ⟨members, hv⟩ := hh e hg
    obtain ⟨val, ex⟩ := e
    simp only at hv
    subst hv
    have hlive := Redis.get_live r now key _ hg
    have hget : (r.exec true now (.PFAdd key element)).get now key =
        some ⟨.hll (if element ∈ members then members else members ++ [element]), ex⟩ := by
      show (r.apply now (.PFAdd key element)).get now key = _
      simp only [Redis.apply, hg]
      exact Redis.get_set_self r now key _ (by simpa using hlive)
    refine ⟨fun e he => ?_, fun u => ?_⟩
    · rw [hget] at he; cases he; exact ⟨_, rfl⟩
    · simp only [Redis.pfmembers, hget, hg]
      by_cases hm : element ∈ members
      · simp only [hm, if_true]
        constructor
        · exact Or.inl
        · rintro (h | h)
          · exact h
          · rw [h]; exact hm
      · simp [hm]

theorem Redis.hget_exec_other (r : Redis) (up : Bool) (now : Instant) (cmd : RedisCmd)
    (k f : String) (h : k ≠ cmd.key) : (r.exec up now cmd).hget now k f = r.hget now k f := by
  simp only [Redis.hget, Redis.get_exec_other r up now now cmd k h]

theorem Redis.pfmembers_exec_other (r : Redis) (up : Bool) (now : Instant) (cmd : RedisCmd)
    (k : String) (h : k ≠ cmd.key) :
    (r.exec up now cmd).pfmembers now k = r.pfmembers now k := by
  simp only [Redis.pfmembers, Redis.get_exec_other r up now now cmd k h]

theorem Redis.hashOrAbsent_exec_other (r : Redis) (up : Bool) (now : Instant) (cmd : RedisCmd)
    (k : String) (h : k ≠ cmd.key) (hh : r.HashOrAbsent now k) :
    (r.exec up now cmd).HashOrAbsent now k := by
  intro e he
  rw [Redis.get_exec_other r up now now cmd k h] at he
  exact hh e he

theorem Redis.hllOrAbsent_exec_other (r : Redis) (up : Bool) (now : Instant) (cmd : RedisCmd)
    (k : String) (h : k ≠ cmd.key) (hh : r.HllOrAbsent now k) :
    (r.exec up now cmd).HllOrAbsent now k := by
  intro e he
  rw [Redis.get_exec_other r up now now cmd k h] at he
  exact hh e he

theorem updateOne_hget (env : FlushEnv) (i : Nat) (e : Event) (r : Redis) (h : String)
    (hup : ∀ j, env.redisUp j = true) (hh : r.HashOrAbsent env.now ("stats:hourly:" ++ h)) :
    (updateOne env i e r).HashOrAbsent env.now ("stats:hourly:" ++ h) ∧
    ∀ t, (updateOne env i e r).hget env.now ("stats:hourly:" ++ h) t =
      r.hget env.now ("stats:hourly:" ++ h) t +
        if e.Timestamp.formatHour = h ∧ e.EventType = t then 1 else 0 := by
  have hu1 : ("stats:hourly:" ++ h) ≠
      (RedisCmd.PFAdd ("users:daily:" ++ e.Timestamp.formatDay) e.UserID).key :=
    hourKey_ne_userKey _ _
  have hu2 : ("stats:hourly:" ++ h) ≠
      (RedisCmd.Expire ("users:daily:" ++ e.Timestamp.formatDay) (7 * 24 * 3600)).key :=
    hourKey_ne_userKey _ _
  unfold updateOne
  simp only [hup]
  by_cases hk : e.Timestamp.formatHour = h
  · subst hk
    obtain ⟨h1, g1⟩ := Redis.exec_hincrby r env.now ("stats:hourly:" ++ e.Timestamp.formatHour)
      e.EventType 1 hh
    have h2 := Redis.exec_expire_hashOrAbsent _ true env.now _ (48 * 3600) (by norm_num) h1
    refine ⟨Redis.hashOrAbsent_exec_other _ _ _ _ _ hu2
      (Redis.hashOrAbsent_exec_other _ _ _ _ _ hu1 h2), fun t => ?_⟩
    rw [Redis.hget_exec_other _ _ _ _ _ _ hu2, Redis.hget_exec_other _ _ _ _ _ _ hu1,
      Redis.exec_expire_hget _ _ _ _ _ (by norm_num), g1 t]
    by_cases ht : t = e.EventType
    · subst ht; simp
    · have ht2 : ¬ e.EventType = t := fun hc => ht hc.symm
      simp [ht, ht2]
  · have hk1 : ("stats:hourly:" ++ h) ≠
        (RedisCmd.HIncrBy ("stats:hourly:" ++ e.Timestamp.formatHour) e.EventType 1).key :=
      fun hc => hk (hourKey_inj _ _ hc).symm
    have hk2 : ("stats:hourly:" ++ h) ≠
        (RedisCmd.Expire ("stats:hourly:" ++ e.Timestamp.formatHour) (48 * 3600)).key :=
      fun hc => hk (hourKey_inj _ _ hc).symm
    refine ⟨Redis.hashOrAbsent_exec_other _ _ _ _ _ hu2
      (Redis.hashOrAbsent_exec_other _ _ _ _ _ hu1
        (Redis.hashOrAbsent_exec_other _ _ _ _ _ hk2
          (Redis.hashOrAbsent_exec_other _ _ _ _ _ hk1 hh))), fun t => ?_⟩
    rw [Redis.hget_exec_other _ _ _ _ _ _ hu2, Redis.hget_exec_other _ _ _ _ _ _ hu1,
      Redis.hget_exec_other _ _ _ _ _ _ hk2, Redis.hget_exec_other _ _ _ _ _ _ hk1]
    simp [hk]

theorem updateAll_hget (env : FlushEnv) (h t : String) (hup : ∀ j, env.redisUp j = true)
    (events : List Event) :
    ∀ (i : Nat) (r : Redis), r.HashOrAbsent env.now ("stats:hourly:" ++ h) →
      (updateAll env i events r).hget env.now ("stats:hourly:" ++ h) t =
        r.hget env.now ("stats:hourly:" ++ h) t +
          (events.countP fun e => decide (e.Timestamp.formatHour = h ∧ e.EventType = t)) := by
  induction events with
  | nil => intro i r _; simp [updateAll]
  | cons e es ih =>
    intro i r hh
    obtain ⟨h1, g1⟩ := updateOne_hget env i e r h hup hh
    rw [updateAll, ih (i + 4) _ h1, g1 t, List.countP_cons]
    by_cases hc : e.Timestamp.formatHour = h ∧ e.EventType = t
    · simp [hc]; ring
    · simp [hc]

/-- C11. Applied to an empty aggregate store that executes the commands, `updateCache`
leaves, for every hour bucket and every event type, in the hash "stats:hourly:" followed by
the bucket, under the field of the type, the number of envelopes of the batch whose own
timestamp renders to that bucket and whose type is that type. -/
theorem updateCache_hourly_counts (env : FlushEnv) (w : World) (events : List Event)
    (h t : String) (hup : ∀ j, env.redisUp j = true)
    (hempty : ∀ key, w.redis.get env.now key = none) :
    (updateCache env w events).redis.hget env.now ("stats:hourly:" ++ h) t =
      (events.countP fun e => decide (e.Timestamp.formatHour = h ∧ e.EventType = t)) := by
  have hh : w.redis.HashOrAbsent env.now ("stats:hourly:" ++ h) := by
    intro e he; rw [hempty] at he; cases he
  have := updateAll_hget env h t hup events 0 w.redis hh
  have h0 : w.redis.hget env.now ("stats:hourly:" ++ h) t = 0 := by
    simp [Redis.hget, hempty]
  rw [h0, zero_add] at this
  exact this

theorem updateOne_pfmembers (env : FlushEnv) (i : Nat) (e : Event) (r : Redis) (d : String)
    (hup : ∀ j, env.redisUp j = true) (hh : r.HllOrAbsent env.now ("users:daily:" ++ d)) :
    (updateOne env i e r).HllOrAbsent env.now ("users:daily:" ++ d) ∧
    ∀ u, u ∈ (updateOne env i e r).pfmembers env.now ("users:daily:" ++ d) ↔
      u ∈ r.pfmembers env.now ("users:daily:" ++ d) ∨
        (e.Timestamp.formatDay = d ∧ e.UserID = u) := by
  have hu1 : ("users:daily:" ++ d) ≠
      (RedisCmd.HIncrBy ("stats:hourly:" ++ e.Timestamp.formatHour) e.EventType 1).key :=
    fun hc => hourKey_ne_userKey _ _ hc.symm
  have hu2 : ("users:daily:" ++ d) ≠
      (RedisCmd.Expire ("stats:hourly:" ++ e.Timestamp.formatHour) (48 * 3600)).key :=
    fun hc => hourKey_ne_userKey _ _ hc.symm
  have hh2 := Redis.hllOrAbsent_exec_other _ (env.redisUp (i + 1)) env.now _ _ hu2
    (Redis.hllOrAbsent_exec_other _ (env.redisUp i) env.now _ _ hu1 hh)
  have hm2 := (Redis.pfmembers_exec_other _ (env.redisUp (i + 1)) env.now _ _ hu2).trans
    (Redis.pfmembers_exec_other r (env.redisUp i) env.now _ _ hu1)
  unfold updateOne
  simp only [hup (i + 2), hup (i + 3)]
  by_cases hk : e.Timestamp.formatDay = d
  · subst hk
    obtain ⟨h3, g3⟩ := Redis.exec_pfadd _ env.now ("users:daily:" ++ e.Timestamp.formatDay)
      e.UserID hh2
    refine ⟨Redis.exec_expire_hllOrAbsent _ true env.now _ _ (by norm_num) h3, fun u => ?_⟩
    rw [Redis.exec_expire_pfmembers _ _ _ _ _ (by norm_num), g3 u, hm2]
    constructor
    · rintro (hx | hx)
      · exact Or.inl hx
      · exact Or.inr ⟨rfl, hx.symm⟩
    · rintro (hx | ⟨_, hx⟩)
      · exact Or.inl hx
      · exact Or.inr hx.symm
  · have hk1 : ("users:daily:" ++ d) ≠
        (RedisCmd.PFAdd ("users:daily:" ++ e.Timestamp.formatDay) e.UserID).key :=
      fun hc => hk (userKey_inj _ _ hc).symm
    have hk2 : ("users:daily:" ++ d) ≠
        (RedisCmd.Expire ("users:daily:" ++ e.Timestamp.formatDay) (7 * 24 * 3600)).key :=
      fun hc => hk (userKey_inj _ _ hc).symm
    refine ⟨Redis.hllOrAbsent_exec_other _ _ _ _ _ hk2
      (Redis.hllOrAbsent_exec_other _ _ _ _ _ hk1 hh2), fun u => ?_⟩
    rw [Redis.pfmembers_exec_other _ _ _ _ _ hk2, Redis.pfmembers_exec_other _ _ _ _ _ hk1, hm2]
    simp [hk]

theorem updateAll_pfmembers (env : FlushEnv) (d : String) (hup : ∀ j, env.redisUp j = true)
    (events : List Event) :
    ∀ (i : Nat) (r : Redis), r.HllOrAbsent env.now ("users:daily:" ++ d) →
      ∀ u, u ∈ (updateAll env i events r).pfmembers env.now ("users:daily:" ++ d) ↔
        u ∈ r.pfmembers env.now ("users:daily:" ++ d) ∨
          ∃ e ∈ events, e.Timestamp.formatDay = d ∧ e.UserID = u := by
  induction events with
  | nil => intro i r _ u; simp [updateAll]
  | cons e es ih =>
    intro i r hh u
    obtain ⟨h1, g1⟩ := updateOne_pfmembers env i e r d hup hh
    rw [updateAll, ih (i + 4) _ h1 u, g1 u]
    simp only [List.mem_cons, exists_eq_or_imp]
    tauto

theorem updateOne_issued (env : FlushEnv) (i : Nat) (e : Event) (r : Redis) :
    (updateOne env i e r).issued = r.issued ++ aggCmds e := by
  simp [updateOne, Redis.exec_issued, aggCmds, hourKey, userKey]

theorem updateAll_issued (env : FlushEnv) (events : List Event) :
    ∀ (i : Nat) (r : Redis),
      (updateAll env i events r).issued = r.issued ++ (events.map aggCmds).flatten := by
  induction events with
  | nil => intro i r; simp [updateAll]
  | cons e es ih =>
    intro i r
    rw [updateAll, ih, updateOne_issued]
    simp

theorem updateCache_issued (env : FlushEnv) (w : World) (events : List Event) :
    (updateCache env w events).redis.issued =
      w.redis.issued ++ (events.map aggCmds).flatten :=
  updateAll_issued env events 0 w.redis

theorem aggCmds_key (e : Event) (cmd : RedisCmd) (h : cmd ∈ aggCmds e) :
    cmd.key = hourKey e ∨ cmd.key = userKey e := by
  simp only [aggCmds, List.mem_cons, List.mem_singleton, List.not_mem_nil, or_false] at h
  rcases h with rfl | rfl | rfl | rfl <;> simp [RedisCmd.key]

theorem updateOne_keys_other (env : FlushEnv) (i : Nat) (e : Event) (r : Redis) (k : String)
    (h1 : k ≠ hourKey e) (h2 : k ≠ userKey e) : (updateOne env i e r).keys k = r.keys k := by
  unfold updateOne
  rw [Redis.exec_keys_other _ _ _ _ _ (by simpa [RedisCmd.key, userKey] using h2),
    Redis.exec_keys_other _ _ _ _ _ (by simpa [RedisCmd.key, userKey] using h2),
    Redis.exec_keys_other _ _ _ _ _ (by simpa [RedisCmd.key, hourKey] using h1),
    Redis.exec_keys_other _ _ _ _ _ (by simpa [RedisCmd.key, hourKey] using h1)]

theorem updateAll_keys_other (env : FlushEnv) (k : String) (events : List Event) :
    ∀ (i : Nat) (r : Redis), (∀ e ∈ events, k ≠ hourKey e ∧ k ≠ userKey e) →
      (updateAll env i events r).keys k = r.keys k := by
  induction events with
  | nil => intro i r _; rfl
  | cons e es ih =>
    intro i r h
    obtain ⟨h1, h2⟩ := h e (List.mem_cons_self _ _)
    rw [updateAll, ih (i + 4) _ (fun x hx => h x (List.mem_cons_of_mem _ hx)),
      updateOne_keys_other env i e r k h1 h2]

/-- C12. With the distinct-count structure kept as the set of its members: on a store that
executes the commands and holds a HyperLogLog or nothing under "users:daily:" followed by
the day, `updateCache` leaves there the members it had together with the user id of every
envelope of the batch whose own timestamp renders to that day, and nothing else. For a day
to which no envelope of the batch renders the key is left as it was and no command
addresses it. -/
theorem updateCache_daily_users (env : FlushEnv) (w : World) (events : List Event)
    (d : String) (hup : ∀ j, env.redisUp j = true)
    (hh : w.redis.HllOrAbsent env.now ("users:daily:" ++ d)) :
    (∀ u, u ∈ (updateCache env w events).redis.pfmembers env.now ("users:daily:" ++ d) ↔
      u ∈ w.redis.pfmembers env.now ("users:daily:" ++ d) ∨
        ∃ e ∈ events, e.Timestamp.formatDay = d ∧ e.UserID = u) ∧
    ((∀ e ∈ events, e.Timestamp.formatDay ≠ d) →
      (updateCache env w events).redis.keys ("users:daily:" ++ d) =
        w.redis.keys ("users:daily:" ++ d) ∧
      ∀ cmd ∈ (updateCache env w events).redis.issued.drop w.redis.issued.length,
        cmd.key ≠ "users:daily:" ++ d) := by
  refine ⟨updateAll_pfmembers env d hup events 0 w.redis hh, fun hno => ⟨?_, ?_⟩⟩
  · apply updateAll_keys_other
    intro e he
    exact ⟨fun hc => hourKey_ne_userKey _ _ hc.symm,
      fun hc => hno e he (userKey_inj _ _ hc).symm⟩
  · intro cmd hcmd
    rw [updateCache_issued, List.drop_left] at hcmd
    simp only [List.mem_flatten, List.mem_map] at hcmd
    obtain ⟨l, ⟨e, he, rfl⟩, hl⟩ := hcmd
    rcases aggCmds_key e cmd hl with hk | hk
    · rw [hk]; exact hourKey_ne_userKey _ _
    · rw [hk]; exact fun hc => hno e he (userKey_inj _ _ hc)

theorem Redis.exec_write_present (r : Redis) (now : Instant) (cmd : RedisCmd)
    (hw : ∀ key ttl, cmd ≠ .Expire key ttl) :
    ∃ e, (r.exec true now cmd).get now cmd.key = some e := by
  show ∃ e, (r.apply now cmd).get now cmd.key = some e
  cases cmd with
  | Expire key ttl => exact absurd rfl (hw key ttl)
  | RPush key value =>
    simp only [RedisCmd.key]
    cases hg : r.get now key with
    | none =>
      simp only [Redis.apply, hg]
      exact ⟨_, Redis.get_set_self r now key _ (by simp)⟩
    | some e =>
      have hlive := Redis.get_live r now key _ hg
      obtain ⟨val, ex⟩ := e
      cases val with
      | list items =>
        simp only [Redis.apply, hg]
        exact ⟨_, Redis.get_set_self r now key _ (by simpa using hlive)⟩
      | hash fields => simp only [Redis.apply, hg]; exact ⟨_, rfl⟩
      | hll members => simp only [Redis.apply, hg]; exact ⟨_, rfl⟩
  | HIncrBy key field incr =>
    simp only [RedisCmd.key]
    cases hg : r.get now key with
    | none =>
      simp only [Redis.apply, hg]
      exact ⟨_, Redis.get_set_self r now key _ (by simp)⟩
    | some e =>
      have hlive := Redis.get_live r now key _ hg
      obtain ⟨val, ex⟩ := e
      cases val with
      | hash fields =>
        simp only [Redis.apply, hg]
        exact ⟨_, Redis.get_set_self r now key _ (by simpa using hlive)⟩
      | list items => simp only [Redis.apply, hg]; exact ⟨_, rfl⟩
      | hll members => simp only [Redis.apply, hg]; exact ⟨_, rfl⟩
  | PFAdd key element =>
    simp only [RedisCmd.key]
    cases hg : r.get now key with
    | none =>
      simp only [Redis.apply, hg]
      exact ⟨_, Redis.get_set_self r now key _ (by simp)⟩
    | some e =>
      have hlive := Redis.get_live r now key _ hg
      obtain ⟨val, ex⟩ := e
      cases val with
      | hll members =>
        simp only [Redis.apply, hg]
        exact ⟨_, Redis.get_set_self r now key _ (by simpa using hlive)⟩
      | list items => simp only [Redis.apply, hg]; exact ⟨_, rfl⟩
      | hash fields => simp only [Redis.apply, hg]; exact ⟨_, rfl⟩

theorem Redis.exec_expire_hasDeadline (r : Redis) (now : Instant) (key : String) (ttl : Int)
    (hpos : 0 < ttl) (e : RedisEntry) (hg : r.get now key = some e) :
    (r.exec true now (.Expire key ttl)).HasDeadline now key (now + ttl) :=
  ⟨e.value, Redis.exec_expire_get r now key ttl e hpos hg⟩

theorem Redis.hasDeadline_exec (r : Redis) (up : Bool) (now : Instant) (cmd : RedisCmd)
    (k : String) (deadline : Instant) (hd : r.HasDeadline now k deadline)
    (hc : ∀ ttl, cmd = .Expire k ttl → now + ttl = deadline) :
    (r.exec up now cmd).HasDeadline now k deadline := by
  obtain ⟨value, hg⟩ := hd
  have hlive : now < deadline := Redis.get_live r now k _ hg deadline rfl
  have hset : ∀ v, (r.set k ⟨v, some deadline⟩).get now k = some ⟨v, some deadline⟩ :=
    fun v => Redis.get_set_self r now k _ (by intro d hd; injection hd with hd; rw [← hd]; exact hlive)
  cases up with
  | false => exact ⟨value, hg⟩
  | true =>
    by_cases hk : k = cmd.key
    · show ∃ v, (r.apply now cmd).get now k = some ⟨v, some deadline⟩
      cases cmd with
      | Expire key ttl =>
        simp only [RedisCmd.key] at hk
        subst hk
        have := hc ttl rfl
        simp only [Redis.apply, hg]
        rw [this]
        exact ⟨_, hset _⟩
      | RPush key v =>
        simp only [RedisCmd.key] at hk
        subst hk
        cases value with
        | list items => simp only [Redis.apply, hg]; exact ⟨_, hset _⟩
        | hash fields => simp only [Redis.apply, hg]; exact ⟨_, rfl⟩
        | hll members => simp only [Redis.apply, hg]; exact ⟨_, rfl⟩
      | HIncrBy key field incr =>
        simp only [RedisCmd.key] at hk
        subst hk
        cases value with
        | hash fields => simp only [Redis.apply, hg]; exact ⟨_, hset _⟩
        | list items => simp only [Redis.apply, hg]; exact ⟨_, rfl⟩
        | hll members => simp only [Redis.apply, hg]; exact ⟨_, rfl⟩
      | PFAdd key element =>
        simp only [RedisCmd.key] at hk
        subst hk
        cases value with
        | hll members => simp only [Redis.apply, hg]; exact ⟨_, hset _⟩
        | list items => simp only [Redis.apply, hg]; exact ⟨_, rfl⟩
        | hash fields => simp only [Redis.apply, hg]; exact ⟨_, rfl⟩
    · exact ⟨value, by rw [Redis.get_exec_other r true now now cmd k hk]; exact hg⟩

theorem Redis.ttl_of_hasDeadline (r : Redis) (now : Instant) (k : String) (ttl : Int)
    (h : r.HasDeadline now k (now + ttl)) : r.ttl now k = some ttl := by
  obtain ⟨v, hg⟩ := h
  simp [Redis.ttl, hg]

theorem updateOne_hour_deadline (env : FlushEnv) (i : Nat) (e : Event) (r : Redis) (h : String)
    (hup : ∀ j, env.redisUp j = true)
    (hd : e.Timestamp.formatHour = h ∨
      r.HasDeadline env.now ("stats:hourly:" ++ h) (env.now + 48 * 3600)) :
    (updateOne env i e r).HasDeadline env.now ("stats:hourly:" ++ h) (env.now + 48 * 3600) := by
  unfold updateOne
  simp only [hup]
  apply Redis.hasDeadline_exec _ _ _ _ _ _ _
    (fun ttl hc => by injection hc with hc _; exact absurd hc.symm (hourKey_ne_userKey _ _))
  apply Redis.hasDeadline_exec _ _ _ _ _ _ _ (fun ttl hc => by cases hc)
  rcases hd with hk | hd
  · subst hk
    obtain ⟨e0, he0⟩ := Redis.exec_write_present r env.now
      (.HIncrBy ("stats:hourly:" ++ e.Timestamp.formatHour) e.EventType 1)
      (fun key ttl hc => by cases hc)
    exact Redis.exec_expire_hasDeadline _ env.now _ _ (by norm_num) e0 he0
  · apply Redis.hasDeadline_exec _ _ _ _ _ _ _
      (fun ttl hc => by injection hc with _ hc; rw [← hc])
    exact Redis.hasDeadline_exec _ _ _ _ _ _ hd (fun ttl hc => by cases hc)

theorem updateOne_user_deadline (env : FlushEnv) (i : Nat) (e : Event) (r : Redis) (d : String)
    (hup : ∀ j, env.redisUp j = true)
    (hd : e.Timestamp.formatDay = d ∨
      r.HasDeadline env.now ("users:daily:" ++ d) (env.now + 7 * 24 * 3600)) :
    (updateOne env i e r).HasDeadline env.now ("users:daily:" ++ d)
      (env.now + 7 * 24 * 3600) := by
  unfold updateOne
  simp only [hup]
  rcases hd with hk | hd
  · subst hk
    obtain ⟨e0, he0⟩ := Redis.exec_write_present
      ((r.exec true env.now
        (.HIncrBy ("stats:hourly:" ++ e.Timestamp.formatHour) e.EventType 1)).exec true env.now
        (.Expire ("stats:hourly:" ++ e.Timestamp.formatHour) (48 * 3600))) env.now
      (.PFAdd ("users:daily:" ++ e.Timestamp.formatDay) e.UserID)
      (fun key ttl hc => by cases hc)
    exact Redis.exec_expire_hasDeadline _ env.now _ _ (by norm_num) e0 he0
  · apply Redis.hasDeadline_exec _ _ _ _ _ _ _
      (fun ttl hc => by injection hc with _ hc; rw [← hc])
    apply Redis.hasDeadline_exec _ _ _ _ _ _ _ (fun ttl hc => by cases hc)
    apply Redis.hasDeadline_exec _ _ _ _ _ _ _
      (fun ttl hc => by injection hc with hc _; exact absurd hc (hourKey_ne_userKey _ _))
    exact Redis.hasDeadline_exec _ _ _ _ _ _ hd (fun ttl hc => by cases hc)

theorem updateAll_hour_deadline (env : FlushEnv) (h : String)
    (hup : ∀ j, env.redisUp j = true) (events : List Event) :
    ∀ (i : Nat) (r : Redis),
      ((∃ e ∈ events, e.Timestamp.formatHour = h) ∨
        r.HasDeadline env.now ("stats:hourly:" ++ h) (env.now + 48 * 3600)) →
      (updateAll env i events r).HasDeadline env.now ("stats:hourly:" ++ h)
        (env.now + 48 * 3600) := by
  induction events with
  | nil =>
    intro i r hd
    rcases hd with ⟨e, he, _⟩ | hd
    · cases he
    · exact hd
  | cons x xs ih =>
    intro i r hd
    rw [updateAll]
    apply ih
    rcases hd with ⟨e, he, hk⟩ | hd
    · rcases List.mem_cons.mp he with rfl | he
      · exact Or.inr (updateOne_hour_deadline env i e r h hup (Or.inl hk))
      · exact Or.inl ⟨e, he, hk⟩
    · exact Or.inr (updateOne_hour_deadline env i x r h hup (Or.inr hd))

theorem updateAll_user_deadline (env : FlushEnv) (d : String)
    (hup : ∀ j, env.redisUp j = true) (events : List Event) :
    ∀ (i : Nat) (r : Redis),
      ((∃ e ∈ events, e.Timestamp.formatDay = d) ∨
        r.HasDeadline env.now ("users:daily:" ++ d) (env.now + 7 * 24 * 3600)) →
      (updateAll env i events r).HasDeadline env.now ("users:daily:" ++ d)
        (env.now + 7 * 24 * 3600) := by
  induction events with
  | nil =>
    intro i r hd
    rcases hd with ⟨e, he, _⟩ | hd
    · cases he
    · exact hd
  | cons x xs ih =>
    intro i r hd
    rw [updateAll]
    apply ih
    rcases hd with ⟨e, he, hk⟩ | hd
    · rcases List.mem_cons.mp he with rfl | he
      · exact Or.inr (updateOne_user_deadline env i e r d hup (Or.inl hk))
      · exact Or.inl ⟨e, he, hk⟩
    · exact Or.inr (updateOne_user_deadline env i x r d hup (Or.inr hd))

/-- C13. On a store that executes the commands, after `updateCache` the hourly key of every
envelope of the batch has a time to live of 48 hours and its daily key one of 7 days,
whatever the store held under those keys before and whatever deadlines they had. -/
theorem updateCache_sets_ttls (env : FlushEnv) (w : World) (events : List Event)
    (hup : ∀ j, env.redisUp j = true) :
    ∀ e ∈ events,
      (updateCache env w events).redis.ttl env.now (hourKey e) = some (48 * 3600) ∧
      (updateCache env w events).redis.ttl env.now (userKey e) = some (7 * 24 * 3600) := by
  intro e he
  exact ⟨Redis.ttl_of_hasDeadline _ _ _ _
      (updateAll_hour_deadline env _ hup events 0 w.redis (Or.inl ⟨e, he, rfl⟩)),
    Redis.ttl_of_hasDeadline _ _ _ _
      (updateAll_user_deadline env _ hup events 0 w.redis (Or.inl ⟨e, he, rfl⟩))⟩

theorem counter_IncrementBy_self (m : Metrics) (name : String) (value : Int) :
    (m.IncrementBy name value).counter name = m.counter name + value := by
  unfold Metrics.IncrementBy Metrics.counter
  cases h : m.customCounters name <;> simp [h]

/-- C14. Whatever commands fail to reach the aggregate store, `updateCache` issues for every
envelope of the batch, in order, the counter increment, its expiry, the distinct-count add
and its expiry, and returns no error. After a successful commit `processBatch` then adds the
length of the batch to `consumer.events.processed`, calls neither `saveFailedBatch` nor any
command of the retry sink, and the trace ends with the `updateCache` call. -/
theorem updateCache_best_effort (R : Runtime) (env : FlushEnv) (w : World)
    (events : List Event) :
    (updateCache env w events).redis.issued =
        w.redis.issued ++ (events.map aggCmds).flatten ∧
    ((InsertEventBatch env.driver w.clickhouse events).2 = none →
      (processBatch R env w events).redis.issued =
          w.redis.issued ++ (events.map aggCmds).flatten ∧
        (processBatch R env w events).metrics.counter "consumer.events.processed" =
          w.metrics.counter "consumer.events.processed" + events.length ∧
        (processBatch R env w events).trace =
          w.trace ++ [Obs.processBatch events, Obs.InsertEventBatch events,
            Obs.updateCache events] ∧
        ∀ b, Obs.saveFailedBatch b ∉ (processBatch R env w events).trace.drop w.trace.length) := by
  refine ⟨updateCache_issued env w events, fun hok => ?_⟩
  have ht := processBatch_trace_ok R env w events hok
  refine ⟨?_, ?_, ht, ?_⟩
  · have : (processBatch R env w events).redis = updateAll env 0 events w.redis := by
      simp [processBatch, callInsert, hok, updateCache]
    rw [this]
    exact updateAll_issued env events 0 w.redis
  · have : (processBatch R env w events).metrics =
        (w.metrics.Timing "consumer.batch.processing_time" env.elapsed).IncrementBy
          "consumer.events.processed" events.length := by
      simp [processBatch, callInsert, hok, updateCache]
    rw [this, counter_IncrementBy_self]
    rfl
  · intro b
    rw [ht, List.drop_left]
    simp

/-! ## Batch size bounds -/

theorem step_bounded (R : Runtime) (s : Worker) (it : Iter) (hb : s.batch.length < batchSize) :
    (Worker.step R s it).batch.length < batchSize ∧
    ∃ bs, flushes (Worker.step R s it).world.trace = flushes s.world.trace ++ bs ∧
      ∀ b ∈ bs, 1 ≤ b.length ∧ b.length ≤ batchSize := by
  cases hx : s.exited with
  | true =>
    rw [step_exited R s it hx]
    exact ⟨hb, [], by simp, by simp⟩
  | false =>
    obtain ⟨rd, wake, env⟩ := it
    cases wake with
    | stop =>
      obtain ⟨_, pre, ht, hp⟩ := stop_delivers R s rd env hx
      refine ⟨by rw [step_stop R s rd env hx]; exact hb,
        if s.batch = [] then [] else [s.batch], ?_, ?_⟩
      · rw [ht, flushes_append, flushes_append, hp]
        simp [flushes]
      · intro b hmem
        by_cases he : s.batch = []
        · simp [he] at hmem
        · simp only [he, if_false, List.mem_singleton] at hmem
          subst hmem
          exact ⟨List.length_pos.mpr he, Nat.le_of_lt hb⟩
    | tick =>
      by_cases he : s.batch = []
      · rw [step_tick_empty R s rd env hx he]
        exact ⟨hb, [], by simp, by simp⟩
      · rw [step_tick_nonempty R s rd env hx he]
        refine ⟨by simp [batchSize], [s.batch], processBatch_flushes R env s.world s.batch, ?_⟩
        intro b hmem
        simp only [List.mem_singleton] at hmem
        subst hmem
        exact ⟨List.length_pos.mpr he, Nat.le_of_lt hb⟩
    | poll read consumedAt =>
      cases read with
      | deadlineExceeded =>
        have : Worker.step R s ⟨rd, .poll .deadlineExceeded consumedAt, env⟩ = s := by
          simp [Worker.step, hx]
        rw [this]
        exact ⟨hb, [], by simp, by simp⟩
      | failed err =>
        have : Worker.step R s ⟨rd, .poll (.failed err) consumedAt, env⟩ = s := by
          simp [Worker.step, hx]
        rw [this]
        exact ⟨hb, [], by simp, by simp⟩
      | message msg =>
        cases hdec : R.unmarshal msg.Value with
        | none =>
          rw [step_message_none R s rd env msg consumedAt hx hdec]
          exact ⟨hb, [], by simp, by simp⟩
        | some event =>
          rw [step_message_some R s rd env msg consumedAt event hx hdec]
          split
          · refine ⟨by simp [batchSize], [s.batch ++ [attachKafka R msg consumedAt event]],
              processBatch_flushes R env _ _, ?_⟩
            intro b hmem
            simp only [List.mem_singleton] at hmem
            subst hmem
            simp only [List.length_append, List.length_cons, List.length_nil]
            omega
          · rename_i hlt
            exact ⟨Nat.lt_of_not_le hlt, [], by simp, by simp⟩

/-- C18. In every state a worker reaches from its start, over any schedule, the buffered
batch holds fewer than 100 envelopes, and every batch the worker has passed to
`processBatch` holds at least 1 and at most 100 envelopes. -/
theorem worker_batch_bounds (R : Runtime) (id : Nat) (w : World) (iters : List Iter) :
    (Worker.run R (Worker.start id w) iters).batch.length < 100 ∧
    ∃ bs, flushes (Worker.run R (Worker.start id w) iters).world.trace =
        flushes w.trace ++ bs ∧
      ∀ b ∈ bs, 1 ≤ b.length ∧ b.length ≤ 100 := by
  have key : ∀ (iters : List Iter) (s : Worker), s.batch.length < batchSize →
      (Worker.run R s iters).batch.length < batchSize ∧
      ∃ bs, flushes (Worker.run R s iters).world.trace = flushes s.world.trace ++ bs ∧
        ∀ b ∈ bs, 1 ≤ b.length ∧ b.length ≤ batchSize := by
    intro iters
    induction iters with
    | nil => intro s hb; exact ⟨hb, [], by simp [Worker.run], by simp⟩
    | cons it rest ih =>
      intro s hb
      obtain ⟨hb1, bs1, hf1, hl1⟩ := step_bounded R s it hb
      obtain ⟨hb2, bs2, hf2, hl2⟩ := ih (Worker.step R s it) hb1
      rw [run_cons]
      refine ⟨hb2, bs1 ++ bs2, by rw [hf2, hf1, List.append_assoc], ?_⟩
      intro b hmem
      rcases List.mem_append.mp hmem with h | h
      · exact hl1 b h
      · exact hl2 b h
  exact key iters (Worker.start id w) (by simp [Worker.start, batchSize])

/-! ## The select statement -/

/-- C16 (as the code has it). Of the branches Go's `select` may take in one pass: with the
stop channel closed it takes the stop branch or, when a tick is also waiting, possibly the
tick branch, and never polls the stream; with the stop channel open and a tick waiting it
takes the tick branch; it polls the stream only when neither is ready; and with only the
stop channel ready it takes the stop branch. -/
theorem select_branches (rd : Ready) (wake : Wake) (hen : wake.enabled rd = true) :
    (rd.stop = true → wake = .stop ∨ (wake = .tick ∧ rd.tick = true)) ∧
    (rd.stop = false → rd.tick = true → wake = .tick) ∧
    ((∃ read consumedAt, wake = .poll read consumedAt) → rd.stop = false ∧ rd.tick = false) ∧
    (rd.stop = true → rd.tick = false → wake = .stop) := by
  obtain ⟨st, tk⟩ := rd
  cases wake with
  | stop =>
    simp only [Wake.enabled] at hen
    subst hen
    simp
  | tick =>
    simp only [Wake.enabled] at hen
    subst hen
    simp
  | poll read consumedAt =>
    simp only [Wake.enabled, Bool.and_eq_true, Bool.not_eq_true'] at hen
    obtain ⟨h1, h2⟩ := hen
    subst h1
    subst h2
    simp

/-- C16, counterexample. With the stop channel closed and a tick waiting, `select` may take
the tick branch: the worker flushes and stays in its loop instead of taking the stop
transition. -/
theorem select_may_take_tick_over_stop :
    Wake.enabled ⟨true, true⟩ .tick = true ∧
    (Worker.step sampleRuntime (sampleWorker 3)
      ⟨⟨true, true⟩, .tick, FlushEnv.healthy 5⟩).exited = false ∧
    flushes (Worker.step sampleRuntime (sampleWorker 3)
      ⟨⟨true, true⟩, .tick, FlushEnv.healthy 5⟩).world.trace = [(sampleWorker 3).batch] := by
  decide

/-! ## Time-triggered flush -/

theorem silentPass_blocks (R : Runtime) (env : FlushEnv) (t : Timed)
    (hrun : t.worker.exited = false) (hno : t.tickPending = false) :
    (t.silentPass R env).clock = t.clock + readTimeout ∧
    (t.silentPass R env).worker = t.worker := by
  unfold Timed.silentPass
  simp only [hno]
  exact ⟨rfl, by simp [Worker.step, hrun]⟩

/-- C15, the code on a silent stream. A fresh worker reads one valid message right after
its ticker was created and the stream then delivers nothing. The next pass finds no tick
waiting and blocks in `ReadMessage` until the 5 s deadline: at 5000 ms the envelope is still
buffered and nothing has been flushed. Only the pass after that takes the tick and flushes,
5000 ms after the envelope arrived, not within 100 ms. -/
theorem silent_stream_delays_flush :
    ((Timed.start 1 World.init).messagePass sampleRuntime (FlushEnv.healthy 0)
        (sampleMessage "a")).worker.batch.length = 1 ∧
    (((Timed.start 1 World.init).messagePass sampleRuntime (FlushEnv.healthy 0)
        (sampleMessage "a")).silentPass sampleRuntime (FlushEnv.healthy 0)).clock = 5000 ∧
    flushes (((Timed.start 1 World.init).messagePass sampleRuntime (FlushEnv.healthy 0)
        (sampleMessage "a")).silentPass sampleRuntime
          (FlushEnv.healthy 0)).worker.world.trace = [] ∧
    (((Timed.start 1 World.init).messagePass sampleRuntime (FlushEnv.healthy 0)
        (sampleMessage "a")).silentPass sampleRuntime
          (FlushEnv.healthy 0)).worker.batch.length = 1 ∧
    (flushes ((((Timed.start 1 World.init).messagePass sampleRuntime (FlushEnv.healthy 0)
        (sampleMessage "a")).silentPass sampleRuntime (FlushEnv.healthy 0)).silentPass
          sampleRuntime (FlushEnv.healthy 5)).worker.world.trace).length = 1 ∧
    ((((Timed.start 1 World.init).messagePass sampleRuntime (FlushEnv.healthy 0)
        (sampleMessage "a")).silentPass sampleRuntime (FlushEnv.healthy 0)).silentPass
          sampleRuntime (FlushEnv.healthy 5)).clock = 5000 := by
  decide

/-! ## First use of a generic counter by two workers -/

theorem step_exits_only_on_stop (R : Runtime) (s : Worker) (it : Iter)
    (hrun : s.exited = false) (hex : (Worker.step R s it).exited = true) :
    it.wake = .stop := by
  cases hw : it.wake with
  | stop => rfl
  | tick =>
    have hns : it.wake.isStop = false := by rw [hw]; rfl
    have := (step_delivers R s it hrun hns).1
    rw [this] at hex
    cases hex
  | poll read consumedAt =>
    have hns : it.wake.isStop = false := by rw [hw]; rfl
    have := (step_delivers R s it hrun hns).1
    rw [this] at hex
    cases hex

/-- C17, the code with two workers. Both workers make their first call of
`Increment("consumer.events.received")` at the same time: each looks the name up and finds
it absent, the first registers the counter, and the second, registering the same name,
panics. Run one after the other the two calls return and the counter is 2. -/
theorem increment_race_panics :
    (IncRace.run "consumer.events.received" [true, false, true, false]).a = .returned ∧
    (IncRace.run "consumer.events.received" [true, false, true, false]).b = .panicked ∧
    (IncRace.run "consumer.events.received" [true, true, false, false]).a = .returned ∧
    (IncRace.run "consumer.events.received" [true, true, false, false]).b = .returned ∧
    (IncRace.run "consumer.events.received"
      [true, true, false, false]).shared.customCounters "consumer.events.received" = some 2 := by
  decide

/-! ## Producer -/

/-- C20. The message `SendEvent` builds for an event and the message `SendBatch` builds for
it both carry the event's user id as key. -/
theorem message_key_is_user_id (R : Runtime) (producedAt sentAt : Instant) (event : Event) :
    (∀ msg, SendEvent.message R producedAt sentAt event = .ok msg → msg.Key = event.UserID) ∧
    (∀ msg, SendBatch.message R event = some msg → msg.Key = event.UserID) ∧
    (∀ events msg, msg ∈ SendBatch.messages R events →
      ∃ e ∈ events, SendBatch.message R e = some msg ∧ msg.Key = e.UserID) := by
  refine ⟨?_, ?_, ?_⟩
  · intro msg h
    unfold SendEvent.message at h
    cases hm : R.marshal (stampProduced R producedAt event) with
    | none => simp [hm] at h
    | some data =>
      simp only [hm] at h
      injection h with h
      rw [← h]
  · intro msg h
    unfold SendBatch.message at h
    cases hm : R.marshal event with
    | none => simp [hm] at h
    | some data =>
      simp only [hm] at h
      injection h with h
      rw [← h]
  · intro events msg h
    simp only [SendBatch.messages, List.mem_filterMap] at h
    obtain ⟨e, he, hmsg⟩ := h
    refine ⟨e, he, hmsg, ?_⟩
    unfold SendBatch.message at hmsg
    cases hm : R.marshal e with
    | none => simp [hm] at hmsg
    | some data =>
      simp only [hm] at hmsg
      injection hmsg with hmsg
      rw [← hmsg]

/-- C19, the code on two partitions. A producer for a topic with two partitions sends two
events of the same user one after the other: the balancer `LeastBytes` puts the first on
partition 0 and the second on partition 1. -/
theorem same_user_different_partitions :
    (sampleEvent "a").UserID = (sampleEvent "b").UserID ∧
    ((SendEvent sampleRuntime 0 0 none
        (SendEvent sampleRuntime 0 0 none (NewEventProducer 2) (sampleEvent "a")).1
        (sampleEvent "b")).1.written.map fun m => (m.1.Key, m.2)) =
      [("u1", 0), ("u1", 1)] ∧
    ((SendBatch sampleRuntime none (NewEventProducer 2)
        [sampleEvent "a", sampleEvent "b"]).1.written.map fun m => (m.1.Key, m.2)) =
      [("u1", 0), ("u1", 1)] := by
  decide

/-! ## Further instances on sample values -/

theorem updateCache_hourly_counts_witness :
    (∀ j, (FlushEnv.healthy 1704110000).redisUp j = true) ∧
    (∀ key, World.init.redis.get (FlushEnv.healthy 1704110000).now key = none) ∧
    (updateCache (FlushEnv.healthy 1704110000) World.init sampleBatch).redis.hget
      1704110000 "stats:hourly:2024-01-01-10" "page_view" = 2 ∧
    (updateCache (FlushEnv.healthy 1704110000) World.init sampleBatch).redis.hget
      1704110000 "stats:hourly:2024-01-01-11" "purchase" = 1 :=
  ⟨fun _ => rfl, fun _ => rfl,
    (updateCache_hourly_counts (FlushEnv.healthy 1704110000) World.init sampleBatch
      "2024-01-01-10" "page_view" (fun _ => rfl) (fun _ => rfl)).trans (by decide),
    (updateCache_hourly_counts (FlushEnv.healthy 1704110000) World.init sampleBatch
      "2024-01-01-11" "purchase" (fun _ => rfl) (fun _ => rfl)).trans (by decide)⟩

theorem updateCache_daily_users_witness :
    (∀ j, (FlushEnv.healthy 1704110000).redisUp j = true) ∧
    World.init.redis.HllOrAbsent (FlushEnv.healthy 1704110000).now
      ("users:daily:" ++ "2024-01-01") ∧
    "u2" ∈ (updateCache (FlushEnv.healthy 1704110000) World.init sampleBatch).redis.pfmembers
      (FlushEnv.healthy 1704110000).now ("users:daily:" ++ "2024-01-01") :=
  ⟨fun _ => rfl, fun e he => (by cases he),
    ((updateCache_daily_users (FlushEnv.healthy 1704110000) World.init sampleBatch
      "2024-01-01" (fun _ => rfl) (fun e he => (by cases he))).1 "u2").mpr
      (Or.inr ⟨sampleAt "e2" 1704106200 "page_view" "u2", by decide, by decide, rfl⟩)⟩

theorem updateCache_sets_ttls_witness :
    (∀ j, (FlushEnv.healthy 1704110000).redisUp j = true) ∧
    sampleAt "e3" 1704106920 "purchase" "u1" ∈ sampleBatch ∧
    (updateCache (FlushEnv.healthy 1704110000) World.init sampleBatch).redis.ttl
        (FlushEnv.healthy 1704110000).now (hourKey (sampleAt "e3" 1704106920 "purchase" "u1")) =
      some (48 * 3600) ∧
    (updateCache (FlushEnv.healthy 1704110000) World.init sampleBatch).redis.ttl
        (FlushEnv.healthy 1704110000).now (userKey (sampleAt "e3" 1704106920 "purchase" "u1")) =
      some (7 * 24 * 3600) :=
  ⟨fun _ => rfl, by decide,
    updateCache_sets_ttls (FlushEnv.healthy 1704110000) World.init sampleBatch (fun _ => rfl)
      (sampleAt "e3" 1704106920 "purchase" "u1") (by decide)⟩

theorem updateCache_best_effort_witness :
    (InsertEventBatch (FlushEnv.redisDown 1704110000).driver World.init.clickhouse
      sampleBatch).2 = none ∧
    (processBatch sampleRuntime (FlushEnv.redisDown 1704110000) World.init
        sampleBatch).metrics.counter "consumer.events.processed" =
      World.init.metrics.counter "consumer.events.processed" + sampleBatch.length :=
  ⟨by decide,
    ((updateCache_best_effort sampleRuntime (FlushEnv.redisDown 1704110000) World.init
      sampleBatch).2 (by decide)).2.1⟩

theorem select_branches_witness :
    Wake.enabled ⟨true, true⟩ .tick = true ∧
    ((⟨true, true⟩ : Ready).stop = true →
      Wake.tick = .stop ∨ (Wake.tick = .tick ∧ (⟨true, true⟩ : Ready).tick = true)) :=
  ⟨rfl, (select_branches ⟨true, true⟩ .tick rfl).1⟩

theorem message_key_is_user_id_witness :
    SendBatch.message sampleRuntime (sampleEvent "a") =
      some ⟨"u1", "a", [⟨"event_type", "page_view"⟩], GoTime.zero⟩ ∧
    (⟨"u1", "a", [⟨"event_type", "page_view"⟩], GoTime.zero⟩ : KafkaMessage).Key =
      (sampleEvent "a").UserID :=
  ⟨by decide,
    (message_key_is_user_id sampleRuntime 0 0 (sampleEvent "a")).2.1 _ (by decide)⟩

/-! ## Publisher -/

theorem Writer.assign_written (msgs : List KafkaMessage) :
    ∀ wr : Writer, (wr.assign msgs).written.map Prod.fst = wr.written.map Prod.fst ++ msgs := by
  induction msgs with
  | nil => intro wr; simp [Writer.assign]
  | cons msg rest ih =>
    intro wr
    rw [Writer.assign, ih]
    simp

/-- C21, the code on the batch path. For an event with a project id, `SendEvent` builds a
message with the headers event_type and project_id, while `SendBatch` builds one with the
header event_type only. -/
theorem sendBatch_message_lacks_project_id :
    (sampleEvent "a").ProjectID = "p1" ∧
    (SendEvent.message sampleRuntime 0 0 (sampleEvent "a")).toOption.map
        (fun msg => msg.Headers) =
      some [⟨"event_type", "page_view"⟩, ⟨"project_id", "p1"⟩] ∧
    SendBatch.messages sampleRuntime [sampleEvent "a"] =
      [⟨"u1", "a", [⟨"event_type", "page_view"⟩], GoTime.zero⟩] ∧
    (∀ msg ∈ SendBatch.messages sampleRuntime [sampleEvent "a"],
      ∀ h ∈ msg.Headers, h.Key ≠ "project_id") := by
  decide

/-- C22, the code on the batch path. `SendEvent` leaves the instant of the call in
`ProducedAt`; `SendBatch` leaves the events as they were, with `ProducedAt` still the zero
time. -/
theorem sendBatch_leaves_produced_at_unset :
    (SendEvent.after sampleRuntime 1704146400 (sampleEvent "a")).KafkaMetadata.ProducedAt =
      timeNow sampleRuntime.Local 1704146400 ∧
    (SendBatch.after [sampleEvent "a", sampleEvent "b"]).map
        (fun e => e.KafkaMetadata.ProducedAt) = [GoTime.zero, GoTime.zero] ∧
    (SendBatch sampleRuntime none (NewEventProducer 2)
        [sampleEvent "a", sampleEvent "b"]).2 = none := by
  decide

theorem SendBatch.message_eq (R : Runtime) (e : Event) :
    SendBatch.message R e =
      (R.marshal e).map fun data =>
        { Key := e.UserID, Value := data, Headers := [⟨"event_type", e.EventType⟩],
          Time := GoTime.zero } := by
  unfold SendBatch.message
  cases R.marshal e <;> rfl

theorem SendBatch.messages_values (R : Runtime) (events : List Event) :
    (SendBatch.messages R events).map (fun m => m.Value) = events.filterMap R.marshal := by
  induction events with
  | nil => rfl
  | cons e es ih =>
    simp only [SendBatch.messages] at ih ⊢
    cases hd : R.marshal e with
    | none => simp [List.filterMap_cons, SendBatch.message, hd, ih]
    | some data => simp [List.filterMap_cons, SendBatch.message, hd, ih]

theorem SendBatch.messages_length (R : Runtime) (events : List Event) :
    (SendBatch.messages R events).length =
      events.countP (fun e => (R.marshal e).isSome) := by
  induction events with
  | nil => rfl
  | cons e es ih =>
    simp only [SendBatch.messages] at ih ⊢
    cases hd : R.marshal e with
    | none => simp [List.filterMap_cons, SendBatch.message, hd, ih]
    | some data => simp [List.filterMap_cons, SendBatch.message, hd, ih]

/-- C24. For every slice of events, what `SendBatch` passes to `WriteMessages` is, in the
order of the input, one message for each event on which `json.Marshal` succeeds, carrying
the bytes it returned, and nothing for an event on which it fails: the values handed over
are the successful serializations in input order and their number is the number of events
that serialize. The result is what the transport answers, never a serialization error: on
a refusal nothing is written, otherwise exactly those messages are. When every event
serializes there are as many messages as events. -/
theorem sendBatch_skips_unserializable (R : Runtime) (fault : Option Err) (wr : Writer)
    (events : List Event) :
    SendBatch R fault wr events =
      wr.WriteMessages fault
        (events.filterMap fun e =>
          (R.marshal e).map fun data =>
            { Key := e.UserID, Value := data, Headers := [⟨"event_type", e.EventType⟩],
              Time := GoTime.zero }) ∧
    (SendBatch R fault wr events).2 = fault ∧
    (SendBatch.messages R events).map (fun m => m.Value) = events.filterMap R.marshal ∧
    (SendBatch.messages R events).length =
      events.countP (fun e => (R.marshal e).isSome) ∧
    (fault = none →
      (SendBatch R fault wr events).1.written.map Prod.fst =
        wr.written.map Prod.fst ++
          events.filterMap fun e =>
            (R.marshal e).map fun data =>
              { Key := e.UserID, Value := data, Headers := [⟨"event_type", e.EventType⟩],
                Time := GoTime.zero }) ∧
    (fault ≠ none → (SendBatch R fault wr events).1 = wr) ∧
    ((∀ e ∈ events, (R.marshal e).isSome = true) →
      (SendBatch.messages R events).length = events.length) := by
  have hm : SendBatch.messages R events =
      events.filterMap fun e =>
        (R.marshal e).map fun data =>
          { Key := e.UserID, Value := data, Headers := [⟨"event_type", e.EventType⟩],
            Time := GoTime.zero } := by
    unfold SendBatch.messages
    congr 1
    funext e
    exact SendBatch.message_eq R e
  refine ⟨?_, ?_, SendBatch.messages_values R events, SendBatch.messages_length R events,
    ?_, ?_, ?_⟩
  · rw [← hm]
    rfl
  · cases fault <;> rfl
  · intro hf
    subst hf
    rw [← hm]
    exact Writer.assign_written _ wr
  · intro hf
    cases fault with
    | none => exact absurd rfl hf
    | some err => rfl
  · intro hall
    rw [SendBatch.messages_length]
    exact List.countP_eq_length.mpr (fun e he => by simpa using hall e he)

/-! ## JSON round trip -/

theorem coerceUTF8.go_of_valid (s : GoString) :
    ∀ keep, validUTF8.go keep s = true → coerceUTF8.go keep s = s := by
  induction s with
  | nil => intro keep _; cases keep <;> rfl
  | cons b rest ih =>
    intro keep h
    cases keep with
    | succ k =>
      simp only [validUTF8.go] at h
      simp only [coerceUTF8.go, ih k h]
    | zero =>
      simp only [validUTF8.go] at h
      simp only [coerceUTF8.go]
      cases hw : runeWidth (b :: rest) with
      | zero => simp [hw] at h
      | succ w =>
        simp only [hw] at h
        simp only [ih w h]

theorem coerceUTF8_of_valid (s : GoString) (h : validUTF8 s = true) : coerceUTF8 s = s :=
  coerceUTF8.go_of_valid s 0 h

/-- Valid encodings of one to four bytes are kept; an overlong form, a surrogate and a
truncated encoding are replaced byte by byte; the encoding of U+FFFD itself is kept. -/
theorem coerceUTF8_samples :
    coerceUTF8 [0x41, 0xC3, 0xA9, 0xE2, 0x82, 0xAC, 0xF0, 0x9F, 0x98, 0x80] =
      [0x41, 0xC3, 0xA9, 0xE2, 0x82, 0xAC, 0xF0, 0x9F, 0x98, 0x80] ∧
    coerceUTF8 [0xC0, 0x80] = [0xEF, 0xBF, 0xBD, 0xEF, 0xBF, 0xBD] ∧
    coerceUTF8 [0xED, 0xA0, 0x80] =
      [0xEF, 0xBF, 0xBD, 0xEF, 0xBF, 0xBD, 0xEF, 0xBF, 0xBD] ∧
    coerceUTF8 [0xE2, 0x82] = [0xEF, 0xBF, 0xBD, 0xEF, 0xBF, 0xBD] ∧
    coerceUTF8 [0xEF, 0xBF, 0xBD] = [0xEF, 0xBF, 0xBD] := by
  decide

theorem GoTime.viaJson_of_whole_minutes (t : GoTime) (h : t.offset % 60 = 0) :
    t.viaJson = t := by
  obtain ⟨unix, offset⟩ := t
  simp only at h
  have h2 : offset.tdiv 60 * 60 = offset := by
    have := Int.tdiv_mul_cancel (a := offset) (b := 60) (Int.dvd_of_emod_eq_zero h)
    exact this
  simp only [GoTime.viaJson, GoTime.wall, h2]
  congr 1
  exact add_sub_cancel_right unix offset

theorem GoTime.viaJson_unix (t : GoTime) : t.viaJson.unix = t.unix + t.offset.tmod 60 := by
  have := Int.tmod_add_tdiv t.offset 60
  simp only [GoTime.viaJson, GoTime.wall]
  show t.unix + t.offset - t.offset.tdiv 60 * 60 = t.unix + t.offset.tmod 60
  linarith

/-- C23 (as the code has it). For every event that `json.Marshal` accepts, reading the
value of the message `SendEvent` builds gives an event whose id, project id, user id, event
type, page URL, user agent and IP address are those of the event with each byte that starts
no valid UTF-8 encoding replaced by U+FFFD, so the same strings when they are valid UTF-8;
whose timestamp is the wall clock of the event's timestamp under its zone offset cut to
whole minutes, so the same time when the offset is a whole number of minutes; and whose
delivery metadata is zero: the value has no member for any delivery metadata field. -/
theorem sendEvent_value_round_trip (loc : Location) (producedAt sentAt : Instant)
    (event : RawEvent) (msg : RawMessage)
    (hmsg : SendEvent.rawMessage loc producedAt sentAt event = .ok msg) :
    ∃ received, RawEvent.unmarshal msg.Value = some received ∧
      (received.ID = coerceUTF8 event.ID ∧ received.ProjectID = coerceUTF8 event.ProjectID ∧
        received.UserID = coerceUTF8 event.UserID ∧
        received.EventType = coerceUTF8 event.EventType ∧
        received.PageURL = coerceUTF8 event.PageURL ∧
        received.UserAgent = coerceUTF8 event.UserAgent ∧
        received.IPAddress = coerceUTF8 event.IPAddress) ∧
      (validUTF8 event.ID = true → received.ID = event.ID) ∧
      (validUTF8 event.ProjectID = true → received.ProjectID = event.ProjectID) ∧
      (validUTF8 event.UserID = true → received.UserID = event.UserID) ∧
      (validUTF8 event.EventType = true → received.EventType = event.EventType) ∧
      (validUTF8 event.PageURL = true → received.PageURL = event.PageURL) ∧
      (validUTF8 event.UserAgent = true → received.UserAgent = event.UserAgent) ∧
      (validUTF8 event.IPAddress = true → received.IPAddress = event.IPAddress) ∧
      received.Timestamp = event.Timestamp.viaJson ∧
      received.Timestamp.unix = event.Timestamp.unix + event.Timestamp.offset.tmod 60 ∧
      (event.Timestamp.offset % 60 = 0 → received.Timestamp = event.Timestamp) ∧
      received.KafkaMetadata = KafkaMetadata.zero ∧
      (∀ key ∈ ["topic", "partition", "offset", "produced_at", "consumed_at"],
        key ∉ msg.Value.map Prod.fst) := by
  unfold SendEvent.rawMessage at hmsg
  simp only [RawEvent.marshal] at hmsg
  cases hmeta : event.Metadata with
  | none => simp [hmeta] at hmsg
  | some metadata =>
    by_cases hw : event.Timestamp.jsonWritable = true
    · simp only [hmeta, hw, if_true] at hmsg
      injection hmsg with hmsg
      subst hmsg
      refine ⟨_, by simp [RawEvent.unmarshal, RawEvent.ofJson, RawEvent.setJson]; rfl,
        ⟨rfl, rfl, rfl, rfl, rfl, rfl, rfl⟩, ?_, ?_, ?_, ?_, ?_, ?_, ?_, rfl, ?_, ?_, rfl, ?_⟩
      · exact fun h => coerceUTF8_of_valid _ h
      · exact fun h => coerceUTF8_of_valid _ h
      · exact fun h => coerceUTF8_of_valid _ h
      · exact fun h => coerceUTF8_of_valid _ h
      · exact fun h => coerceUTF8_of_valid _ h
      · exact fun h => coerceUTF8_of_valid _ h
      · exact fun h => coerceUTF8_of_valid _ h
      · exact GoTime.viaJson_unix _
      · exact fun h => GoTime.viaJson_of_whole_minutes _ h
      · simp
    · simp [hmeta, hw] at hmsg

/-- C23, counterexample. An event that `json.Marshal` accepts and whose user agent is the single
byte 0xFF, as a request header may carry it, is read back with the user agent U+FFFD; an
event whose timestamp has a zone offset of 30 seconds is read back 30 seconds later. -/
theorem invalid_user_agent_not_restored :
    validUTF8 [0xFF] = false ∧
    (∃ msg, SendEvent.rawMessage utc 5 6 (sampleRawEvent [0xFF]) = .ok msg ∧
      ∃ received, RawEvent.unmarshal msg.Value = some received ∧
        received.UserAgent = [0xEF, 0xBF, 0xBD] ∧
        received.UserAgent ≠ (sampleRawEvent [0xFF]).UserAgent) ∧
    (∃ msg, SendEvent.rawMessage utc 5 6
        { sampleRawEvent [] with Timestamp := ⟨1704146400, 30⟩ } = .ok msg ∧
      ∃ received, RawEvent.unmarshal msg.Value = some received ∧
        received.Timestamp.unix = 1704146430 ∧
        received.Timestamp.unix ≠ 1704146400) := by
  refine ⟨by decide, ⟨_, rfl, _, rfl, by decide, by decide⟩,
    ⟨_, rfl, _, rfl, by decide, by decide⟩⟩

theorem sendEvent_value_round_trip_witness :
    ∃ msg, SendEvent.rawMessage utc 5 6 (sampleRawEvent [0x4D, 0xC3, 0xA9]) = .ok msg ∧
      validUTF8 (sampleRawEvent [0x4D, 0xC3, 0xA9]).UserAgent = true ∧
      ∃ received, RawEvent.unmarshal msg.Value = some received ∧
        received.UserAgent = [0x4D, 0xC3, 0xA9] ∧
        received.Timestamp = ⟨1704146400, 0⟩ ∧
        received.KafkaMetadata = KafkaMetadata.zero := by
  refine ⟨_, rfl, by decide, ?_⟩
  obtain ⟨received, h, _, _, _, _, _, _, hua, _, _, _, hts, hk, _⟩ :=
    sendEvent_value_round_trip utc 5 6 (sampleRawEvent [0x4D, 0xC3, 0xA9]) _ rfl
  exact ⟨received, h, hua (by decide), hts (by decide), hk⟩

/-! ## Event service -/

theorem ProcessEvent_event (R : Runtime) (env : ProcessEnv) (wr : Writer) (event : Event) :
    (ProcessEvent R env wr event).event =
      stampProduced R env.producedAt (enrich R env event) ∧
    (ProcessEvent R env wr event).handed = enrich R env event := by
  unfold ProcessEvent
  simp only
  rcases h : SendEvent R env.producedAt env.sentAt env.fault wr (enrich R env event) with
    ⟨wr1, _ | err⟩ <;> exact ⟨rfl, rfl⟩

theorem enrich_fields (R : Runtime) (env : ProcessEnv) (event : Event) :
    (enrich R env event).ID = (if event.ID = "" then env.uuid else event.ID) ∧
    (enrich R env event).EventType =
      (if event.EventType = "" then PageView else event.EventType) ∧
    (enrich R env event).Timestamp =
      (if event.Timestamp.IsZero then timeNow R.Local env.now else event.Timestamp) ∧
    (enrich R env event).ProjectID = event.ProjectID ∧
    (enrich R env event).UserID = event.UserID ∧
    (enrich R env event).PageURL = event.PageURL ∧
    (enrich R env event).Metadata = event.Metadata ∧
    (enrich R env event).UserAgent = event.UserAgent ∧
    (enrich R env event).IPAddress = event.IPAddress := by
  unfold enrich
  by_cases h1 : event.ID = "" <;> by_cases h2 : event.Timestamp.IsZero = true <;>
    by_cases h3 : event.EventType = "" <;> simp [h1, h2, h3]

/-- C25. After `ProcessEvent` returns, with or without error, and the generated uuid text
being non-empty: the id is non-empty and is the input id when that was non-empty; the event
type is the input type when that was non-empty and page_view otherwise; the timestamp is the
input timestamp when that was set and the instant read by `time.Now()` otherwise; project
id, user id, page url, metadata, user agent and ip address are unchanged. -/
theorem processEvent_defaults (R : Runtime) (env : ProcessEnv) (wr : Writer) (event : Event)
    (huuid : env.uuid ≠ "") :
    (ProcessEvent R env wr event).event.ID ≠ "" ∧
    (event.ID ≠ "" → (ProcessEvent R env wr event).event.ID = event.ID) ∧
    (event.EventType ≠ "" → (ProcessEvent R env wr event).event.EventType = event.EventType) ∧
    (event.EventType = "" → (ProcessEvent R env wr event).event.EventType = PageView) ∧
    (event.Timestamp.IsZero = false →
      (ProcessEvent R env wr event).event.Timestamp = event.Timestamp) ∧
    (event.Timestamp.IsZero = true →
      (ProcessEvent R env wr event).event.Timestamp = timeNow R.Local env.now) ∧
    (ProcessEvent R env wr event).event.ProjectID = event.ProjectID ∧
    (ProcessEvent R env wr event).event.UserID = event.UserID ∧
    (ProcessEvent R env wr event).event.PageURL = event.PageURL ∧
    (ProcessEvent R env wr event).event.Metadata = event.Metadata ∧
    (ProcessEvent R env wr event).event.UserAgent = event.UserAgent ∧
    (ProcessEvent R env wr event).event.IPAddress = event.IPAddress := by
  obtain ⟨hid, hty, hts, h4, h5, h6, h7, h8, h9⟩ := enrich_fields R env event
  rw [(ProcessEvent_event R env wr event).1]
  refine ⟨?_, ?_, ?_, ?_, ?_, ?_, h4, h5, h6, h7, h8, h9⟩
  · show (enrich R env event).ID ≠ ""
    rw [hid]
    by_cases h : event.ID = ""
    · simp [h, huuid]
    · simp [h]
  · intro h
    show (enrich R env event).ID = _
    rw [hid]; simp [h]
  · intro h
    show (enrich R env event).EventType = _
    rw [hty]; simp [h]
  · intro h
    show (enrich R env event).EventType = _
    rw [hty]; simp [h]
  · intro h
    show (enrich R env event).Timestamp = _
    rw [hts]; simp [h]
  · intro h
    show (enrich R env event).Timestamp = _
    rw [hts]; simp [h]

/-- C26 (as the code has it). For every input, the event `ProcessEvent` hands to the producer
has the event type of the input when that is non-empty and page_view when it is empty; so it
is one of the five declared values exactly when the input's type is empty or one of the
five. -/
theorem processEvent_handed_type (R : Runtime) (env : ProcessEnv) (wr : Writer)
    (event : Event) :
    (ProcessEvent R env wr event).handed.EventType =
      (if event.EventType = "" then PageView else event.EventType) ∧
    ((ProcessEvent R env wr event).handed.EventType ∈ eventTypes ↔
      (event.EventType = "" ∨ event.EventType ∈ eventTypes)) := by
  rw [(ProcessEvent_event R env wr event).2, (enrich_fields R env event).2.1]
  refine ⟨rfl, ?_⟩
  by_cases h0 : event.EventType = ""
  · simp [h0, eventTypes]
  · simp [h0]

/-- C26, counterexample. An input with the event type "scroll" is handed to the producer
with that type, which is none of the five declared values. -/
theorem processEvent_passes_unknown_type :
    (ProcessEvent sampleRuntime ⟨"id-1", 0, 0, 0, none⟩ (NewEventProducer 1)
      { sampleEvent "a" with EventType := "scroll" }).handed.EventType = "scroll" ∧
    "scroll" ∉ eventTypes ∧
    (ProcessEvent sampleRuntime ⟨"id-1", 0, 0, 0, none⟩ (NewEventProducer 1)
      { sampleEvent "a" with EventType := "scroll" }).writer.written.map
        (fun m => m.1.Headers) = [[⟨"event_type", "scroll"⟩, ⟨"project_id", "p1"⟩]] := by
  decide

/-! ## Statistics -/

theorem wrapInt64_of_range (n : Int) (h0 : 0 ≤ n) (h1 : n < 2 ^ 63) : wrapInt64 n = n := by
  unfold wrapInt64
  rw [Int.emod_eq_of_lt (by omega) (by omega)]
  omega

theorem sumCounts_no_overflow (stats : List EventStats) (hpos : ∀ s ∈ stats, 0 ≤ s.Count)
    (hsum : (stats.map EventStats.Count).sum < 2 ^ 63) :
    sumCounts stats = (stats.map EventStats.Count).sum := by
  have key : ∀ (l : List EventStats) (acc : Int), (∀ s ∈ l, 0 ≤ s.Count) → 0 ≤ acc →
      acc + (l.map EventStats.Count).sum < 2 ^ 63 →
      l.foldl (fun total stat => wrapInt64 (total + stat.Count)) acc =
        acc + (l.map EventStats.Count).sum := by
    intro l
    induction l with
    | nil => intro acc _ _ _; simp
    | cons x xs ih =>
      intro acc hp ha hs
      have hx : 0 ≤ x.Count := hp x (List.mem_cons_self _ _)
      have hxs : ∀ s ∈ xs, 0 ≤ s.Count := fun s hs' => hp s (List.mem_cons_of_mem _ hs')
      have hnn : 0 ≤ (xs.map EventStats.Count).sum :=
        List.sum_nonneg (by
          intro c hc
          obtain ⟨s, hs', rfl⟩ := List.mem_map.mp hc
          exact hxs s hs')
      simp only [List.map_cons, List.sum_cons] at hs
      have hw : wrapInt64 (acc + x.Count) = acc + x.Count :=
        wrapInt64_of_range _ (by omega) (by omega)
      simp only [List.foldl_cons, List.map_cons, List.sum_cons, hw]
      rw [ih (acc + x.Count) hxs (by omega) (by omega)]
      omega
  have := key stats 0 hpos (le_refl 0) (by simpa using hsum)
  simpa [sumCounts] using this

/-- C28. `GetStatistics` answers 400 with an error body and makes no call to the stats
service when one of event_type, start_date, end_date is missing from the query or empty;
when all three are present and non-empty it calls the stats service exactly once, with the
request bound from the query. -/
theorem getStatistics_validates (svc : StatsRequest → Except Err (List EventStats))
    (q : Query) :
    ((q.get "event_type" = "" ∨ q.get "start_date" = "" ∨ q.get "end_date" = "") →
      (GetStatistics svc q).status = 400 ∧
      (∃ message, (GetStatistics svc q).body = .error message) ∧
      (GetStatistics svc q).calls = []) ∧
    ((q.get "event_type" ≠ "" ∧ q.get "start_date" ≠ "" ∧ q.get "end_date" ≠ "") →
      (GetStatistics svc q).calls = [bindStatsRequest q]) := by
  constructor
  · intro h
    have : (bindStatsRequest q).EventType = "" ∨ (bindStatsRequest q).StartDate = "" ∨
        (bindStatsRequest q).EndDate = "" := h
    simp [GetStatistics, this]
  · intro h
    have : ¬ ((bindStatsRequest q).EventType = "" ∨ (bindStatsRequest q).StartDate = "" ∨
        (bindStatsRequest q).EndDate = "") := by
      rintro (h1 | h1 | h1)
      · exact h.1 h1
      · exact h.2.1 h1
      · exact h.2.2 h1
    simp only [GetStatistics, this, if_false]
    cases svc (bindStatsRequest q) <;> rfl

theorem roundHalfEven_near (x : ℚ) : |(roundHalfEven x : ℚ) - x| ≤ 1 / 2 := by
  have h0 := Int.fract_nonneg x
  have h1 := Int.fract_lt_one x
  have hx : x = ⌊x⌋ + Int.fract x := (Int.floor_add_fract x).symm
  unfold roundHalfEven
  rw [abs_le]
  split_ifs with ha hb hc
  · constructor <;> linarith
  · push_cast; constructor <;> linarith
  · have : Int.fract x = 1 / 2 := le_antisymm (not_lt.mp hb) (not_lt.mp ha)
    constructor <;> linarith
  · have : Int.fract x = 1 / 2 := le_antisymm (not_lt.mp hb) (not_lt.mp ha)
    push_cast; constructor <;> linarith

theorem roundHalfEven_of_near (x : ℚ) (m : ℤ) (h : |x - m| < 1 / 2) : roundHalfEven x = m := by
  have hn := roundHalfEven_near x
  rw [abs_lt] at h
  rw [abs_le] at hn
  have h1 : ((roundHalfEven x - m : ℤ) : ℚ) < 1 := by push_cast; linarith [h.1, h.2, hn.1, hn.2]
  have h2 : (-1 : ℚ) < ((roundHalfEven x - m : ℤ) : ℚ) := by
    push_cast; linarith [h.1, h.2, hn.1, hn.2]
  have h3 : roundHalfEven x - m < 1 := by exact_mod_cast h1
  have h4 : -1 < roundHalfEven x - m := by exact_mod_cast h2
  omega

theorem roundPos_err (a : ℚ) (ha : 0 < a) :
    |(roundHalfEven (a / 2 ^ (Int.log 2 a - 52)) : ℚ) * 2 ^ (Int.log 2 a - 52) - a| ≤
      a / 2 ^ 53 := by
  have hlog : (2 : ℚ) ^ (Int.log 2 a) ≤ a := by
    have := Int.zpow_log_le_self (b := 2) (r := a) (by norm_num) ha
    simpa using this
  generalize Int.log 2 a = e at hlog ⊢
  have hulp : (0 : ℚ) < 2 ^ (e - 52) := by positivity
  have hn := roundHalfEven_near (a / 2 ^ (e - 52))
  generalize roundHalfEven (a / 2 ^ (e - 52)) = m at hn ⊢
  have : (m : ℚ) * 2 ^ (e - 52) - a = ((m : ℚ) - a / 2 ^ (e - 52)) * 2 ^ (e - 52) := by
    field_simp
  rw [this, abs_mul, abs_of_pos hulp]
  have hpow : (2 : ℚ) ^ (e - 52) = 2 ^ e / 2 ^ 52 := by
    rw [zpow_sub₀ (by norm_num : (2 : ℚ) ≠ 0)]
    norm_num
  calc |(m : ℚ) - a / 2 ^ (e - 52)| * 2 ^ (e - 52) ≤ 1 / 2 * 2 ^ (e - 52) :=
        mul_le_mul_of_nonneg_right hn hulp.le
    _ = 2 ^ e / 2 ^ 53 := by rw [hpow]; ring
    _ ≤ a / 2 ^ 53 := div_le_div_of_nonneg_right hlog (by positivity)

theorem float64Round_err (q : ℚ) : |float64Round q - q| ≤ |q| / 2 ^ 53 := by
  by_cases hq : q = 0
  · simp [float64Round, hq]
  · unfold float64Round
    rw [if_neg hq]
    by_cases hneg : q < 0
    · have h := roundPos_err (-q) (by linarith)
      rw [if_pos hneg, abs_of_neg hneg]
      rw [← abs_neg] at h
      convert h using 2
      ring
    · have hpos : 0 < q := lt_of_le_of_ne (not_lt.mp hneg) (Ne.symm hq)
      have h := roundPos_err q hpos
      rw [if_neg hneg, abs_of_pos hpos]
      convert h using 2
      ring

theorem float64Round_rel (q : ℚ) :
    ∃ d : ℚ, |d| ≤ 1 / 2 ^ 53 ∧ float64Round q = q * (1 + d) := by
  by_cases hq : q = 0
  · exact ⟨0, by simp, by simp [float64Round, hq]⟩
  · refine ⟨(float64Round q - q) / q, ?_, by field_simp⟩
    rw [abs_div, div_le_iff₀ (abs_pos.mpr hq)]
    have := float64Round_err q
    calc |float64Round q - q| ≤ |q| / 2 ^ 53 := this
      _ = 1 / 2 ^ 53 * |q| := by ring

theorem float64Round_of_near (q : ℚ) (e m : ℤ) (h1 : (2 : ℚ) ^ e ≤ q)
    (h2 : q < (2 : ℚ) ^ (e + 1)) (hm : |q / (2 : ℚ) ^ (e - 52) - m| < 1 / 2) :
    float64Round q = m * (2 : ℚ) ^ (e - 52) := by
  have hq : 0 < q := lt_of_lt_of_le (by positivity) h1
  have hlog : Int.log 2 q = e := by
    apply le_antisymm
    · have := (Int.lt_zpow_iff_log_lt (b := 2) (by norm_num) hq (x := e + 1)).mp
        (by simpa using h2)
      omega
    · exact (Int.zpow_le_iff_le_log (b := 2) (by norm_num) hq).mp (by simpa using h1)
  unfold float64Round
  rw [if_neg hq.ne', if_neg (not_lt.mpr hq.le), abs_of_pos hq, hlog,
    roundHalfEven_of_near _ m hm]
  ring


/-- The conversion of an `int64` above 2^53 rounds to the nearest `float64`, to the even
significand when two are equally near; below 2^53 it is exact. -/
theorem float64OfInt64_ties_to_even :
    float64OfInt64 (2 ^ 53 + 1) = 2 ^ 53 ∧ float64OfInt64 (2 ^ 53 + 3) = 2 ^ 53 + 4 ∧
    float64OfInt64 (2 ^ 53 - 1) = 2 ^ 53 - 1 := by
  have hlog : ∀ q : ℚ, (2 : ℚ) ^ (53 : ℤ) ≤ q → q < (2 : ℚ) ^ ((53 : ℤ) + 1) →
      Int.log 2 q = 53 := by
    intro q h1 h2
    have hq : 0 < q := lt_of_lt_of_le (by positivity) h1
    apply le_antisymm
    · have := (Int.lt_zpow_iff_log_lt (b := 2) (by norm_num) hq (x := 53 + 1)).mp
        (by simpa using h2)
      omega
    · exact (Int.zpow_le_iff_le_log (b := 2) (by norm_num) hq).mp (by simpa using h1)
  refine ⟨?_, ?_, ?_⟩
  · have hx : ((2 ^ 53 + 1 : ℤ) : ℚ) = 9007199254740993 := by norm_num
    have hf : ⌊(9007199254740993 / 2 : ℚ)⌋ = 4503599627370496 :=
      Int.floor_eq_iff.mpr ⟨by norm_num, by norm_num⟩
    have hr : Int.fract (9007199254740993 / 2 : ℚ) = 1 / 2 := by
      rw [Int.fract, hf]; norm_num
    unfold float64OfInt64 float64Round
    rw [hx, if_neg (by norm_num), if_neg (by norm_num), abs_of_pos (by norm_num),
      hlog _ (by norm_num) (by norm_num)]
    have h2 : (9007199254740993 : ℚ) / 2 ^ ((53 : ℤ) - 52) = 9007199254740993 / 2 := by
      norm_num
    rw [h2]
    unfold roundHalfEven
    rw [hr, hf]
    norm_num
  · have hx : ((2 ^ 53 + 3 : ℤ) : ℚ) = 9007199254740995 := by norm_num
    have hf : ⌊(9007199254740995 / 2 : ℚ)⌋ = 4503599627370497 :=
      Int.floor_eq_iff.mpr ⟨by norm_num, by norm_num⟩
    have hr : Int.fract (9007199254740995 / 2 : ℚ) = 1 / 2 := by
      rw [Int.fract, hf]; norm_num
    unfold float64OfInt64 float64Round
    rw [hx, if_neg (by norm_num), if_neg (by norm_num), abs_of_pos (by norm_num),
      hlog _ (by norm_num) (by norm_num)]
    have h2 : (9007199254740995 : ℚ) / 2 ^ ((53 : ℤ) - 52) = 9007199254740995 / 2 := by
      norm_num
    rw [h2]
    unfold roundHalfEven
    rw [hr, hf]
    norm_num
  · unfold float64OfInt64
    rw [float64Round_of_near _ 52 (2 ^ 53 - 1) (by norm_num) (by norm_num) (by norm_num)]
    norm_num

theorem float64_quotient_accuracy (p v : ℤ) (hv : v ≠ 0) :
    |float64Mul (float64Div (float64OfInt64 p) (float64OfInt64 v)) 100 - (p : ℚ) / v * 100| ≤
      |(p : ℚ) / v * 100| / 2 ^ 50 := by
  obtain ⟨d1, h1, e1⟩ := float64Round_rel (p : ℚ)
  obtain ⟨d2, h2, e2⟩ := float64Round_rel (v : ℚ)
  obtain ⟨d3, h3, e3⟩ := float64Round_rel ((p : ℚ) * (1 + d1) / ((v : ℚ) * (1 + d2)))
  obtain ⟨d4, h4, e4⟩ :=
    float64Round_rel ((p : ℚ) * (1 + d1) / ((v : ℚ) * (1 + d2)) * (1 + d3) * 100)
  have hres : float64Mul (float64Div (float64OfInt64 p) (float64OfInt64 v)) 100 =
      (p : ℚ) * (1 + d1) / ((v : ℚ) * (1 + d2)) * (1 + d3) * 100 * (1 + d4) := by
    unfold float64Mul float64Div float64OfInt64
    rw [e1, e2, e3, e4]
  have hvq : (v : ℚ) ≠ 0 := by exact_mod_cast hv
  rw [abs_le] at h1 h2 h3 h4
  have hu : (1 : ℚ) / 2 ^ 53 = 1 / 9007199254740992 := by norm_num
  rw [hu] at h1 h2 h3 h4
  have hd2 : (0 : ℚ) < 1 + d2 := by linarith [h2.1]
  have hF : |(1 + d1) * (1 + d3) * (1 + d4) / (1 + d2) - 1| ≤ 1 / 2 ^ 50 := by
    have h13 : |d1 * d3| ≤ 1 / 9007199254740992 * (1 / 9007199254740992) := by
      rw [abs_mul]
      exact mul_le_mul (abs_le.mpr h1) (abs_le.mpr h3) (abs_nonneg _) (by norm_num)
    have h14 : |d1 * d4| ≤ 1 / 9007199254740992 * (1 / 9007199254740992) := by
      rw [abs_mul]
      exact mul_le_mul (abs_le.mpr h1) (abs_le.mpr h4) (abs_nonneg _) (by norm_num)
    have h34 : |d3 * d4| ≤ 1 / 9007199254740992 * (1 / 9007199254740992) := by
      rw [abs_mul]
      exact mul_le_mul (abs_le.mpr h3) (abs_le.mpr h4) (abs_nonneg _) (by norm_num)
    have h134 : |d1 * d3 * d4| ≤
        1 / 9007199254740992 * (1 / 9007199254740992) * (1 / 9007199254740992) := by
      rw [abs_mul]
      exact mul_le_mul h13 (abs_le.mpr h4) (abs_nonneg _) (by norm_num)
    rw [abs_le] at h13 h14 h34 h134
    have hN : (1 + d1) * (1 + d3) * (1 + d4) / (1 + d2) - 1 =
        (d1 + d3 + d4 - d2 + d1 * d3 + d1 * d4 + d3 * d4 + d1 * d3 * d4) / (1 + d2) := by
      field_simp
      ring
    rw [hN, abs_le]
    constructor
    · rw [le_div_iff₀ hd2]
      norm_num at h13 h14 h34 h134 ⊢
      nlinarith [h1.1, h1.2, h2.1, h2.2, h3.1, h3.2, h4.1, h4.2, h13.1, h14.1, h34.1, h134.1]
    · rw [div_le_iff₀ hd2]
      norm_num at h13 h14 h34 h134 ⊢
      nlinarith [h1.1, h1.2, h2.1, h2.2, h3.1, h3.2, h4.1, h4.2, h13.2, h14.2, h34.2, h134.2]
  have hX : (p : ℚ) * (1 + d1) / ((v : ℚ) * (1 + d2)) * (1 + d3) * 100 * (1 + d4) -
      (p : ℚ) / v * 100 =
      (p : ℚ) / v * 100 * ((1 + d1) * (1 + d3) * (1 + d4) / (1 + d2) - 1) := by
    field_simp
    ring
  rw [hres, hX, abs_mul]
  calc |(p : ℚ) / v * 100| * |(1 + d1) * (1 + d3) * (1 + d4) / (1 + d2) - 1|
      ≤ |(p : ℚ) / v * 100| * (1 / 2 ^ 50) := mul_le_mul_of_nonneg_left hF (abs_nonneg _)
    _ = |(p : ℚ) / v * 100| / 2 ^ 50 := by ring

theorem float64Round_25 : float64Round 25 = 25 := by
  rw [float64Round_of_near 25 4 (25 * 2 ^ 48) (by norm_num) (by norm_num) (by norm_num)]
  norm_num

theorem float64Round_250 : float64Round 250 = 250 := by
  rw [float64Round_of_near 250 7 (250 * 2 ^ 45) (by norm_num) (by norm_num) (by norm_num)]
  norm_num

theorem float64Round_tenth : float64Round (25 / 250) = 7205759403792794 / 2 ^ 56 := by
  rw [float64Round_of_near (25 / 250) (-4) 7205759403792794 (by norm_num) (by norm_num)
    (by norm_num [abs_lt])]
  norm_num

theorem float64Round_ten : float64Round (7205759403792794 / 2 ^ 56 * 100) = 10 := by
  rw [float64Round_of_near _ 3 5629499534213120 (by norm_num) (by norm_num)
    (by norm_num [abs_lt])]
  norm_num


theorem float64Round_29 : float64Round 29 = 29 := by
  rw [float64Round_of_near 29 4 (29 * 2 ^ 48) (by norm_num) (by norm_num) (by norm_num)]
  norm_num

theorem float64Round_100 : float64Round 100 = 100 := by
  rw [float64Round_of_near 100 6 (100 * 2 ^ 46) (by norm_num) (by norm_num) (by norm_num)]
  norm_num

theorem float64Round_29_100 : float64Round (29 / 100) = 5224175567749775 / 2 ^ 54 := by
  rw [float64Round_of_near (29 / 100) (-2) 5224175567749775 (by norm_num) (by norm_num)
    (by norm_num [abs_lt])]
  norm_num

theorem float64Round_29_100_times : float64Round (5224175567749775 / 2 ^ 54 * 100) =
    29 - 1 / 2 ^ 48 := by
  rw [float64Round_of_near _ 4 8162774324609023 (by norm_num) (by norm_num)
    (by norm_num [abs_lt])]
  norm_num

theorem CalculateConversionRate_of_stats (repo : StatsRepo) (startDate endDate : String)
    (views purchases : List EventStats)
    (hv : repo ⟨PageView, startDate, endDate, ""⟩ = .ok views)
    (hp : repo ⟨Purchase, startDate, endDate, ""⟩ = .ok purchases)
    (h0 : sumCounts views ≠ 0) :
    CalculateConversionRate repo startDate endDate =
      .ok (float64Round (float64Round
        (float64Round (sumCounts purchases) / float64Round (sumCounts views)) * 100)) := by
  simp [CalculateConversionRate, hv, hp, h0, float64Mul, float64Div, float64OfInt64]

/-- C27 (as the code has it). When the repository returns a list for the page views and a
list for the purchases, `CalculateConversionRate` returns no error and the `float64` value
of `float64(totalPurchases) / float64(totalViews) * 100`, every operation rounded to the
nearest `float64`; that value lies within a relative 2^-50 of (sum of purchase counts) /
(sum of view counts) x 100. It returns 0, without dividing, when the sum of the view counts
is 0. The sums are the `int64` totals of the loops, which are the plain sums whenever the
counts are non-negative and their sum is below 2^63. -/
theorem conversion_rate_value (repo : StatsRepo) (startDate endDate : String)
    (views purchases : List EventStats)
    (hv : repo ⟨PageView, startDate, endDate, ""⟩ = .ok views)
    (hp : repo ⟨Purchase, startDate, endDate, ""⟩ = .ok purchases) :
    (sumCounts views = 0 → CalculateConversionRate repo startDate endDate = .ok 0) ∧
    (sumCounts views ≠ 0 →
      CalculateConversionRate repo startDate endDate =
        .ok (float64Round (float64Round
          (float64Round (sumCounts purchases) / float64Round (sumCounts views)) * 100)) ∧
      |float64Round (float64Round
          (float64Round (sumCounts purchases) / float64Round (sumCounts views)) * 100) -
        (sumCounts purchases : ℚ) / (sumCounts views : ℚ) * 100| ≤
        |(sumCounts purchases : ℚ) / (sumCounts views : ℚ) * 100| / 2 ^ 50) ∧
    (∀ stats : List EventStats, (∀ s ∈ stats, 0 ≤ s.Count) →
      (stats.map EventStats.Count).sum < 2 ^ 63 →
      sumCounts stats = (stats.map EventStats.Count).sum) := by
  refine ⟨fun h0 => ?_, fun h0 => ⟨?_, ?_⟩, sumCounts_no_overflow⟩
  · simp [CalculateConversionRate, hv, hp, h0]
  · exact CalculateConversionRate_of_stats repo startDate endDate views purchases hv hp h0
  · exact float64_quotient_accuracy _ _ h0

/-- C27, counterexample. With 100 page views and 29 purchases the value returned is
29 - 2^-48, the `float64` printed as 28.999999999999996, and not 29 / 100 x 100 = 29: the
quotient 29 / 100 is rounded to a `float64` before it is multiplied by 100, and the product
is rounded again. -/
theorem conversion_rate_not_exact :
    sumCounts [⟨"2024-01-01", "page_view", 100⟩] = 100 ∧
    sumCounts [⟨"2024-01-01", "purchase", 29⟩] = 29 ∧
    CalculateConversionRate sampleRoundingRepo "2024-01-01" "2024-01-02" =
      .ok (29 - 1 / 2 ^ 48) ∧
    CalculateConversionRate sampleRoundingRepo "2024-01-01" "2024-01-02" ≠
      .ok ((29 : ℚ) / 100 * 100) := by
  have h1 : sumCounts [⟨"2024-01-01", "purchase", 29⟩] = 29 := by decide
  have h2 : sumCounts [⟨"2024-01-01", "page_view", 100⟩] = 100 := by decide
  have h : CalculateConversionRate sampleRoundingRepo "2024-01-01" "2024-01-02" =
      .ok (29 - 1 / 2 ^ 48) := by
    rw [CalculateConversionRate_of_stats sampleRoundingRepo "2024-01-01" "2024-01-02"
      [⟨"2024-01-01", "page_view", 100⟩] [⟨"2024-01-01", "purchase", 29⟩] rfl rfl
      (by decide), h1, h2]
    push_cast
    rw [float64Round_29, float64Round_100, float64Round_29_100, float64Round_29_100_times]
  refine ⟨h2, h1, h, ?_⟩
  rw [h]
  intro hc
  injection hc with hc
  norm_num at hc

theorem conversion_rate_value_witness :
    sumCounts [⟨"2024-01-01", "page_view", 100⟩, ⟨"2024-01-02", "page_view", 150⟩] ≠ 0 ∧
    CalculateConversionRate sampleConversionRepo "2024-01-01" "2024-01-02" = .ok 10 := by
  have h1 : sumCounts [⟨"2024-01-01", "purchase", 10⟩, ⟨"2024-01-02", "purchase", 15⟩]
      = 25 := by decide
  have h2 : sumCounts [⟨"2024-01-01", "page_view", 100⟩,
      ⟨"2024-01-02", "page_view", 150⟩] = 250 := by decide
  have h := (conversion_rate_value sampleConversionRepo "2024-01-01" "2024-01-02"
    [⟨"2024-01-01", "page_view", 100⟩, ⟨"2024-01-02", "page_view", 150⟩]
    [⟨"2024-01-01", "purchase", 10⟩, ⟨"2024-01-02", "purchase", 15⟩] rfl rfl).2.1
      (by decide)
  refine ⟨by decide, ?_⟩
  rw [h.1, h1, h2]
  push_cast
  rw [float64Round_25, float64Round_250, float64Round_tenth, float64Round_ten]

/-! ## Buckets and zone offsets -/

/-- C29 (as the code has it). The hourly and the daily key of an envelope are the rendering
of the wall clock of its timestamp in the timestamp's own zone: two envelopes whose
timestamps show the same wall clock get the same keys. -/
theorem aggregate_keys_follow_wall_clock (e₁ e₂ : Event)
    (h : e₁.Timestamp.wall = e₂.Timestamp.wall) :
    hourKey e₁ = hourKey e₂ ∧ userKey e₁ = userKey e₂ := by
  simp [hourKey, userKey, GoTime.formatHour, GoTime.formatDay, GoTime.wallDay, GoTime.hour, h]

/-- C29, counterexample. The instant 2024-01-01 23:30:00 UTC written with offset 0 and
written with offset +03:00 gives different hourly keys and different daily keys. -/
theorem same_instant_different_buckets :
    (sampleAt "e1" 1704151800 "page_view" "u1").Timestamp.unix =
      ({ sampleAt "e2" 1704151800 "page_view" "u1" with
          Timestamp := ⟨1704151800, 10800⟩ } : Event).Timestamp.unix ∧
    hourKey (sampleAt "e1" 1704151800 "page_view" "u1") = "stats:hourly:2024-01-01-23" ∧
    hourKey { sampleAt "e2" 1704151800 "page_view" "u1" with
      Timestamp := ⟨1704151800, 10800⟩ } = "stats:hourly:2024-01-02-02" ∧
    userKey (sampleAt "e1" 1704151800 "page_view" "u1") = "users:daily:2024-01-01" ∧
    userKey { sampleAt "e2" 1704151800 "page_view" "u1" with
      Timestamp := ⟨1704151800, 10800⟩ } = "users:daily:2024-01-02" := by
  decide

/-! ## Cache of statistics -/

/-- C30, the code on two groupings. Two requests that differ only in `group_by` have the
same cache key. After the request grouped by day has filled the cache, the request grouped
by hour is answered from the cache with the daily bucket, while the repository would return
the hourly buckets for it. -/
theorem cache_key_ignores_group_by :
    sampleRequest "day" ≠ sampleRequest "hour" ∧
    cacheKey (sampleRequest "day") = cacheKey (sampleRequest "hour") ∧
    (GetEventStatistics sampleRepo (fun _ => none) (sampleRequest "day")).2.toOption =
      some [⟨"2024-01-01 00:00:00", "page_view", 5⟩] ∧
    (GetEventStatistics sampleRepo
        (GetEventStatistics sampleRepo (fun _ => none) (sampleRequest "day")).1
        (sampleRequest "hour")).2.toOption =
      some [⟨"2024-01-01 00:00:00", "page_view", 5⟩] ∧
    (sampleRepo (sampleRequest "hour")).toOption =
      some [⟨"2024-01-01 10:00:00", "page_view", 2⟩, ⟨"2024-01-01 11:00:00", "page_view", 3⟩] := by
  decide

/-! ## Instances of the publisher and service properties -/

theorem sendBatch_skips_unserializable_witness :
    pickyRuntime.marshal (sampleEvent "") = none ∧
    (SendBatch.messages pickyRuntime
      [sampleEvent "a", sampleEvent "", sampleEvent "b"]).map (fun m => m.Value) =
        ["a", "b"] ∧
    (SendBatch pickyRuntime (some "broker down") (NewEventProducer 3)
      [sampleEvent "a", sampleEvent "", sampleEvent "b"]).2 = some "broker down" ∧
    (∀ e ∈ List.replicate 10 (sampleEvent "a"), (sampleRuntime.marshal e).isSome = true) ∧
    (SendBatch.messages sampleRuntime (List.replicate 10 (sampleEvent "a"))).length = 10 :=
  ⟨rfl,
    (sendBatch_skips_unserializable pickyRuntime none (NewEventProducer 3)
      [sampleEvent "a", sampleEvent "", sampleEvent "b"]).2.2.1.trans (by decide),
    (sendBatch_skips_unserializable pickyRuntime (some "broker down") (NewEventProducer 3)
      [sampleEvent "a", sampleEvent "", sampleEvent "b"]).2.1,
    fun _ _ => rfl,
    ((sendBatch_skips_unserializable sampleRuntime none (NewEventProducer 3)
      (List.replicate 10 (sampleEvent "a"))).2.2.2.2.2.2 (fun _ _ => rfl)).trans
      (List.length_replicate _ _)⟩

theorem processEvent_defaults_witness :
    (⟨"id-1", 7, 8, 9, none⟩ : ProcessEnv).uuid ≠ "" ∧
    (ProcessEvent sampleRuntime ⟨"id-1", 7, 8, 9, none⟩ (NewEventProducer 1)
      { sampleEvent "" with EventType := "" }).event.ID ≠ "" :=
  ⟨by decide,
    (processEvent_defaults sampleRuntime ⟨"id-1", 7, 8, 9, none⟩ (NewEventProducer 1)
      { sampleEvent "" with EventType := "" } (by decide)).1⟩

theorem getStatistics_validates_witness :
    (Query.get [("event_type", "page_view"), ("start_date", "")] "event_type" = "" ∨
      Query.get [("event_type", "page_view"), ("start_date", "")] "start_date" = "" ∨
      Query.get [("event_type", "page_view"), ("start_date", "")] "end_date" = "") ∧
    (GetStatistics sampleRepo [("event_type", "page_view"), ("start_date", "")]).status = 400 ∧
    (GetStatistics sampleRepo [("event_type", "page_view"), ("start_date", "")]).calls = [] :=
  ⟨by decide,
    ((getStatistics_validates sampleRepo
      [("event_type", "page_view"), ("start_date", "")]).1 (by decide)).1,
    ((getStatistics_validates sampleRepo
      [("event_type", "page_view"), ("start_date", "")]).1 (by decide)).2.2⟩

theorem aggregate_keys_follow_wall_clock_witness :
    (sampleAt "e1" 1704151800 "page_view" "u1").Timestamp.wall =
      ({ sampleAt "e2" 0 "purchase" "u2" with
          Timestamp := ⟨1704141000, 10800⟩ } : Event).Timestamp.wall ∧
    hourKey (sampleAt "e1" 1704151800 "page_view" "u1") =
      hourKey { sampleAt "e2" 0 "purchase" "u2" with Timestamp := ⟨1704141000, 10800⟩ } :=
  ⟨by decide,
    (aggregate_keys_follow_wall_clock (sampleAt "e1" 1704151800 "page_view" "u1")
      { sampleAt "e2" 0 "purchase" "u2" with Timestamp := ⟨1704141000, 10800⟩ }
      (by decide)).1⟩

end EventAnalytics
